import Mathlib

/-!
C++ Insights code generator: scope stacks, closure hoisting and lifetimes.

A shallow embedding of the scope-aware parts of `CodeGenerator.cpp` / `CodeGenerator.h`:

* the lambda stack (`LambdaHelper`, `LambdaScopeHandler`, `GetBuffer`) that hoists a closure
  class in front of the statement using it;
* the lifetime bookkeeping (`LifetimeTracker`, `InsertArg(CompoundStmt)`,
  `InsertArg(ReturnStmt)`, `InsertArg(ExprWithCleanups)`, `TemporaryDeclFinder`);
* the rendering of lambda expressions, template parameter objects and template argument
  lists, the rewriting of loops, the implicit `return 0`, and the filling of arrays;
* the recorded positions (`mCurrentVarDeclPos` and its companions) on the way through calls,
  classes and `std::initializer_list` expressions, with the faults the code can stop at;
* the table of vtables and the semicolons of `HandleCompoundStmt`.

Buffers are lists of characters, `size_t` positions are natural numbers, references to buffers
are explicit handles (`BufRef`), and a fatal bounds violation is the `none` result.
-/

namespace CppInsights

/-! ## Output buffers -/

/-- Modelled from the spec: `OutputFormatHelper` (OutputFormatHelper.h is not among the
sources). Only its text matters here: a buffer is the sequence of characters written so far. -/
abbrev OutputFormatHelper := List Char

namespace OutputFormatHelper

/-- Modelled from the spec: `CurrentPos()` is a handle to the current end of the buffer. -/
def CurrentPos (ofm : OutputFormatHelper) : Nat := ofm.length

/-- Modelled from the spec: `Append(text)` writes at the current end. -/
def Append (ofm : OutputFormatHelper) (text : List Char) : OutputFormatHelper := ofm ++ text

/-- Modelled from the spec: `empty()` tells whether nothing has been written. -/
def empty (ofm : OutputFormatHelper) : Bool := ofm.isEmpty

/-- Modelled from the spec: `InsertAt(position, text)` inserts `text` immediately before the
offset `position`; an offset past the end of the buffer is a fatal bounds violation. -/
def InsertAt (ofm : OutputFormatHelper) (atPos : Nat) (data : List Char) :
    Option OutputFormatHelper :=
  if atPos ≤ ofm.length then some (ofm.take atPos ++ data ++ ofm.drop atPos) else none

end OutputFormatHelper

/-! ## The generic stack -/

/-- Modelled from the spec: `StackList<T>` (StackList.h is not among the sources), the LIFO
facility of the scope stacks. The entries are kept in push order: the head of the list is the
first entry pushed (the outermost scope), the last element is `back()`. -/
abbrev StackList (α : Type) := List α

namespace StackList

/-- Modelled from the spec: `push` puts an entry on top of the stack. -/
def push {α : Type} (stack : StackList α) (entry : α) : StackList α := stack ++ [entry]

/-- Modelled from the spec: `pop` removes the top entry and hands it back; nothing is handed
back for an empty stack. -/
def pop {α : Type} (stack : StackList α) : Option (α × StackList α) :=
  match stack.getLast? with
  | none => none
  | some top => some (top, stack.dropLast)

/-- Modelled from the spec: `back()` is the entry pushed last. -/
def back {α : Type} (stack : StackList α) : Option α := stack.getLast?

/-- Modelled from the spec: `empty()`. -/
def empty {α : Type} (stack : StackList α) : Bool := stack.isEmpty

/-- Modelled from the spec: the iteration over the entries without popping, which goes "from
innermost to outermost", "from top to bottom": a range-based `for` visits `back()`, the entry
pushed last, first and the entry pushed first last. Each entry comes with its place in the
stack, counted from the entry pushed first. -/
def iterate {α : Type} (stack : StackList α) : List (Nat × α) := stack.enum.reverse

end StackList

/-! ## The lambda stack -/

/-- The caller contexts of a lambda, `CodeGenerator::LambdaCallerType`. -/
inductive LambdaCallerType where
  | VarDecl
  | InitCapture
  | CallExpr
  | OperatorCallExpr
  | MemberCallExpr
  | LambdaExpr
  | ReturnStmt
  | BinaryOperator
  | CXXMethodDecl
  | TemplateHead
  | Decltype
  deriving DecidableEq, Repr

/-- A reference to an output buffer (`OutputFormatHelper&`): either a buffer owned by a code
generator, or the private buffer of the lambda-stack entry with the given index (counted from
the entry pushed first). -/
inductive BufRef where
  | output (id : Nat)
  | lambda (idx : Nat)
  deriving DecidableEq, Repr

/-- The members of `CodeGenerator::LambdaHelper`. `self` is the address of the object, the
identity by which `StackList` links its entries. -/
structure LambdaHelper where
  self : Nat
  mLambdaCallerType : LambdaCallerType
  mCurrentVarDeclPos : Nat
  mOutputFormatHelper : BufRef
  mLambdaOutputFormatHelper : OutputFormatHelper := []
  mInits : List Char := []
  mForceName : Bool := false
  deriving DecidableEq, Repr

namespace LambdaHelper

/-- The accessor `callerType()`. -/
def callerType (l : LambdaHelper) : LambdaCallerType := l.mLambdaCallerType

/-- The accessor `buffer()`. -/
def buffer (l : LambdaHelper) : OutputFormatHelper := l.mLambdaOutputFormatHelper

/-- The accessor `insertName()`. -/
def insertName (l : LambdaHelper) : Bool :=
  (LambdaCallerType.Decltype != l.mLambdaCallerType) || l.mForceName

/-- The members fixed at construction (`const` members and the reference), with the identity
of the object. -/
def key (l : LambdaHelper) : Nat × LambdaCallerType × Nat × BufRef :=
  (l.self, l.mLambdaCallerType, l.mCurrentVarDeclPos, l.mOutputFormatHelper)

end LambdaHelper

/-- A push or a pop of the lambda stack, with the address of the entry concerned. -/
inductive StackEvent where
  | push (entry : Nat)
  | pop (entry : Nat)
  deriving DecidableEq, Repr

/-- The memory a traversal works on: the buffers owned by code generators, the lambda stack
(whose entries own their private buffers), and the record of the stack's push and pop
events. -/
structure Heap where
  outputs : Nat → OutputFormatHelper
  mStack : StackList LambdaHelper
  events : List StackEvent := []

namespace Heap

/-- Dereference a buffer reference; a reference to an entry that is not on the stack
dangles. -/
def read (h : Heap) : BufRef → Option OutputFormatHelper
  | .output id => some (h.outputs id)
  | .lambda idx => (h.mStack[idx]?).map LambdaHelper.buffer

/-- Replace the text of the buffer a reference points to. -/
def write (h : Heap) (ref : BufRef) (text : OutputFormatHelper) : Heap :=
  match ref with
  | .output id => { h with outputs := Function.update h.outputs id text }
  | .lambda idx =>
    { h with mStack := List.modify (fun l => { l with mLambdaOutputFormatHelper := text }) idx
                          h.mStack }

end Heap

namespace LambdaScopeHandler

/-- The case labels of the `switch` in `GetBuffer` that return `l.buffer()`. -/
def GetBuffer.returnsBuffer : LambdaCallerType → Bool
  | .CallExpr => true
  | .VarDecl => true
  | .ReturnStmt => true
  | .OperatorCallExpr => true
  | .MemberCallExpr => true
  | .BinaryOperator => true
  | .CXXMethodDecl => true
  | _ => false

/-- The loop of `GetBuffer` over the entries in the order of the iteration, each with its
place `idx` in the stack: stop at the first one whose caller type returns its buffer. -/
def GetBuffer.loop : List (Nat × LambdaHelper) → Option Nat
  | [] => none
  | (idx, l) :: rest =>
    if GetBuffer.returnsBuffer l.callerType then some idx else GetBuffer.loop rest

/-- The function `LambdaScopeHandler::GetBuffer`: the buffer of the entry the loop stops at,
and `outputFormatHelper` when the loop runs to its end. -/
def GetBuffer (mStack : StackList LambdaHelper) (outputFormatHelper : BufRef) : BufRef :=
  match GetBuffer.loop (StackList.iterate mStack) with
  | some idx => .lambda idx
  | none => outputFormatHelper

/-- The constructor `LambdaHelper(lambdaCallerType, outputFormatHelper)`: the position is the
`CurrentPos()` of the buffer referred to, the private buffer starts empty. -/
def newHelper (h : Heap) (self : Nat) (lambdaCallerType : LambdaCallerType)
    (outputFormatHelper : BufRef) : Option LambdaHelper :=
  match h.read outputFormatHelper with
  | none => none
  | some ofm =>
    some { self := self
           mLambdaCallerType := lambdaCallerType
           mCurrentVarDeclPos := OutputFormatHelper.CurrentPos ofm
           mOutputFormatHelper := outputFormatHelper }

/-- The constructor `LambdaScopeHandler(stack, outputFormatHelper, lambdaCallerType)`:
`mHelper{lambdaCallerType, GetBuffer(outputFormatHelper)}` followed by `mStack.push(mHelper)`.
`self` is the address of `mHelper`. -/
def construct (h : Heap) (self : Nat) (outputFormatHelper : BufRef)
    (lambdaCallerType : LambdaCallerType) : Option Heap :=
  match newHelper h self lambdaCallerType (GetBuffer h.mStack outputFormatHelper) with
  | none => none
  | some mHelper =>
    some { h with mStack := StackList.push h.mStack mHelper
                  events := h.events ++ [StackEvent.push self] }

/-- The member `LambdaHelper::finish()`, run on an entry that has just been popped. -/
def finish (h : Heap) (l : LambdaHelper) : Option Heap :=
  if ! OutputFormatHelper.empty l.mLambdaOutputFormatHelper then
    match h.read l.mOutputFormatHelper with
    | none => none
    | some target =>
      match OutputFormatHelper.InsertAt target l.mCurrentVarDeclPos l.mLambdaOutputFormatHelper with
      | none => none
      | some text => some (h.write l.mOutputFormatHelper text)
  else some h

/-- The destructor `~LambdaScopeHandler()`: `if(not mStack.empty()) mStack.pop()->finish()`. -/
def destruct (h : Heap) : Option Heap :=
  if ! StackList.empty h.mStack then
    match StackList.pop h.mStack with
    | none => some h
    | some (top, rest) =>
      finish { h with mStack := rest, events := h.events ++ [StackEvent.pop top.self] } top
  else some h

end LambdaScopeHandler

/-- What a tree walk does to the buffers and the lambda stack: it appends text to a buffer,
or it creates a `LambdaScopeHandler` on the C++ stack (`LAMBDA_SCOPE_HELPER`), walks a
sub-tree during the handler's lifetime and destroys the handler when the enclosing function
returns. `self` is the address of the handler's `mHelper`. -/
inductive Traversal where
  | done
  | append (buf : BufRef) (text : List Char) (next : Traversal)
  | scope (self : Nat) (lambdaCallerType : LambdaCallerType) (ofm : BufRef)
      (body : Traversal) (next : Traversal)
  deriving Repr

namespace Traversal

/-- Run a traversal. A dangling buffer reference or a fatal bounds violation gives `none`. -/
def run : Traversal → Heap → Option Heap
  | done, h => some h
  | append buf text next, h =>
    match h.read buf with
    | none => none
    | some ofm => run next (h.write buf (OutputFormatHelper.Append ofm text))
  | scope self lambdaCallerType ofm body next, h =>
    match LambdaScopeHandler.construct h self ofm lambdaCallerType with
    | none => none
    | some h1 =>
      match run body h1 with
      | none => none
      | some h2 =>
        match LambdaScopeHandler.destruct h2 with
        | none => none
        | some h3 => run next h3

/-- A buffer reference is live when the lambda stack has `depth` entries. -/
def liveRef (depth : Nat) : BufRef → Bool
  | .output _ => true
  | .lambda idx => decide (idx < depth)

/-- Every buffer reference used by the traversal is live where it is used, the traversal
starting with `depth` entries on the lambda stack. -/
def live : Traversal → Nat → Bool
  | done, _ => true
  | append buf _ next, depth => liveRef depth buf && live next depth
  | scope _ _ ofm body next, depth =>
    liveRef depth ofm && live body (depth + 1) && live next depth

/-- The text the traversal itself appends to the generator-owned buffer `id`. -/
def appended (id : Nat) : Traversal → List Char
  | done => []
  | append buf text next =>
    (if buf = BufRef.output id then text else []) ++ appended id next
  | scope _ _ _ body next => appended id body ++ appended id next

/-- The push and pop events the handlers of the traversal stand for: each handler pushes its
own `mHelper` when constructed and is expected to pop that same entry when destroyed. -/
def brackets : Traversal → List StackEvent
  | done => []
  | append _ _ next => brackets next
  | scope self _ _ body next =>
    [StackEvent.push self] ++ brackets body ++ [StackEvent.pop self] ++ brackets next

end Traversal

/-- The decidable form of `Heap.WF`. -/
def Heap.wellFormed (h : Heap) : Bool :=
  (List.range h.mStack.length).all fun i =>
    match h.mStack[i]? with
    | none => true
    | some l =>
      Traversal.liveRef i l.mOutputFormatHelper &&
        match h.read l.mOutputFormatHelper with
        | none => false
        | some t => decide (l.mCurrentVarDeclPos ≤ t.length)

/-- The LIFO discipline on a record of events, replayed against the addresses of the entries
that are open: a push opens an entry, a pop must name the entry opened last. The result is the
list of entries still open, or `none` when a pop is out of order. -/
def StackEvent.replay : List StackEvent → List Nat → Option (List Nat)
  | [], opened => some opened
  | .push entry :: rest, opened => StackEvent.replay rest (entry :: opened)
  | .pop _ :: _, [] => none
  | .pop entry :: rest, last :: opened =>
    if entry = last then StackEvent.replay rest opened else none

/-- The first `n` entries of the stack keep their identity and fixed members from `h` to `h'`,
and no buffer gets shorter. -/
def Heap.Le (n : Nat) (h h' : Heap) : Prop :=
  (∀ id, (h.outputs id).length ≤ (h'.outputs id).length) ∧
  ∀ i, i < n → ∀ l, h.mStack[i]? = some l →
    ∃ l', h'.mStack[i]? = some l' ∧ l'.key = l.key ∧ l.buffer.length ≤ l'.buffer.length

/-- Every entry refers to a buffer that lives longer than itself, and its recorded position
lies inside that buffer. -/
def Heap.WF (h : Heap) : Prop :=
  ∀ i l, h.mStack[i]? = some l →
    Traversal.liveRef i l.mOutputFormatHelper = true ∧
    ∃ t, h.read l.mOutputFormatHelper = some t ∧ l.mCurrentVarDeclPos ≤ t.length

/-! ## Sample inputs -/

namespace Sample

/-- The walk through `auto a = f([] {});` below the handler of the variable declaration: the
declaration writes `a=`, the call expression creates its own handler, writes `f(`, the lambda
expression writes its class `C` into the buffer of the entry on top of the stack and its name
`n` in place, and the statement is closed. -/
def callWithLambda : Traversal :=
  .append (.output 0) ['a', '='] <|
  .scope 11 .CallExpr (.output 0)
    (.append (.output 0) ['f', '('] <|
     .append (.lambda 1) ['C'] <|
     .append (.output 0) ['n', ')'] .done) <|
  .append (.output 0) [';'] .done

/-- A heap with the output `x;` and an empty lambda stack. -/
def emptyStack : Heap := { outputs := fun _ => ['x', ';'], mStack := [] }

/-- The entry of a variable declaration, pushed first. -/
def varDeclEntry : LambdaHelper :=
  { self := 10, mLambdaCallerType := .VarDecl, mCurrentVarDeclPos := 2,
    mOutputFormatHelper := .output 0 }

/-- The entry of a call expression, pushed while `varDeclEntry` is on the stack. -/
def callExprEntry : LambdaHelper :=
  { self := 11, mLambdaCallerType := .CallExpr, mCurrentVarDeclPos := 0,
    mOutputFormatHelper := .lambda 0 }

/-- The entry of a lambda expression rendered with an empty stack. -/
def lambdaExprEntry : LambdaHelper :=
  { self := 12, mLambdaCallerType := .LambdaExpr, mCurrentVarDeclPos := 2,
    mOutputFormatHelper := .output 0 }

/-- A heap whose stack holds the entry of a variable declaration. -/
def inVarDecl : Heap := { outputs := fun _ => ['x', ';'], mStack := [varDeclEntry] }

/-- A heap whose stack holds the entry of a lambda expression. -/
def inLambdaExpr : Heap := { outputs := fun _ => ['x', ';'], mStack := [lambdaExprEntry] }

/-- The walk below the handler of a call expression that has a lambda as argument. -/
def lambdaArgument : Traversal :=
  .append (.output 0) ['f', '('] <|
  .append (.lambda 1) ['C'] <|
  .append (.output 0) ['n', ')'] .done

end Sample

/-! ## Lifetime tracking -/

/-- The switches read through `GetInsightsOptions()` (declared outside these sources) that
the lifetime code consults. The Cfront mode `UseShow2C` is taken to be off. -/
structure InsightsOptions where
  ShowLifetime : Bool
  deriving DecidableEq, Repr

/-- The storage durations of clang, of which the code tests `SD_FullExpression`. -/
inductive StorageDuration where
  | SD_FullExpression
  | SD_Automatic
  | SD_Thread
  | SD_Static
  | SD_Dynamic
  deriving DecidableEq, Repr

mutual
/-- The statements and expressions whose rendering takes part in the lifetime bookkeeping. A
node on which `CodeGenerator.cpp` creates a `TemporaryDeclFinder` carries in `found` the
temporaries this finder comes to handle, in the order its visitor handles them (the visitor
base class and the tree surgery of `ReplaceNode` are outside these sources). `Expr` stands for
every other kind of node, rendered by rendering its children. -/
inductive Stmt where
  | NullStmt
  | IntegerLiteral (value : Int)
  | DeclRefExpr (decl : Nat)
  | Expr (children : List Stmt)
  | CompoundStmt (body : List Stmt)
  | DeclStmt (decls : List VarDecl)
  | ReturnStmt (retValue : Option Stmt) (NRVOCandidate : Option Nat) (found : List Temporary)
  | IfStmt (conditionVariable : Option VarDecl) (init : Option Stmt) (cond : Stmt)
      (thenStmt : Stmt) (elseStmt : Option Stmt)
  | ExprWithCleanups (subExpr : Stmt) (found : List Temporary)
  | MaterializeTemporaryExpr (subExpr : Stmt)
/-- A variable declaration: its name (which also identifies it), whether its type is a class
type with a non-trivial destructor, the initializer that gets rendered, and what the
`TemporaryDeclFinder` created on the initializer comes to handle. -/
inductive VarDecl where
  | mk (name : Nat) (needsDestruction : Bool) (init : Option Stmt) (found : List Temporary)
/-- A temporary a `TemporaryDeclFinder` handles, with the variable `vd` it creates for it. -/
inductive Temporary where
  | CXXTemporaryObjectExpr (vd : VarDecl)
  | MaterializeTemporaryExpr (storageDuration : StorageDuration) (extendingDecl : Option Nat)
      (vd : VarDecl)
end

/-- The name of a declaration. -/
def VarDecl.name : VarDecl → Nat
  | .mk name _ _ _ => name

/-- Whether the declared object is of a class type with a non-trivial destructor. -/
def VarDecl.needsDestruction : VarDecl → Bool
  | .mk _ needsDestruction _ _ => needsDestruction

/-- The test `isa<ReturnStmt>`. -/
def Stmt.isReturnStmt : Stmt → Bool
  | .ReturnStmt _ _ _ => true
  | _ => false

/-- The test `isa<CompoundStmt>`. -/
def Stmt.isCompoundStmt : Stmt → Bool
  | .CompoundStmt _ => true
  | _ => false

/-- The test `isa<NullStmt>`. -/
def Stmt.isNullStmt : Stmt → Bool
  | .NullStmt => true
  | _ => false

/-- The test `isa<DeclStmt>`. -/
def Stmt.isDeclStmt : Stmt → Bool
  | .DeclStmt _ => true
  | _ => false

/-- The test `isa<IfStmt>`. -/
def Stmt.isIfStmt : Stmt → Bool
  | .IfStmt _ _ _ _ _ => true
  | _ => false

/-- The entry `LifetimeEntry` of `CodeGenerator.h`; `item` is the name of the declaration, or
nothing for the marker of a function start. -/
structure LifetimeEntry where
  item : Option Nat := none
  funcStart : Bool := false
  scope : Int := 0
  deriving DecidableEq, Repr

/-- The members of `LifetimeTracker` in `CodeGenerator.h`. -/
structure LifetimeTracker where
  scopeCounter : Int := 0
  objects : List LifetimeEntry := []
  deriving DecidableEq, Repr

namespace LifetimeTracker

/-- Modelled from the spec: `LifetimeTracker::StartScope` (the member functions of
`LifetimeTracker` are not among the sources) opens a lifetime scope; the start of a function
is marked by an entry without declaration. -/
def StartScope (t : LifetimeTracker) (funcStart : Bool) : LifetimeTracker :=
  { scopeCounter := t.scopeCounter + 1
    objects :=
      if funcStart then
        t.objects ++ [{ item := none, funcStart := true, scope := t.scopeCounter + 1 }]
      else t.objects }

/-- Modelled from the spec: `LifetimeTracker::Add`. A locally declared object of
non-trivially-destructible class type registers a destructor in the scope that is open. -/
def Add (t : LifetimeTracker) (decl : VarDecl) : LifetimeTracker :=
  if decl.needsDestruction then
    { t with objects := t.objects ++ [{ item := some decl.name, scope := t.scopeCounter }] }
  else t

/-- The place of the extending declaration among the pending entries. -/
def insertBefore (extending : Nat) (entry : Int → LifetimeEntry) :
    List LifetimeEntry → List LifetimeEntry
  | [] => []
  | e :: rest =>
    if e.item = some extending then entry e.scope :: e :: rest
    else e :: insertBefore extending entry rest

/-- Modelled from the spec: `LifetimeTracker::AddExtended`. A temporary whose lifetime is
extended is not destroyed with the scope that is open: it goes to the declaration extending
it, in whose scope it is destroyed right after that declaration. -/
def AddExtended (t : LifetimeTracker) (decl : VarDecl) (extending : Nat) : LifetimeTracker :=
  let entry : Int → LifetimeEntry := fun s => { item := some decl.name, scope := s }
  { t with objects := insertBefore extending entry t.objects }

/-- Modelled from the spec: the destructor calls for a sequence of entries, in reverse
registration order. -/
def destructionOrder (entries : List LifetimeEntry) : List Nat :=
  entries.reverse.filterMap LifetimeEntry.item

/-- Modelled from the spec: `LifetimeTracker::Return`. A `return` emits the destructor calls
for what is pending in every scope open in the function at hand, innermost scope first and each
scope in reverse registration order. The result is the declarations whose destructor call is
emitted; the tracker itself is left as it is. -/
def Return (t : LifetimeTracker) : List Nat :=
  (t.objects.reverse.takeWhile (fun e => ! e.funcStart)).filterMap LifetimeEntry.item

/-- Modelled from the spec: `LifetimeTracker::EndScope`. Closing a scope emits the destructor
calls of the entries of this scope in reverse registration order, unless `clear` tells that a
`return` has emitted them already, and drops the entries. The result is the tracker and the
declarations whose destructor call is emitted. -/
def EndScope (t : LifetimeTracker) (clear : Bool) : LifetimeTracker × List Nat :=
  ({ scopeCounter := t.scopeCounter - 1
     objects := t.objects.filter (fun e => e.scope != t.scopeCounter) },
   if clear then []
   else destructionOrder (t.objects.filter (fun e => e.scope == t.scopeCounter)))

/-- Every pending entry belongs to a scope that is open. -/
def wellScoped (t : LifetimeTracker) : Bool :=
  t.objects.all (fun e => decide (e.scope ≤ t.scopeCounter))

end LifetimeTracker

/-- The kinds of declaration `mLastDecl` is tested for. -/
inductive DeclClass where
  | FunctionDecl
  | VarDecl
  | Other
  deriving DecidableEq, Repr

/-- What the renderer writes, as far as the lifetime code is concerned. -/
inductive Token where
  | OpenScope
  | CloseScope
  | SemiNewLine
  | NewLine
  | Space
  | kwReturn
  | kwIf
  | kwElse
  | hlpAssing
  | Literal (value : Int)
  | Name (decl : Nat)
  | Declaration (decl : Nat)
  | DtorCall (decl : Nat)
  deriving DecidableEq, Repr

/-- A call of a member function of `LifetimeTracker`, with what it emitted. -/
inductive TrackerCall where
  | StartScope (funcStart : Bool)
  | Add (decl : Nat)
  | AddExtended (decl : Nat) (extending : Nat)
  | Return (emitted : List Nat)
  | EndScope (clear : Bool) (emitted : List Nat)
  deriving DecidableEq, Repr

/-- The members of `CodeGenerator` the lifetime code reads and writes. The output is a
sequence of tokens; `calls` records the calls made to `mLifeTimeTracker`. -/
structure CodeGenerator where
  mLifeTimeTracker : LifetimeTracker := {}
  mLastStmt : Option Stmt := none
  mLastDecl : Option DeclClass := none
  mProcessingVarDecl : Bool := false
  mRequiresImplicitReturnZero : Bool := false
  mSkipSemi : Bool := false
  mOutputFormatHelper : List Token := []
  calls : List TrackerCall := []

/-- The members of `TemporaryDeclFinder` that steer the lifetime calls. -/
structure TemporaryDeclFinder where
  mFound : Bool := false
  mHaveTemporary : Bool := false
  mTempName : Option Nat := none
  deriving DecidableEq, Repr

namespace CodeGenerator

/-- Write tokens at the end of the output. -/
def Append (g : CodeGenerator) (tokens : List Token) : CodeGenerator :=
  { g with mOutputFormatHelper := g.mOutputFormatHelper ++ tokens }

/-- The call `mLifeTimeTracker.StartScope(funcStart)`. -/
def trackerStartScope (g : CodeGenerator) (funcStart : Bool) : CodeGenerator :=
  { g with mLifeTimeTracker := g.mLifeTimeTracker.StartScope funcStart
           calls := g.calls ++ [TrackerCall.StartScope funcStart] }

/-- The call `mLifeTimeTracker.Add(decl)`. -/
def trackerAdd (g : CodeGenerator) (decl : VarDecl) : CodeGenerator :=
  { g with mLifeTimeTracker := g.mLifeTimeTracker.Add decl
           calls := g.calls ++ [TrackerCall.Add decl.name] }

/-- The call `mLifeTimeTracker.EndScope(mOutputFormatHelper, clear)`: the destructor calls go
to the output; the result tells whether any was written. -/
def trackerEndScope (g : CodeGenerator) (clear : Bool) : CodeGenerator × Bool :=
  let r := g.mLifeTimeTracker.EndScope clear
  ({ g with mLifeTimeTracker := r.1
            mOutputFormatHelper := g.mOutputFormatHelper ++ r.2.map Token.DtorCall
            calls := g.calls ++ [TrackerCall.EndScope clear r.2] },
   ! r.2.isEmpty)

/-- The call `mLifeTimeTracker.Return(mOutputFormatHelper)`. -/
def trackerReturn (g : CodeGenerator) : CodeGenerator × Bool :=
  let emitted := g.mLifeTimeTracker.Return
  ({ g with mOutputFormatHelper := g.mOutputFormatHelper ++ emitted.map Token.DtorCall
            calls := g.calls ++ [TrackerCall.Return emitted] },
   ! emitted.isEmpty)

/-- The function `CodeGenerator::StartLifetimeScope`. -/
def StartLifetimeScope (g : CodeGenerator) : CodeGenerator := g.trackerStartScope false

/-- The function `CodeGenerator::EndLifetimeScope`:
`mSkipSemi = mLifeTimeTracker.EndScope(mOutputFormatHelper, false) or mSkipSemi`. -/
def EndLifetimeScope (g : CodeGenerator) : CodeGenerator :=
  let r := g.trackerEndScope false
  { r.1 with mSkipSemi := r.2 || g.mSkipSemi }

/-- The function `CodeGenerator::LifetimeAddExtended`. -/
def LifetimeAddExtended (g : CodeGenerator) (vd : VarDecl) (extending : Nat) : CodeGenerator :=
  { g with mLifeTimeTracker := g.mLifeTimeTracker.AddExtended vd extending
           calls := g.calls ++ [TrackerCall.AddExtended vd.name extending] }

end CodeGenerator

namespace TemporaryDeclFinder

/-- The visit of the constructor of `TemporaryDeclFinder` (`Visit(mPrevStmt)`), over the
temporaries in the order they are handled. `VisitCXXTemporaryObjectExpr` sets `mFound`;
`VisitMaterializeTemporaryExpr` does nothing once `mFound` is set, opens a lifetime scope at
the first temporary of storage duration `SD_FullExpression`, and otherwise registers an
extended temporary with the declaration extending it. -/
def Visit : List Temporary → TemporaryDeclFinder → CodeGenerator →
    TemporaryDeclFinder × CodeGenerator
  | [], finder, g => (finder, g)
  | .CXXTemporaryObjectExpr vd :: rest, finder, g =>
    Visit rest { finder with mFound := true, mTempName := some vd.name } g
  | .MaterializeTemporaryExpr storageDuration extendingDecl vd :: rest, finder, g =>
    if finder.mFound then Visit rest finder g
    else if storageDuration = StorageDuration.SD_FullExpression && ! finder.mHaveTemporary then
      Visit rest { finder with mHaveTemporary := true } g.StartLifetimeScope
    else
      match extendingDecl with
      | some extending => Visit rest finder (g.LifetimeAddExtended vd extending)
      | none => Visit rest finder g

/-- The constructor `TemporaryDeclFinder(codeGenerator, stmt, inspectReturn)` with the Cfront
mode off: nothing happens unless `ShowLifetime` is on; `Visit(mPrevStmt)` handles the
temporaries of a statement that is not null, and `insertDecls` is the loop
`for(auto d : mDecls) codeGenerator.InsertArg(d)`. -/
def construct (o : InsightsOptions) (notNull : Bool) (found : List Temporary)
    (insertDecls : CodeGenerator → CodeGenerator) (g : CodeGenerator) :
    TemporaryDeclFinder × CodeGenerator :=
  if o.ShowLifetime && notNull then
    let fg := Visit found {} g
    (fg.1, insertDecls fg.2)
  else ({}, g)

/-- The destructor `~TemporaryDeclFinder()`. -/
def destruct (finder : TemporaryDeclFinder) (g : CodeGenerator) : CodeGenerator :=
  if finder.mHaveTemporary then g.EndLifetimeScope else g

end TemporaryDeclFinder

namespace CodeGenerator

/-- The function `IsStmtRequiringSemi` as `HandleCompoundStmt` instantiates it, on the kinds
of statement of this model. -/
def IsStmtRequiringSemi (stmt : Stmt) : Bool :=
  ! stmt.isIfStmt && ! stmt.isNullStmt && ! stmt.isDeclStmt

/-- The overload `InsertArg(const NullStmt*)`. -/
def InsertArgNullStmt (g : CodeGenerator) : CodeGenerator :=
  { g.Append [Token.SemiNewLine] with mSkipSemi := true }

/-- The overload `InsertArg(const ReturnStmt*)`, given the constructor of the
`TemporaryDeclFinder` on the return value and the rendering of the return value. -/
def InsertArgReturnStmt (stmt : Stmt)
    (finderCtor : CodeGenerator → TemporaryDeclFinder × CodeGenerator)
    (retValue : Option (CodeGenerator → CodeGenerator)) (NRVOCandidate : Option Nat)
    (g : CodeGenerator) : CodeGenerator :=
  let fg := finderCtor g
  let g1 := fg.2.Append [Token.kwReturn]
  let g2 :=
    match retValue with
    | none => g1
    | some render =>
      let g1 := g1.Append [Token.Space]
      if ! fg.1.mFound then
        match NRVOCandidate with
        | some nrvoVD => g1.Append [Token.Name nrvoVD]
        | none => render g1
      else
        match fg.1.mTempName with
        | some name => g1.Append [Token.Name name]
        | none => g1
  let g3 := fg.1.destruct g2
  let r := g3.trackerReturn
  { r.1 with mSkipSemi := r.2, mLastStmt := some stmt }

/-- The overload `InsertArg(const CompoundStmt*)`, given `HandleCompoundStmt` on the body. -/
def InsertArgCompoundStmt (handleCompoundStmt : CodeGenerator → CodeGenerator)
    (g : CodeGenerator) : CodeGenerator :=
  let g := g.Append [Token.OpenScope]
  let g := g.trackerStartScope (g.mLastDecl == some DeclClass.FunctionDecl)
  let requiresImplicitReturnZero := g.mRequiresImplicitReturnZero
  let g := { g with mRequiresImplicitReturnZero := false }
  let g := handleCompoundStmt g
  let g :=
    if requiresImplicitReturnZero then
      let g :=
        InsertArgReturnStmt (Stmt.ReturnStmt (some (Stmt.IntegerLiteral 0)) none [])
          (fun g => ({}, g))
          (some fun g =>
            { g with mLastStmt := some (Stmt.IntegerLiteral 0) }.Append [Token.Literal 0])
          none g
      if ! g.mSkipSemi then g.InsertArgNullStmt else g
    else g
  let clear :=
    match g.mLastStmt with
    | some last => last.isReturnStmt
    | none => false
  let r := g.trackerEndScope clear
  { r.1 with mSkipSemi := r.2 }.Append [Token.CloseScope]

/-- The function `WrapInCompoundIfNeeded`, given the rendering of the statement. -/
def WrapInCompoundIfNeeded (stmt : Stmt) (render : CodeGenerator → CodeGenerator)
    (g : CodeGenerator) : CodeGenerator :=
  let hasNoCompoundStmt := ! stmt.isCompoundStmt
  let g := if hasNoCompoundStmt then g.Append [Token.OpenScope] else g
  let g :=
    if ! stmt.isNullStmt then
      let g := render g
      if ! stmt.isIfStmt && ! stmt.isCompoundStmt && ! stmt.isNullStmt then
        g.Append [Token.SemiNewLine]
      else g
    else g
  let g := if hasNoCompoundStmt then g.Append [Token.CloseScope] else g
  g.Append [Token.Space]

/-- The overload `InsertArg(const IfStmt*)`, given the renderings of the condition variable,
of the init statement, of the condition and of the branches. -/
def InsertArgIfStmt (conditionVariable : Option (CodeGenerator → CodeGenerator))
    (init : Option (Stmt × (CodeGenerator → CodeGenerator)))
    (cond : CodeGenerator → CodeGenerator)
    (thenStmt : Stmt × (CodeGenerator → CodeGenerator))
    (elseStmt : Option (Stmt × (CodeGenerator → CodeGenerator)))
    (g : CodeGenerator) : CodeGenerator :=
  let hasInit := init.isSome || conditionVariable.isSome
  let g := if hasInit then g.Append [Token.OpenScope] else g
  let g :=
    match conditionVariable with
    | none => g
    | some render => render g
  let g :=
    match init with
    | none => g
    | some i =>
      let g := i.2 g
      if ! i.1.isDeclStmt then g.Append [Token.SemiNewLine] else g
  let g := g.Append [Token.kwIf]
  let g := cond g
  let g := WrapInCompoundIfNeeded thenStmt.1 thenStmt.2 g
  let g :=
    match elseStmt with
    | none => g
    | some elsePart => WrapInCompoundIfNeeded elsePart.1 elsePart.2 (g.Append [Token.kwElse])
  let g := g.Append [Token.NewLine]
  let g := if hasInit then g.Append [Token.CloseScope, Token.NewLine] else g
  g.Append [Token.NewLine]

/-- The overload `InsertArg(const ExprWithCleanups*)`, given the constructor of the
`TemporaryDeclFinder` on the sub-expression and the rendering of the sub-expression. The
finder is destroyed when the function returns, after the call of `EndScope`. -/
def InsertArgExprWithCleanups (o : InsightsOptions)
    (finderCtor : CodeGenerator → TemporaryDeclFinder × CodeGenerator)
    (subExpr : CodeGenerator → CodeGenerator) (g : CodeGenerator) : CodeGenerator :=
  let g := g.trackerStartScope false
  let fg := finderCtor g
  let g := subExpr fg.2
  let g := if o.ShowLifetime && ! g.mProcessingVarDecl then g.Append [Token.SemiNewLine] else g
  let r := g.trackerEndScope false
  fg.1.destruct { r.1 with mSkipSemi := r.2 }

/-- The overload `InsertArg(const VarDecl*)`, for a declaration that is no structured binding,
given the constructor of the `TemporaryDeclFinder` on the initializer and the rendering of the
initializer, which runs with `mProcessingVarDecl` set. -/
def InsertArgVarDecl (decl : VarDecl)
    (finderCtor : CodeGenerator → TemporaryDeclFinder × CodeGenerator)
    (init : Option (CodeGenerator → CodeGenerator)) (g : CodeGenerator) : CodeGenerator :=
  let g := g.trackerAdd decl
  let fg := finderCtor g
  let g := fg.2.Append [Token.Declaration decl.name]
  let g :=
    match init with
    | none => g
    | some render =>
      let g := render ({ g with mProcessingVarDecl := true }.Append [Token.hlpAssing])
      { g with mProcessingVarDecl := false }
  let g := g.Append [Token.SemiNewLine]
  fg.1.destruct g

mutual
/-- The dispatcher `InsertArg(const Stmt*)`, which notes the statement in `mLastStmt`, with
the overloads it dispatches to. -/
def InsertArg (o : InsightsOptions) : Stmt → CodeGenerator → CodeGenerator
  | .NullStmt, g => InsertArgNullStmt { g with mLastStmt := some Stmt.NullStmt }
  | .IntegerLiteral value, g =>
    { g with mLastStmt := some (Stmt.IntegerLiteral value) }.Append [Token.Literal value]
  | .DeclRefExpr decl, g =>
    { g with mLastStmt := some (Stmt.DeclRefExpr decl) }.Append [Token.Name decl]
  | .Expr children, g => InsertArgs o children { g with mLastStmt := some (Stmt.Expr children) }
  | .CompoundStmt body, g =>
    InsertArgCompoundStmt (HandleCompoundStmt o body)
      { g with mLastStmt := some (Stmt.CompoundStmt body) }
  | .DeclStmt decls, g => InsertDecls o decls { g with mLastStmt := some (Stmt.DeclStmt decls) }
  | .ReturnStmt retValue NRVOCandidate found, g =>
    InsertArgReturnStmt (Stmt.ReturnStmt retValue NRVOCandidate found)
      (TemporaryDeclFinder.construct o retValue.isSome found (InsertFound o found false))
      (match retValue with
       | none => none
       | some value => some (InsertArg o value))
      NRVOCandidate { g with mLastStmt := some (Stmt.ReturnStmt retValue NRVOCandidate found) }
  | .IfStmt conditionVariable init cond thenStmt elseStmt, g =>
    InsertArgIfStmt
      (match conditionVariable with
       | none => none
       | some vd => some (InsertArgDecl o vd))
      (match init with
       | none => none
       | some i => some (i, InsertArg o i))
      (InsertArg o cond) (thenStmt, InsertArg o thenStmt)
      (match elseStmt with
       | none => none
       | some elsePart => some (elsePart, InsertArg o elsePart))
      { g with mLastStmt := some (Stmt.IfStmt conditionVariable init cond thenStmt elseStmt) }
  | .ExprWithCleanups subExpr found, g =>
    InsertArgExprWithCleanups o
      (fun g =>
        TemporaryDeclFinder.construct o (! g.mProcessingVarDecl) found
          (InsertFound o found false) g)
      (InsertArg o subExpr)
      { g with mLastStmt := some (Stmt.ExprWithCleanups subExpr found) }
  | .MaterializeTemporaryExpr subExpr, g =>
    InsertArg o subExpr { g with mLastStmt := some (Stmt.MaterializeTemporaryExpr subExpr) }
/-- The rendering of the children of a node, one after the other. -/
def InsertArgs (o : InsightsOptions) : List Stmt → CodeGenerator → CodeGenerator
  | [], g => g
  | child :: rest, g => InsertArgs o rest (InsertArg o child g)
/-- The function `HandleCompoundStmt`, for the base generator (`InsertSemi()` is true) and
statements that are no lambda expressions. -/
def HandleCompoundStmt (o : InsightsOptions) : List Stmt → CodeGenerator → CodeGenerator
  | [], g => g
  | item :: rest, g =>
    HandleCompoundStmt o rest
      { (if IsStmtRequiringSemi item && ! (InsertArg o item g).mSkipSemi then
          (InsertArg o item g).Append [Token.SemiNewLine]
         else InsertArg o item g) with mSkipSemi := false }
/-- The overload `InsertArg(const DeclStmt*)`: each declaration goes through
`InsertArg(const Decl*)`, which notes it in `mLastDecl`. -/
def InsertDecls (o : InsightsOptions) : List VarDecl → CodeGenerator → CodeGenerator
  | [], g => g
  | decl :: rest, g =>
    InsertDecls o rest (InsertArgDecl o decl { g with mLastDecl := some DeclClass.VarDecl })
/-- The overload `InsertArg(const VarDecl*)` on the tree of a declaration. -/
def InsertArgDecl (o : InsightsOptions) : VarDecl → CodeGenerator → CodeGenerator
  | .mk name needsDestruction init found, g =>
    InsertArgVarDecl (VarDecl.mk name needsDestruction init found)
      (TemporaryDeclFinder.construct o init.isSome found (InsertFound o found false))
      (match init with
       | none => none
       | some i => some (InsertArg o i))
      g
/-- The loop `for(auto d : mDecls) codeGenerator.InsertArg(d)` of the constructor of
`TemporaryDeclFinder`: the variables of the temporaries the visit has put into `mDecls`, which
are all the `CXXTemporaryObjectExpr` and the `MaterializeTemporaryExpr` met before `mFound` was
set (`mFound` is followed as the visit set it). -/
def InsertFound (o : InsightsOptions) : List Temporary → Bool → CodeGenerator → CodeGenerator
  | [], _, g => g
  | .CXXTemporaryObjectExpr vd :: rest, _, g => InsertFound o rest true (InsertArgDecl o vd g)
  | .MaterializeTemporaryExpr _ _ vd :: rest, mFound, g =>
    if mFound then InsertFound o rest mFound g
    else InsertFound o rest mFound (InsertArgDecl o vd g)
end

end CodeGenerator

namespace Sample

/-- The declaration statement `T name = T();` of an object of a class type with a non-trivial
destructor. -/
def objectDecl (name : Nat) : Stmt := .DeclStmt [.mk name true (some (.Expr [])) []]

/-- The generator state at the start of a function body. -/
def atFunctionStart : CodeGenerator := { mLastDecl := some DeclClass.FunctionDecl }

/-- The block `{ A a; if(c) { return; } }`. -/
def returnInNestedBlock : Stmt :=
  .CompoundStmt [objectDecl 1,
    .IfStmt none none (.DeclRefExpr 9) (.CompoundStmt [.ReturnStmt none none []]) none]

/-- The statement `f(A{});` as the tree walk meets it: an `ExprWithCleanups` around a call
whose argument is a temporary destroyed at the end of the full expression; the finder makes the
variable 7 out of the temporary. -/
def callWithTemporary : Stmt :=
  .ExprWithCleanups (.Expr [.DeclRefExpr 7])
    [.MaterializeTemporaryExpr .SD_FullExpression none (.mk 7 true (some (.Expr [])) [])]

end Sample

/-- The test whether a call of the tracker is `StartScope`. -/
def TrackerCall.isStartScope : TrackerCall → Bool
  | .StartScope _ => true
  | _ => false

/-- The test whether a call of the tracker is `EndScope`. -/
def TrackerCall.isEndScope : TrackerCall → Bool
  | .EndScope _ _ => true
  | _ => false

/-- The number of `StartScope` calls in a record of calls. -/
def startScopeCalls (calls : List TrackerCall) : Nat := calls.countP TrackerCall.isStartScope

/-- The number of `EndScope` calls in a record of calls. -/
def endScopeCalls (calls : List TrackerCall) : Nat := calls.countP TrackerCall.isEndScope

/-- Whether the visit of a `TemporaryDeclFinder` comes to a temporary of storage duration
`SD_FullExpression` before a `CXXTemporaryObjectExpr` has set `mFound`. -/
def handlesFullExpression : List Temporary → Bool
  | [] => false
  | .CXXTemporaryObjectExpr _ :: _ => false
  | .MaterializeTemporaryExpr storageDuration _ _ :: rest =>
    storageDuration = StorageDuration.SD_FullExpression || handlesFullExpression rest

/-- From `g` to `g'` the record of tracker calls has grown, by `net` more `StartScope` than
`EndScope` calls. -/
def Step (g g' : CodeGenerator) (net : Int) : Prop :=
  ∃ delta, g'.calls = g.calls ++ delta ∧
    (startScopeCalls delta : Int) - (endScopeCalls delta : Int) = net

/-! ## Rendering a lambda expression -/

/-- What the tree walk reads of a `LambdaExpr` and of its closure class: the name
(`GetLambdaName`), the text `InsertArg(const CXXRecordDecl*)` writes for the closure class up
to the end of the class scope (with the constructor, where one is required), and the
constructor arguments `ctorArguments` collected from the captures, `{}` without captures. -/
structure LambdaExpr where
  name : List Char
  classBody : List Char
  ctorArguments : List Char := ['{', '}']
  deriving DecidableEq, Repr

namespace Heap

/-- Write to a member of `mLambdaStack.back()`; nothing happens on an empty stack. -/
def updateBack (h : Heap) (f : LambdaHelper → LambdaHelper) : Heap :=
  match StackList.pop h.mStack with
  | none => h
  | some (top, rest) => { h with mStack := rest ++ [f top] }

/-- Append text to the buffer a reference points to; a dangling reference is fatal. -/
def append (h : Heap) (ref : BufRef) (text : List Char) : Option Heap :=
  match h.read ref with
  | none => none
  | some ofm => some (h.write ref (OutputFormatHelper.Append ofm text))

end Heap

namespace CodeGenerator

/-- The end of `InsertArg(const CXXRecordDecl*)` for the class of a lambda, run by the
`LambdaCodeGenerator` of `HandleLambdaExpr` (Cfront mode off): after the class scope is
closed, the class is followed by a space, the lambda's name and the constructor arguments
unless the caller is one of `VarDecl`, `InitCapture`, `CallExpr`, `MemberCallExpr`,
`TemplateHead`, `Decltype`, whether or not the class has a constructor; then `;` and two new
lines are written. The result is the text written after the class body. -/
def lambdaClassSuffix (lambda : LambdaExpr) (lambdaCallerType : LambdaCallerType) : List Char :=
  (if ! decide (lambdaCallerType ∈ [LambdaCallerType.VarDecl, LambdaCallerType.InitCapture,
          LambdaCallerType.CallExpr, LambdaCallerType.MemberCallExpr,
          LambdaCallerType.TemplateHead, LambdaCallerType.Decltype]) then
    [' '] ++ lambda.name ++ lambda.ctorArguments
   else []) ++ [';', '\n', '\n']

/-- The constructor arguments the `else if` of the same code appends to
`mLambdaStack.back().inits()`: for a caller that is one of the six above and neither
`TemplateHead` nor `Decltype`, that is `VarDecl`, `InitCapture`, `CallExpr` or
`MemberCallExpr`, whether or not the class has a constructor. -/
def lambdaClassInits (lambda : LambdaExpr) (lambdaCallerType : LambdaCallerType) : List Char :=
  if decide (lambdaCallerType ∈ [LambdaCallerType.VarDecl, LambdaCallerType.InitCapture,
        LambdaCallerType.CallExpr, LambdaCallerType.MemberCallExpr,
        LambdaCallerType.TemplateHead, LambdaCallerType.Decltype])
      && ! decide (lambdaCallerType ∈ [LambdaCallerType.TemplateHead,
        LambdaCallerType.Decltype]) then
    lambda.ctorArguments
  else []

/-- The function `CodeGenerator::HandleLambdaExpr(lambda, mLambdaStack.back())`: a new line and
the closure class go to `lambdaHelper.buffer()`, the private buffer of the entry on top of the
stack. `back()` of an empty stack is fatal. -/
def HandleLambdaExpr (lambda : LambdaExpr) (h : Heap) : Option Heap :=
  match StackList.back h.mStack with
  | none => none
  | some top =>
    some (h.updateBack fun l =>
      { l with
        mLambdaOutputFormatHelper :=
          l.mLambdaOutputFormatHelper ++ ['\n'] ++ lambda.classBody
            ++ lambdaClassSuffix lambda top.callerType
        mInits := l.mInits ++ lambdaClassInits lambda top.callerType })

/-- The member `LambdaHelper::insertInits(outputFormatHelper)` on `mLambdaStack.back()`. -/
def insertInits (mOutputFormatHelper : BufRef) (h : Heap) : Option Heap :=
  match StackList.back h.mStack with
  | none => some h
  | some top =>
    if ! top.mInits.isEmpty then
      match h.append mOutputFormatHelper top.mInits with
      | none => none
      | some h1 => some (h1.updateBack fun l => { l with mInits := [] })
    else some h

/-- The overload `InsertArg(const LambdaExpr*)` of a generator writing to
`mOutputFormatHelper`. With an entry on the stack the class goes to that entry and the name
is written only if `insertName()` holds; with an empty stack a handler of its own is created
(`self` is the address of its `mHelper`) and destroyed at the end of the branch. -/
def InsertArgLambdaExpr (mOutputFormatHelper : BufRef) (mLambdaInitCapture : Bool) (self : Nat)
    (stmt : LambdaExpr) (h : Heap) : Option Heap :=
  let rendered : Option Heap :=
    match StackList.back h.mStack with
    | some top =>
      let insertName := top.insertName
      match HandleLambdaExpr stmt h with
      | none => none
      | some h1 => if insertName then h1.append mOutputFormatHelper stmt.name else some h1
    | none =>
      match LambdaScopeHandler.construct h self mOutputFormatHelper
          (if mLambdaInitCapture then LambdaCallerType.InitCapture
           else LambdaCallerType.LambdaExpr) with
      | none => none
      | some h1 =>
        match HandleLambdaExpr stmt h1 with
        | none => none
        | some h2 => LambdaScopeHandler.destruct h2
  match rendered with
  | none => none
  | some h1 => if ! StackList.empty h1.mStack then insertInits mOutputFormatHelper h1 else some h1

end CodeGenerator

namespace Sample

/-- A lambda without captures, named `n`, whose closure class is rendered as `C`. -/
def plainLambda : LambdaExpr := { name := ['n'], classBody := ['C'] }

/-- A heap with the output `x;` whose stack holds the entry of a `decltype` context, the
force-name flag not set. -/
def inDecltype : Heap :=
  { outputs := fun _ => ['x', ';']
    mStack := [{ self := 14, mLambdaCallerType := .Decltype, mCurrentVarDeclPos := 2,
                 mOutputFormatHelper := .output 0 }] }

end Sample

/-! ## Template parameter objects and the static `mSeenDecls` -/

/-- What `InsertTemplateArgsObjectParam` reads of a `TemplateParamObjectDecl`: its name
(`GetName(param)`), the name of its unqualified type and the text of `printAsInit`. -/
structure TemplateParamObjectDecl where
  varName : List Char
  typeName : List Char
  init : List Char
  deriving DecidableEq, Repr

/-- A `TemplateArgument` as the loop over an argument list tells them apart: an argument of
kind `Declaration`, whose declaration may be a `TemplateParamObjectDecl`, or any other kind. -/
inductive TemplateArgument where
  | Declaration (decl : Option TemplateParamObjectDecl)
  | Other
  deriving DecidableEq, Repr

/-- The static member `mSeenDecls` (a `std::map<std::string, bool>` shared by all generators
and kept for the lifetime of the process) together with the output buffer of the generator at
work. -/
structure SeenDecls where
  mSeenDecls : List (List Char × Bool) := []
  mOutputFormatHelper : OutputFormatHelper := []
  deriving DecidableEq, Repr

namespace SeenDecls

/-- The call `mSeenDecls.contains(varName)`. -/
def contains (s : SeenDecls) (varName : List Char) : Bool :=
  s.mSeenDecls.any fun e => e.1 == varName

/-- The assignment `mSeenDecls[varName] = true`. -/
def assign (s : SeenDecls) (varName : List Char) : SeenDecls :=
  { s with mSeenDecls := (varName, true) :: s.mSeenDecls.filter fun e => e.1 != varName }

end SeenDecls

namespace CodeGenerator

/-- The text `AppendSemiNewLine("static constexpr ", type, " ", varName, init)`. -/
def templateParamObjectText (param : TemplateParamObjectDecl) : List Char :=
  "static constexpr ".toList ++ param.typeName ++ [' '] ++ param.varName ++ param.init
    ++ [';', '\n']

/-- The overload `InsertTemplateArgsObjectParam(const TemplateParamObjectDecl&)`: the
declaration is written unless `mSeenDecls` holds the name already, and the name is noted. -/
def InsertTemplateArgsObjectParam (param : TemplateParamObjectDecl) (s : SeenDecls) :
    SeenDecls :=
  if ! s.contains param.varName then
    { s with mOutputFormatHelper :=
        OutputFormatHelper.Append s.mOutputFormatHelper (templateParamObjectText param)
      }.assign param.varName
  else s

/-- The overload `InsertTemplateArgsObjectParam(const ArrayRef<TemplateArgument>&)`. -/
def InsertTemplateArgsObjectParamArray : List TemplateArgument → SeenDecls → SeenDecls
  | [], s => s
  | .Declaration (some decl) :: rest, s =>
    InsertTemplateArgsObjectParamArray rest (InsertTemplateArgsObjectParam decl s)
  | .Declaration none :: rest, s => InsertTemplateArgsObjectParamArray rest s
  | .Other :: rest, s => InsertTemplateArgsObjectParamArray rest s

/-- One render of an argument list with a fresh output buffer; the static map is the one the
renders before have left. -/
def renderTemplateArgsObjects (array : List TemplateArgument)
    (mSeenDecls : List (List Char × Bool)) : SeenDecls :=
  InsertTemplateArgsObjectParamArray array { mSeenDecls := mSeenDecls }

end CodeGenerator

namespace Sample

/-- The argument list of `X<A{1}>`: one template parameter object. -/
def objectArgument : List TemplateArgument :=
  [.Declaration (some { varName := ['a'], typeName := ['A'], init := ['{', '1', '}'] })]

end Sample

/-! ## Position handles and `std::initializer_list` -/

/-- The sub-expression of a `CXXStdInitializerListExpr` as the code tells the kinds apart: a
`DeclRefExpr` (with the name it refers to and the size of its constant array type), a
`MaterializeTemporaryExpr` over an `InitListExpr` (with the number of its initializers), or
anything else. -/
inductive InitializerListSubExpr where
  | DeclRefExpr (name : List Char) (size : Nat)
  | MaterializedInitList (numInits : Nat)
  | Other
  deriving DecidableEq, Repr

/-- What `InsertArg(const CXXStdInitializerListExpr*)` reads of its statement: the unqualified
name of the type, the sub-expression, the name made for the backing array
(`MakeLineColumnName`), the declarator text of the backing array
(`GetTypeNameAsParameter`) and the text a generator writes for the sub-expression. -/
structure CXXStdInitializerListExpr where
  typeName : List Char
  subExpr : InitializerListSubExpr
  internalListName : List Char
  typeNameAsParameter : List Char
  subExprText : List Char
  deriving DecidableEq, Repr

/-- The members of `CodeGenerator` this overload reads and writes: the output buffer, the
buffer `mOutputFormatHelperOutside` points to (if any) and the four recorded positions. -/
structure PositionState where
  mOutputFormatHelper : OutputFormatHelper := []
  mOutputFormatHelperOutside : Option OutputFormatHelper := none
  mCurrentVarDeclPos : Option Nat := none
  mCurrentCallExprPos : Option Nat := none
  mCurrentReturnPos : Option Nat := none
  mCurrentFieldPos : Option Nat := none
  deriving DecidableEq, Repr

namespace CodeGenerator

/-- The text written where the initializer list is used: `typeName{name, size}`. -/
def initializerListUse (typeName name : List Char) (size : Nat) : List Char :=
  typeName ++ ['{'] ++ name ++ [',', ' '] ++ (toString size).toList ++ ['}']

/-- The buffer `ofm` of the backing array: modifiers, declarator, the sub-expression as a
fresh generator renders it, `;` and a new line. -/
def backingArrayText (modifiers : List Char) (stmt : CXXStdInitializerListExpr) : List Char :=
  modifiers ++ stmt.typeNameAsParameter ++ stmt.subExprText ++ [';', '\n']

/-- The overload `InsertArg(const CXXStdInitializerListExpr*)`. A null
`mOutputFormatHelperOutside` that is dereferenced and an insertion beyond the end of the
buffer are fatal. -/
def InsertArgCXXStdInitializerListExpr (UseShowInitializerList ShowLifetime : Bool)
    (stmt : CXXStdInitializerListExpr) (g : PositionState) : Option PositionState :=
  if UseShowInitializerList then
    if g.mCurrentVarDeclPos.isNone && g.mCurrentFieldPos.isNone && g.mCurrentReturnPos.isNone
        && g.mCurrentCallExprPos.isNone then
      some g
    else
      match stmt.subExpr, ShowLifetime with
      | .DeclRefExpr name size, true =>
        let use := initializerListUse stmt.typeName name size
        some { g with mOutputFormatHelper := OutputFormatHelper.Append g.mOutputFormatHelper use }
      | _, _ =>
        let size :=
          match stmt.subExpr with
          | .MaterializedInitList numInits => numInits
          | _ => 0
        let use := initializerListUse stmt.typeName stmt.internalListName size
        if g.mCurrentVarDeclPos.isNone && g.mCurrentReturnPos.isNone
            && g.mCurrentCallExprPos.isNone then
          -- the lambda `ofmToInsert` takes the position of the field and the outer buffer
          let variableInsertPos := g.mCurrentFieldPos.getD 0
          let ofm := backingArrayText "static inline ".toList stmt
          match g.mOutputFormatHelperOutside with
          | none => none
          | some outside =>
            match OutputFormatHelper.InsertAt outside variableInsertPos ofm with
            | none => none
            | some inserted =>
              some { g with
                mOutputFormatHelperOutside := some inserted
                mOutputFormatHelper := OutputFormatHelper.Append g.mOutputFormatHelper use
                mCurrentVarDeclPos := some (variableInsertPos + ofm.length) }
        else
          let variableInsertPos :=
            g.mCurrentReturnPos.getD (g.mCurrentVarDeclPos.getD (g.mCurrentCallExprPos.getD 0))
          let ofm := backingArrayText [] stmt
          match OutputFormatHelper.InsertAt g.mOutputFormatHelper variableInsertPos ofm with
          | none => none
          | some inserted =>
            let g := { g with mOutputFormatHelper := OutputFormatHelper.Append inserted use }
            match g.mCurrentReturnPos, g.mCurrentVarDeclPos, g.mCurrentCallExprPos with
            | some pos, _, _ => some { g with mCurrentReturnPos := some (pos + ofm.length) }
            | none, some pos, _ => some { g with mCurrentVarDeclPos := some (pos + ofm.length) }
            | none, none, some pos =>
              some { g with mCurrentCallExprPos := some (pos + ofm.length) }
            | none, none, none => none
  else
    let text := stmt.typeName ++ stmt.subExprText
    some { g with mOutputFormatHelper := OutputFormatHelper.Append g.mOutputFormatHelper text }

end CodeGenerator

namespace Sample

/-- The initializer list of `std::vector<int> v = f({1, 2});`. -/
def listArgument : CXXStdInitializerListExpr :=
  { typeName := "std::initializer_list<int>".toList
    subExpr := .MaterializedInitList 2
    internalListName := "__list0".toList
    typeNameAsParameter := "const int __list0[2]".toList
    subExprText := "\x7b1, 2\x7d".toList }

/-- The generator inside the declaration `auto v = f(...)`: the declaration starts at offset 0
and the call expression at offset 9, and `auto v = f(` has been written. -/
def insideCallInDecl : PositionState :=
  { mOutputFormatHelper := "auto v = f(".toList
    mCurrentVarDeclPos := some 0
    mCurrentCallExprPos := some 9 }

end Sample

/-! ## Statement trees and the rewriting of loops -/

/-- The kinds of statement the loop rewrites tell apart; `Other` stands for any other
statement or expression, told apart by a number. -/
inductive AstKind where
  | CompoundStmt
  | DeclStmt
  | ForStmt
  | WhileStmt
  | DoStmt
  | IfStmt
  | NullStmt
  | ContinueStmt
  | GotoStmt (label : Nat)
  | LabelStmt (label : Nat)
  | CXXBoolLiteralExpr (value : Bool)
  | Other (id : Nat)
  deriving DecidableEq, Repr

/-- A statement of the AST with its children (`stmt->children()`); `null` is a null
pointer. -/
inductive Ast where
  | null
  | node (kind : AstKind) (children : List Ast)
  deriving Repr

namespace Ast

/-- The test `isa<ContinueStmt>`. -/
def isContinueStmt : Ast → Bool
  | .node .ContinueStmt _ => true
  | _ => false

/-- The test for a null pointer. -/
def isNull : Ast → Bool
  | .null => true
  | _ => false

/-- Modelled from the spec: `mkCompoundStmt(stmts)` (ASTHelpers is not among the sources)
makes a compound statement of the statements given. -/
def mkCompoundStmt (stmts : List Ast) : Ast := .node .CompoundStmt stmts

/-- Modelled from the spec: `mkDeclStmt(a, b)` makes one declaration statement of the two
declarations given (declaration statements stand for their declarations here; a null pointer
stays a null pointer). -/
def mkDeclStmt (a b : Ast) : Ast := .node .DeclStmt [a, b]

/-- The constructor `ForStmt(ctx, init, cond, condVar, inc, body, ...)` of the AST library;
the children are kept in the order init, condition variable, condition, increment, body. -/
def mkForStmt (init cond condVar inc body : Ast) : Ast :=
  .node .ForStmt [init, condVar, cond, inc, body]

/-- The call `WhileStmt::Create(ctx, nullptr, cond, body, ...)` of the AST library; the
children are the condition variable, the condition and the body. -/
def mkWhileStmt (condVar cond body : Ast) : Ast := .node .WhileStmt [condVar, cond, body]

/-- Modelled from the spec: `Goto(label)` makes a `goto` to the label. -/
def Goto (label : Nat) : Ast := .node (.GotoStmt label) []

/-- Modelled from the spec: `Label(name)` makes a label statement. -/
def Label (label : Nat) : Ast := .node (.LabelStmt label) []

/-- Modelled from the spec: `Bool(value)` of ASTHelpers makes a Boolean literal. -/
def mkBool (value : Bool) : Ast := .node (.CXXBoolLiteralExpr value) []

end Ast

/-- Modelled from the spec: `StmtsContainer` (ASTHelpers is not among the sources), the list
of statements a compound statement is made of. -/
abbrev StmtsContainer := List Ast

namespace StmtsContainer

/-- Modelled from the spec: `Add(stmt)` appends a statement; a null pointer is left out. -/
def Add (stmts : StmtsContainer) (stmt : Ast) : StmtsContainer :=
  match stmt with
  | .null => stmts
  | stmt => stmts ++ [stmt]

/-- Modelled from the spec: `AddBodyStmts(body)` appends "the body itself, without the
CompoundStmt": the statements of a compound statement, and any other statement as it is. -/
def AddBodyStmts (stmts : StmtsContainer) (body : Ast) : StmtsContainer :=
  match body with
  | .node .CompoundStmt children => stmts ++ children
  | body => Add stmts body

end StmtsContainer

/-- What `InsertArg(const CXXForRangeStmt*)` reads of a range-based `for`: the optional init
statement, the range statement, the begin and the end statement (absent in an unevaluated
template), the condition, the increment, the loop variable, its declaration statement and the
body. A pointer that is null is `Ast.null`. -/
structure CXXForRangeStmt where
  init : Ast := .null
  rangeStmt : Ast
  beginStmt : Ast
  endStmt : Ast
  cond : Ast
  inc : Ast
  loopVariable : Ast
  loopVarStmt : Ast
  body : Ast
  deriving Repr

/-- What `InsertArg(const ForStmt*)` reads of a `for` statement, with the label made for it
(`MakeLineColumnName(..., "__continue_")`). -/
structure ForStmt where
  init : Ast := .null
  cond : Ast := .null
  inc : Ast := .null
  body : Ast
  continueLabel : Nat
  deriving Repr

namespace CodeGenerator

/-- The tree `InsertArg(const CXXForRangeStmt*)` builds and hands to `InsertArg`: the outer
compound statement. `onlyCpp11` is `not langOpts.CPlusPlus17`. The declaration statements of
begin and end stand for their single declarations (`getSingleDecl()`). -/
def rangeForOuterScope (onlyCpp11 : Bool) (rangeForStmt : CXXForRangeStmt) : Ast :=
  let outerScopeStmts : StmtsContainer := []
  let outerScopeStmts := outerScopeStmts.Add rangeForStmt.init
  let outerScopeStmts := outerScopeStmts.Add rangeForStmt.rangeStmt
  let outerScopeStmts :=
    if ! onlyCpp11 then (outerScopeStmts.Add rangeForStmt.beginStmt).Add rangeForStmt.endStmt
    else outerScopeStmts
  let bodyStmts : StmtsContainer := []
  let bodyStmts := bodyStmts.Add rangeForStmt.loopVarStmt
  let bodyStmts := bodyStmts.AddBodyStmts rangeForStmt.body
  let declStmt :=
    if onlyCpp11 then Ast.mkDeclStmt rangeForStmt.beginStmt rangeForStmt.endStmt else Ast.null
  let innerScope := Ast.mkCompoundStmt bodyStmts
  let forStmt :=
    Ast.mkForStmt declStmt rangeForStmt.cond rangeForStmt.loopVariable rangeForStmt.inc
      innerScope
  let outerScopeStmts := outerScopeStmts.Add forStmt
  Ast.mkCompoundStmt outerScopeStmts

/-- The overload `InsertArg(const CXXForRangeStmt*)`, given the rendering `InsertArg` of a
statement: the outer compound statement is rendered and a new line follows. -/
def InsertArgCXXForRangeStmt (InsertArg : Ast → OutputFormatHelper → OutputFormatHelper)
    (onlyCpp11 : Bool) (rangeForStmt : CXXForRangeStmt) (ofm : OutputFormatHelper) :
    OutputFormatHelper :=
  OutputFormatHelper.Append (InsertArg (rangeForOuterScope onlyCpp11 rangeForStmt) ofm) ['\n']

end CodeGenerator

namespace ContinueASTTransformer

mutual
/-- The visit of `ContinueASTTransformer` below a statement (`VisitStmt`): every child is
visited with the statement as `mPrevStmt`; a child that is a `ContinueStmt` sets `found` and
is replaced in its parent by `Goto(mContinueLabel)` (`ReplaceNode(mPrevStmt, stmt, ...)`),
any other child is visited in turn. The result is the statement after the visit and whether
a `ContinueStmt` was met. -/
def VisitStmt (mContinueLabel : Nat) : Ast → Ast × Bool
  | .null => (.null, false)
  | .node kind children =>
    let r := VisitChildren mContinueLabel children
    (.node kind r.1, r.2)
/-- The loop `for(auto* child : stmt->children()) Visit(child)`. -/
def VisitChildren (mContinueLabel : Nat) : List Ast → List Ast × Bool
  | [] => ([], false)
  | child :: rest =>
    let r := VisitChildren mContinueLabel rest
    match child with
    | .node .ContinueStmt _ => (Ast.Goto mContinueLabel :: r.1, true)
    | child =>
      let c := VisitStmt mContinueLabel child
      (c.1 :: r.1, c.2 || r.2)
end

/-- The constructor `ContinueASTTransformer(stmt, continueLabel)`, which runs `Visit(stmt)`
with `mPrevStmt` being `stmt` itself: a `ContinueStmt` at the root sets `found`, and
`ReplaceNode` finds no child of it to replace. -/
def construct (stmt : Ast) (continueLabel : Nat) : Ast × Bool :=
  match stmt with
  | .node .ContinueStmt children => (.node .ContinueStmt children, true)
  | stmt => VisitStmt continueLabel stmt

end ContinueASTTransformer

namespace CodeGenerator

/-- The tree `InsertArg(const ForStmt*)` builds with `UseAltForSyntax` and hands to
`InsertArg`: the init statement and a `while` loop whose body is the body of the `for` after
the visit of `ContinueASTTransformer`, the label if a `continue` was found, and the
increment. -/
def altForOuterScope (stmt : ForStmt) : Ast :=
  let transformed := ContinueASTTransformer.construct stmt.body stmt.continueLabel
  let insertLabel := transformed.2
  let bodyStmts : StmtsContainer := []
  let bodyStmts := bodyStmts.AddBodyStmts transformed.1
  let bodyStmts := if insertLabel then bodyStmts.Add (Ast.Label stmt.continueLabel) else bodyStmts
  let bodyStmts := bodyStmts.Add stmt.inc
  let condition := if ! stmt.cond.isNull then stmt.cond else Ast.mkBool true
  let outerBody := Ast.mkCompoundStmt bodyStmts
  let whileStmt := Ast.mkWhileStmt Ast.null condition outerBody
  let outerScopeStmts : StmtsContainer := []
  let outerScopeStmts := outerScopeStmts.Add stmt.init
  let outerScopeStmts := outerScopeStmts.Add whileStmt
  Ast.mkCompoundStmt outerScopeStmts

end CodeGenerator

namespace Ast

mutual
/-- Whether a `ContinueStmt` stands anywhere in the tree, the root included. -/
def containsContinueStmt : Ast → Bool
  | .null => false
  | .node kind children => decide (kind = AstKind.ContinueStmt) || anyContainsContinueStmt children
/-- Whether a `ContinueStmt` stands anywhere in one of the trees. -/
def anyContainsContinueStmt : List Ast → Bool
  | [] => false
  | child :: rest => containsContinueStmt child || anyContainsContinueStmt rest
end

/-- The statements that are not null pointers. -/
def nonNull (stmts : List Ast) : List Ast := stmts.filter fun stmt => ! stmt.isNull

/-- The statements of a body "without the CompoundStmt". -/
def bodyStatements : Ast → List Ast
  | .node .CompoundStmt children => children
  | body => nonNull [body]

end Ast

namespace Sample

/-- The loop `for(; ; i++) { while(c) { continue; } }`: the `continue` belongs to the
`while` loop. The condition `c` is statement 1, the increment `i++` statement 2, and the label
made for the loop is 7. -/
def forWithNestedContinue : ForStmt :=
  { inc := .node (.Other 2) []
    body := .node .CompoundStmt
      [.node .WhileStmt [.null, .node (.Other 1) [],
        .node .CompoundStmt [.node .ContinueStmt []]]]
    continueLabel := 7 }

/-- The loop `for(auto x : v) { f(x); }` in an evaluated context: statements 1 to 8 are the
range, begin and end declarations, the condition, the increment, the loop variable, its
declaration statement and the call. -/
def rangeFor : CXXForRangeStmt :=
  { rangeStmt := .node (.Other 1) []
    beginStmt := .node (.Other 2) []
    endStmt := .node (.Other 3) []
    cond := .node (.Other 4) []
    inc := .node (.Other 5) []
    loopVariable := .node (.Other 6) []
    loopVarStmt := .node (.Other 7) []
    body := .node .CompoundStmt [.node (.Other 8) []] }

end Sample

/-! ## The body of a function and the implicit `return 0` -/

namespace CodeGenerator

/-- The part of `InsertMethodBody` that renders the body of a function which is no coroutine,
with `UseShowNoexcept` off: `mRequiresImplicitReturnZero` is set for a function with an
implicit `return 0` (`main`) if none of the statements of the body is a `ReturnStmt`, the
parameters of class type passed by value are registered when lifetimes are shown, and the
body is rendered. -/
def InsertMethodBody (o : InsightsOptions) (hasImplicitReturnZero : Bool)
    (parameters : List VarDecl) (body : List Stmt) (g : CodeGenerator) : CodeGenerator :=
  let g :=
    if hasImplicitReturnZero then
      { g with mRequiresImplicitReturnZero := ! body.any fun e => e.isReturnStmt }
    else g
  let g := if o.ShowLifetime then parameters.foldl (fun g param => g.trackerAdd param) g else g
  InsertArg o (Stmt.CompoundStmt body) g

/-- The registration of the parameters in `InsertMethodBody`. -/
def addParameters (o : InsightsOptions) (parameters : List VarDecl) (g : CodeGenerator) :
    CodeGenerator :=
  if o.ShowLifetime then parameters.foldl (fun g param => g.trackerAdd param) g else g

/-- The state in which `InsertArg(const CompoundStmt*)` starts to render the statements of
the body of a function: the parameters are registered, the body is noted in `mLastStmt`, the
scope is open and `mRequiresImplicitReturnZero` has been exchanged for `false`. -/
def bodyEntry (o : InsightsOptions) (parameters : List VarDecl) (body : List Stmt)
    (g : CodeGenerator) : CodeGenerator :=
  let g := addParameters o parameters g
  let g := { g with mLastStmt := some (Stmt.CompoundStmt body) }.Append [Token.OpenScope]
  { g.trackerStartScope (g.mLastDecl == some DeclClass.FunctionDecl) with
    mRequiresImplicitReturnZero := false }

/-- The overload `InsertArg(const CompoundStmt*)` without the code that inserts the implicit
`return 0`, for comparison with `InsertArgCompoundStmt`. -/
def InsertArgCompoundStmtPlain (handleCompoundStmt : CodeGenerator → CodeGenerator)
    (g : CodeGenerator) : CodeGenerator :=
  let g := g.Append [Token.OpenScope]
  let g := g.trackerStartScope (g.mLastDecl == some DeclClass.FunctionDecl)
  let g := { g with mRequiresImplicitReturnZero := false }
  let g := handleCompoundStmt g
  let clear :=
    match g.mLastStmt with
    | some last => last.isReturnStmt
    | none => false
  let r := g.trackerEndScope clear
  { r.1 with mSkipSemi := r.2 }.Append [Token.CloseScope]

mutual
/-- The dispatcher `InsertArg(const Stmt*)` in which no compound statement inserts an implicit
`return 0`: the same as `InsertArg`, with `InsertArgCompoundStmtPlain` in the place of
`InsertArgCompoundStmt`. -/
def InsertArgPlain (o : InsightsOptions) : Stmt → CodeGenerator → CodeGenerator
  | .NullStmt, g => InsertArgNullStmt { g with mLastStmt := some Stmt.NullStmt }
  | .IntegerLiteral value, g =>
    { g with mLastStmt := some (Stmt.IntegerLiteral value) }.Append [Token.Literal value]
  | .DeclRefExpr decl, g =>
    { g with mLastStmt := some (Stmt.DeclRefExpr decl) }.Append [Token.Name decl]
  | .Expr children, g =>
    InsertArgsPlain o children { g with mLastStmt := some (Stmt.Expr children) }
  | .CompoundStmt body, g =>
    InsertArgCompoundStmtPlain (HandleCompoundStmtPlain o body)
      { g with mLastStmt := some (Stmt.CompoundStmt body) }
  | .DeclStmt decls, g =>
    InsertDeclsPlain o decls { g with mLastStmt := some (Stmt.DeclStmt decls) }
  | .ReturnStmt retValue NRVOCandidate found, g =>
    InsertArgReturnStmt (Stmt.ReturnStmt retValue NRVOCandidate found)
      (TemporaryDeclFinder.construct o retValue.isSome found (InsertFoundPlain o found false))
      (match retValue with
       | none => none
       | some value => some (InsertArgPlain o value))
      NRVOCandidate { g with mLastStmt := some (Stmt.ReturnStmt retValue NRVOCandidate found) }
  | .IfStmt conditionVariable init cond thenStmt elseStmt, g =>
    InsertArgIfStmt
      (match conditionVariable with
       | none => none
       | some vd => some (InsertArgDeclPlain o vd))
      (match init with
       | none => none
       | some i => some (i, InsertArgPlain o i))
      (InsertArgPlain o cond) (thenStmt, InsertArgPlain o thenStmt)
      (match elseStmt with
       | none => none
       | some elsePart => some (elsePart, InsertArgPlain o elsePart))
      { g with mLastStmt := some (Stmt.IfStmt conditionVariable init cond thenStmt elseStmt) }
  | .ExprWithCleanups subExpr found, g =>
    InsertArgExprWithCleanups o
      (fun g =>
        TemporaryDeclFinder.construct o (! g.mProcessingVarDecl) found
          (InsertFoundPlain o found false) g)
      (InsertArgPlain o subExpr)
      { g with mLastStmt := some (Stmt.ExprWithCleanups subExpr found) }
  | .MaterializeTemporaryExpr subExpr, g =>
    InsertArgPlain o subExpr
      { g with mLastStmt := some (Stmt.MaterializeTemporaryExpr subExpr) }
/-- The twin of `InsertArgs`. -/
def InsertArgsPlain (o : InsightsOptions) : List Stmt → CodeGenerator → CodeGenerator
  | [], g => g
  | child :: rest, g => InsertArgsPlain o rest (InsertArgPlain o child g)
/-- The twin of `HandleCompoundStmt`. -/
def HandleCompoundStmtPlain (o : InsightsOptions) : List Stmt → CodeGenerator → CodeGenerator
  | [], g => g
  | item :: rest, g =>
    HandleCompoundStmtPlain o rest
      { (if IsStmtRequiringSemi item && ! (InsertArgPlain o item g).mSkipSemi then
          (InsertArgPlain o item g).Append [Token.SemiNewLine]
         else InsertArgPlain o item g) with mSkipSemi := false }
/-- The twin of `InsertDecls`. -/
def InsertDeclsPlain (o : InsightsOptions) : List VarDecl → CodeGenerator → CodeGenerator
  | [], g => g
  | decl :: rest, g =>
    InsertDeclsPlain o rest
      (InsertArgDeclPlain o decl { g with mLastDecl := some DeclClass.VarDecl })
/-- The twin of `InsertArgDecl`. -/
def InsertArgDeclPlain (o : InsightsOptions) : VarDecl → CodeGenerator → CodeGenerator
  | .mk name needsDestruction init found, g =>
    InsertArgVarDecl (VarDecl.mk name needsDestruction init found)
      (TemporaryDeclFinder.construct o init.isSome found (InsertFoundPlain o found false))
      (match init with
       | none => none
       | some i => some (InsertArgPlain o i))
      g
/-- The twin of `InsertFound`. -/
def InsertFoundPlain (o : InsightsOptions) :
    List Temporary → Bool → CodeGenerator → CodeGenerator
  | [], _, g => g
  | .CXXTemporaryObjectExpr vd :: rest, _, g =>
    InsertFoundPlain o rest true (InsertArgDeclPlain o vd g)
  | .MaterializeTemporaryExpr _ _ vd :: rest, mFound, g =>
    if mFound then InsertFoundPlain o rest mFound g
    else InsertFoundPlain o rest mFound (InsertArgDeclPlain o vd g)
end

end CodeGenerator

/-- Two runs have reached the same state, and `mRequiresImplicitReturnZero` is not set in
it. -/
def Eqv (a b : CodeGenerator) : Prop := a = b ∧ a.mRequiresImplicitReturnZero = false

/-- Two renderings agree on every state in which `mRequiresImplicitReturnZero` is not set, and
leave it unset. -/
def Agree (f f' : CodeGenerator → CodeGenerator) : Prop := ∀ a b, Eqv a b → Eqv (f a) (f' b)

/-- Two constructors of a `TemporaryDeclFinder` agree in the same way. -/
def FinderAgree (c c' : CodeGenerator → TemporaryDeclFinder × CodeGenerator) : Prop :=
  ∀ a b, Eqv a b → (c a).1 = (c' b).1 ∧ Eqv (c a).2 (c' b).2

/-- Two optional renderings are both absent, or both present and agree. -/
def OptAgree : Option (CodeGenerator → CodeGenerator) →
    Option (CodeGenerator → CodeGenerator) → Prop
  | none, none => True
  | some f, some f' => Agree f f'
  | _, _ => False

/-- Two optional renderings of a statement are both absent, or both present for the same
statement and agree. -/
def OptAgreeStmt : Option (Stmt × (CodeGenerator → CodeGenerator)) →
    Option (Stmt × (CodeGenerator → CodeGenerator)) → Prop
  | none, none => True
  | some i, some i' => i.1 = i'.1 ∧ Agree i.2 i'.2
  | _, _ => False

namespace Sample

/-- The statements of the body `{ { } }` of `main`: a block nested in the body, and no return
statement. -/
def mainWithNestedBlock : List Stmt := [.CompoundStmt []]

/-- The statements of the body `{ return 1; }` of `main`. -/
def mainWithReturn : List Stmt := [.ReturnStmt (some (.IntegerLiteral 1)) none []]

end Sample

/-! ## Filling constant arrays -/

/-- The scalar type kinds `GetValueOfValueInit` switches over (`Type::ScalarTypeKind`). -/
inductive ScalarTypeKind where
  | STK_CPointer
  | STK_BlockPointer
  | STK_ObjCObjectPointer
  | STK_MemberPointer
  | STK_Bool
  | STK_Integral
  | STK_Floating
  | STK_IntegralComplex
  | STK_FloatingComplex
  | STK_FixedPoint
  deriving DecidableEq, Repr

/-- The kinds of builtin type `GetValueOfValueInit` tells apart; `Other` is any other kind. -/
inductive BuiltinKind where
  | Char_U
  | UChar
  | Char_S
  | SChar
  | WChar_U
  | WChar_S
  | Char16
  | Char32
  | Half
  | Float
  | Double
  | Other
  deriving DecidableEq, Repr

/-- A type as `GetValueOfValueInit` looks at it: a scalar type with its kind, its builtin
kind (if `getAs<BuiltinType>` finds one) and its element type (if `getAs<ComplexType>` finds
one), a constant array type with its size and element type, or any other type. -/
inductive QualType where
  | scalar (kind : ScalarTypeKind) (builtin : Option BuiltinKind) (complex : Option QualType)
  | constantArray (size : Nat) (elementType : QualType)
  | other
  deriving Repr

/-- Modelled from the spec: `OutputFormatHelper::AppendComma(needsComma)` writes `, ` if a
comma is needed. -/
def OutputFormatHelper.AppendComma (ofm : OutputFormatHelper) (needsComma : Bool) :
    OutputFormatHelper :=
  if needsComma then OutputFormatHelper.Append ofm [',', ' '] else ofm

/-- The function `for_each(start, end, func)` of InsightsHelpers.h:
`for(; start < end; ++start) func(start)`, as a fold over the state `func` works on; `stop`
is the parameter `end`. -/
def for_each {σ : Type} (start stop : Nat) (func : Nat → σ → σ) (s : σ) : σ :=
  (List.range' start (stop - start)).foldl (fun s i => func i s) s

namespace CodeGenerator

/-- The constant `MAX_FILL_VALUES_FOR_ARRAYS`. -/
def MAX_FILL_VALUES_FOR_ARRAYS : Nat := 100

/-- The function `FillConstantArray(ct, value, startAt)`; `ct` is the size of the array type
(`GetSize(ct)`), absent for a null pointer. The state of the loop is the text and the
`OnceFalse needsComma{0 != startAt}`, which yields its initial value once and `true` from
then on. -/
def FillConstantArray (ct : Option Nat) (value : List Char) (startAt : Nat) : List Char :=
  match ct with
  | none => []
  | some arraySize =>
    let size := max 0 (min arraySize MAX_FILL_VALUES_FOR_ARRAYS)
    (for_each startAt size
      (fun _ (state : OutputFormatHelper × Bool) =>
        (OutputFormatHelper.Append (OutputFormatHelper.AppendComma state.1 state.2) value, true))
      ([], decide (0 ≠ startAt))).1

/-- The function `GetValueOfValueInit(t)`. A case that ends in `break` (and fixed point
types, after the error is reported) comes to the `return "0"` at the end. -/
def GetValueOfValueInit : QualType → List Char
  | .scalar kind builtin complex =>
    match kind with
    | .STK_CPointer | .STK_BlockPointer | .STK_ObjCObjectPointer | .STK_MemberPointer =>
      "nullptr".toList
    | .STK_Bool => "false".toList
    | .STK_Integral | .STK_Floating =>
      match builtin with
      | some .Char_U | some .UChar | some .Char_S | some .SChar => "'\\0'".toList
      | some .WChar_U | some .WChar_S => "L'\\0'".toList
      | some .Char16 => "u'\\0'".toList
      | some .Char32 => "U'\\0'".toList
      | some .Half | some .Float => "0.0f".toList
      | some .Double => "0.0".toList
      | _ => "0".toList
    | .STK_FloatingComplex | .STK_IntegralComplex =>
      match complex with
      | some elementType => GetValueOfValueInit elementType
      | none => "0".toList
    | .STK_FixedPoint => "0".toList
  | .constantArray size elementType =>
    FillConstantArray (some size) (GetValueOfValueInit elementType) 0
  | .other => "0".toList

/-- The text of `k` copies of a value separated by `, `. -/
def commaSeparated (k : Nat) (value : List Char) : List Char :=
  match k with
  | 0 => []
  | k + 1 => value ++ (List.replicate k ([',', ' '] ++ value)).flatten

/-- The text of `k` copies of a value, each after `, `. -/
def commaPrefixed (k : Nat) (value : List Char) : List Char :=
  (List.replicate k ([',', ' '] ++ value)).flatten

/-- The number of values a text of comma-separated values shows. -/
def shownValues (text : List Char) : Nat :=
  if text.isEmpty then 0 else text.count ',' + 1

end CodeGenerator

namespace QualType

/-- The number of array types nested in a type. -/
def arrayDepth : QualType → Nat
  | .scalar _ _ (some elementType) => arrayDepth elementType
  | .scalar _ _ none => 0
  | .constantArray _ elementType => arrayDepth elementType + 1
  | .other => 0

end QualType

namespace Sample

/-- The type `int`. -/
def intType : QualType := .scalar .STK_Integral (some .Other) none

/-- The type `int[51][2]`: an array of 51 arrays of 2 `int`. -/
def nestedArray : QualType := .constantArray 51 (.constantArray 2 intType)

end Sample

/-! ## Class templates and their specializations -/

/-- The kinds of a specialization (`TemplateSpecializationKind`). -/
inductive TemplateSpecializationKind where
  | TSK_Undeclared
  | TSK_ImplicitInstantiation
  | TSK_ExplicitSpecialization
  | TSK_ExplicitInstantiationDeclaration
  | TSK_ExplicitInstantiationDefinition
  deriving DecidableEq, Repr

/-- What `InsertArg(const ClassTemplateDecl*)` reads of a specialization: the declaration (by
a number), its kind and its point of instantiation (the raw encoding of the
`SourceLocation`, which `operator<` compares). -/
structure ClassTemplateSpecializationDecl where
  decl : Nat
  specializationKind : TemplateSpecializationKind
  pointOfInstantiation : Nat
  deriving DecidableEq, Repr

/-- What `InsertArg(const ClassTemplateDecl*)` reads of a class template: the template
parameters and the templated declaration (by numbers) and the specializations in the order
`specializations()` yields them. -/
structure ClassTemplateDecl where
  templateParameters : Nat
  templatedDecl : Nat
  specializations : List ClassTemplateSpecializationDecl
  deriving DecidableEq, Repr

/-- What `InsertArg(const ClassTemplateDecl*)` hands to the renderer, in order. -/
inductive RenderedDecl where
  | TemplateParameters (list : Nat)
  | Decl (decl : Nat)
  | Specialization (spec : ClassTemplateSpecializationDecl)
  deriving DecidableEq, Repr

namespace CodeGenerator

/-- The overload `InsertArg(const ClassTemplateDecl*)`: the template parameters (rendered
under a handler of a `Decltype` context of its own), the templated declaration, and the
specializations of kind `TSK_ImplicitInstantiation`, sorted by point of instantiation.
`sort` is `ranges::sort` with the comparison of the points of instantiation. -/
def InsertArgClassTemplateDecl
    (sort : List ClassTemplateSpecializationDecl → List ClassTemplateSpecializationDecl)
    (stmt : ClassTemplateDecl) : List RenderedDecl :=
  let specializations :=
    stmt.specializations.filter fun spec =>
      TemplateSpecializationKind.TSK_ImplicitInstantiation == spec.specializationKind
  let specializations := sort specializations
  [RenderedDecl.TemplateParameters stmt.templateParameters, RenderedDecl.Decl stmt.templatedDecl]
    ++ specializations.map RenderedDecl.Specialization

/-- The contract of `ranges::sort` with the comparison `a->getPointOfInstantiation() <
b->getPointOfInstantiation()`: the result is a rearrangement of the input in which no element
stands before one that compares less. -/
def SortsByPointOfInstantiation
    (sort : List ClassTemplateSpecializationDecl → List ClassTemplateSpecializationDecl) : Prop :=
  ∀ l, (sort l).Perm l ∧
    (sort l).Pairwise fun a b => ¬ b.pointOfInstantiation < a.pointOfInstantiation

end CodeGenerator

/-! ## Template argument lists -/

/-- Modelled from the spec: `OutputFormatHelper::ForEachArg(arguments, lambda)`
(OutputFormatHelper.h is not among the sources) runs `lambda` on every argument and writes
`, ` between two arguments. -/
def OutputFormatHelper.ForEachArg {α : Type} (arguments : List α)
    (lambda : α → OutputFormatHelper → OutputFormatHelper) (ofm : OutputFormatHelper) :
    OutputFormatHelper :=
  (arguments.foldl
    (fun (state : OutputFormatHelper × Bool) arg =>
      (lambda arg (OutputFormatHelper.AppendComma state.1 state.2), true))
    (ofm, false)).1

namespace CodeGenerator

end CodeGenerator

namespace Sample

/-- A class template with an explicit specialization and two implicit instantiations, the
later one listed first. -/
def classTemplate : ClassTemplateDecl :=
  { templateParameters := 1
    templatedDecl := 2
    specializations :=
      [{ decl := 3, specializationKind := .TSK_ImplicitInstantiation, pointOfInstantiation := 90 },
       { decl := 4, specializationKind := .TSK_ExplicitSpecialization, pointOfInstantiation := 50 },
       { decl := 5, specializationKind := .TSK_ImplicitInstantiation,
         pointOfInstantiation := 70 }] }

/-- A sort by point of instantiation. -/
def sortByPointOfInstantiation (l : List ClassTemplateSpecializationDecl) :
    List ClassTemplateSpecializationDecl :=
  l.insertionSort fun a b => a.pointOfInstantiation ≤ b.pointOfInstantiation

/-- A rendering of template arguments that are given by their text. -/
def appendArgument (arg : List Char) (ofm : OutputFormatHelper) : OutputFormatHelper :=
  OutputFormatHelper.Append ofm arg

end Sample

/-! ## Initializer lists and the array filler -/

/-- The test `dyn_cast_or_null<ConstantArrayType>(t.getTypePtrOrNull())` together with
`GetSize`: the size of a constant array type, nothing for any other type. -/
def QualType.asConstantArrayType : QualType → Option Nat
  | .constantArray size _ => some size
  | _ => none

/-- The test `isScalarType()`. -/
def QualType.isScalarType : QualType → Bool
  | .scalar _ _ _ => true
  | _ => false

/-- What `InsertArg(const InitListExpr*)` reads of its statement: the initializers the user
wrote (`inits()`), the array filler (`getArrayFiller()`), the type of the list, and whether
the first initializer is an `ImplicitValueInitExpr`. -/
structure InitListExpr (α : Type) where
  inits : List α
  arrayFiller : Option α
  type : QualType
  firstInitIsImplicitValueInit : Bool := false

namespace CodeGenerator

/-- The function `WrapInCurliesIfNeeded(needsParens, lambda)` on the text of the output: it
goes to `WrapInParensOrCurlys(BraceKind::Curlys, lambda)` if the braces are needed and runs
`lambda` alone otherwise. -/
def WrapInCurliesIfNeeded (needsParens : Bool) (lambda : OutputFormatHelper → OutputFormatHelper)
    (ofm : OutputFormatHelper) : OutputFormatHelper :=
  if needsParens then
    OutputFormatHelper.Append (lambda (OutputFormatHelper.Append ofm ['{'])) ['}']
  else lambda ofm

/-- The overload `InsertArg(const InitListExpr*)` on the text of the output, given the
rendering `InsertArg` of an expression; the filler is rendered by a generator of its own on an
empty buffer. `mNoEmptyInitList` tells whether `NoEmptyInitList::Yes` is set. The indentation
(`IncreaseIndent`, `DecreaseIndent`) is no part of the text. -/
def InsertArgInitListExpr {α : Type} (UseShow2C mNoEmptyInitList : Bool)
    (InsertArg : α → OutputFormatHelper → OutputFormatHelper) (stmt : InitListExpr α)
    (mOutputFormatHelper : OutputFormatHelper) : OutputFormatHelper :=
  if mNoEmptyInitList && stmt.inits.length == 0 then mOutputFormatHelper
  else
    WrapInCurliesIfNeeded
      (! UseShow2C ||
        (UseShow2C &&
          (decide (stmt.inits.length > 1) || stmt.arrayFiller.isSome ||
            (decide (0 < stmt.inits.length) && stmt.firstInitIsImplicitValueInit))))
      (fun ofm =>
        let ofm := OutputFormatHelper.ForEachArg stmt.inits InsertArg ofm
        if stmt.inits.length == 0 && UseShow2C && stmt.type.isScalarType then
          OutputFormatHelper.Append ofm (GetValueOfValueInit stmt.type)
        else
          match stmt.arrayFiller with
          | some filler =>
            let ret :=
              FillConstantArray stmt.type.asConstantArrayType (InsertArg filler [])
                stmt.inits.length
            OutputFormatHelper.Append ofm ret
          | none => ofm)
      mOutputFormatHelper

end CodeGenerator

namespace Sample

/-- The initializer list of `int a[5] = {1, 2};`: two initializers and the filler `0`. -/
def partlyInitialized : InitListExpr (List Char) :=
  { inits := [['1'], ['2']]
    arrayFiller := some ['0']
    type := .constantArray 5 intType }

end Sample

/-! ## The recorded positions on the way through expressions and classes -/

/-- The ways the code that works on the recorded positions can fail. -/
inductive Fault where
  /-- The expression `*mOutputFormatHelperOutside` with a null pointer. -/
  | nullDereference
  /-- The call `.value()` on an empty `std::optional`. -/
  | badOptionalAccess
  /-- The call `InsertAt` with an offset past the end of the buffer. -/
  | insertBeyondEnd
  deriving DecidableEq, Repr

/-- An expression as the walk over the recorded positions tells the kinds apart: a call with
its callee and arguments, a `CXXStdInitializerListExpr`, or any other expression, which has
neither of the two below it and is given by the text the generator writes for it. -/
inductive Expr where
  | CallExpr (callee : Expr) (arguments : List Expr)
  | CXXStdInitializerListExpr (stmt : CXXStdInitializerListExpr)
  | Other (text : List Char)
  deriving Repr

/-- What `InsertArg(const FieldDecl*)` reads of a field of a class: the text written for
attributes, `mutable`, type and name, the text of the bit width (if any), and the in-class
initializer with the test
`(ICIS_ListInit != getInClassInitStyle()) or isa<CXXConstructExpr> or isa<ExprWithCleanups>`
that decides on the ` = `. -/
structure FieldDecl where
  declarator : List Char
  bitWidth : Option (List Char) := none
  inClassInitializer : Option Expr := none
  assignBeforeInitializer : Bool := true
  deriving Repr

/-- A declaration inside a class: a field, or any other declaration, given by the text the
generator writes for it. `access` is the line of the access specifier written before the
declaration when the access changes. -/
inductive MemberDecl where
  | FieldDecl (access : List Char) (field : FieldDecl)
  | Other (access : List Char) (text : List Char)
  deriving Repr

/-- What `InsertArg(const CXXRecordDecl*)` reads of a class that is defined and is no lambda:
the text written before the declarations (head of the class, bases, the opening of the scope),
whether the class is an aggregate, its declarations, and the text written after them. -/
structure CXXRecordDecl where
  head : List Char
  isAggregate : Bool
  decls : List MemberDecl
  tail : List Char
  deriving Repr

/-- The switches read through `GetInsightsOptions()` on the way through expressions. The
modes `UseShow2C`, `UseShowPadding` and `ShowAllCallExprTemplateParameters` are taken to be
off. -/
structure PositionOptions where
  UseShowInitializerList : Bool
  ShowLifetime : Bool
  deriving DecidableEq, Repr

namespace WithFaults

/-- The member `std::optional::value()`: the value, or the exception `bad_optional_access`
for an empty optional. -/
def value (pos : Option Nat) : Except Fault Nat :=
  match pos with
  | some v => .ok v
  | none => .error .badOptionalAccess

/-- The member `InsertAt` of the buffer, with the fault named. -/
def InsertAt (ofm : OutputFormatHelper) (atPos : Nat) (data : List Char) :
    Except Fault OutputFormatHelper :=
  match OutputFormatHelper.InsertAt ofm atPos data with
  | some inserted => .ok inserted
  | none => .error .insertBeyondEnd

/-- Write text at the end of the output buffer. -/
def Append (g : PositionState) (text : List Char) : PositionState :=
  { g with mOutputFormatHelper := OutputFormatHelper.Append g.mOutputFormatHelper text }

/-- The end of `InsertArg(const CXXStdInitializerListExpr*)`: the recorded position that is
advanced by the size of the backing array. -/
def advancePosition (size : Nat) (g : PositionState) : Except Fault PositionState :=
  if g.mCurrentReturnPos.isSome then
    match value g.mCurrentReturnPos with
    | .error fault => .error fault
    | .ok pos => .ok { g with mCurrentReturnPos := some (pos + size) }
  else if g.mCurrentVarDeclPos.isSome then
    match value g.mCurrentVarDeclPos with
    | .error fault => .error fault
    | .ok pos => .ok { g with mCurrentVarDeclPos := some (pos + size) }
  else
    match value g.mCurrentCallExprPos with
    | .error fault => .error fault
    | .ok pos => .ok { g with mCurrentCallExprPos := some (pos + size) }

/-- The overload `InsertArg(const CXXStdInitializerListExpr*)`, statement by statement, with
the fault it stops at. The lambda `ofmToInsert` chooses the buffer: the one
`mOutputFormatHelperOutside` points to (after it has set `mCurrentVarDeclPos` and the
modifiers) when none of the positions of a variable, a return and a call is recorded, and the
output buffer otherwise. -/
def InsertArgCXXStdInitializerListExpr (o : PositionOptions) (stmt : CXXStdInitializerListExpr)
    (g : PositionState) : Except Fault PositionState :=
  if o.UseShowInitializerList then
    if g.mCurrentVarDeclPos.isNone && g.mCurrentFieldPos.isNone && g.mCurrentReturnPos.isNone
        && g.mCurrentCallExprPos.isNone then
      .ok g
    else
      match stmt.subExpr, o.ShowLifetime with
      | .DeclRefExpr name size, true =>
        let use := CodeGenerator.initializerListUse stmt.typeName name size
        .ok (Append g use)
      | _, _ =>
        let variableInsertPos :=
          g.mCurrentReturnPos.getD (g.mCurrentVarDeclPos.getD (g.mCurrentCallExprPos.getD 0))
        let outside :=
          g.mCurrentVarDeclPos.isNone && g.mCurrentReturnPos.isNone
            && g.mCurrentCallExprPos.isNone
        let variableInsertPos := if outside then g.mCurrentFieldPos.getD 0 else variableInsertPos
        let modifiers := if outside then "static inline ".toList else []
        let g := if outside then { g with mCurrentVarDeclPos := some variableInsertPos } else g
        match (if outside then g.mOutputFormatHelperOutside else some g.mOutputFormatHelper) with
        | none => .error .nullDereference
        | some ofmToInsert =>
          let size :=
            match stmt.subExpr with
            | .MaterializedInitList numInits => numInits
            | _ => 0
          let ofm := CodeGenerator.backingArrayText modifiers stmt
          match InsertAt ofmToInsert variableInsertPos ofm with
          | .error fault => .error fault
          | .ok inserted =>
            let g :=
              if outside then { g with mOutputFormatHelperOutside := some inserted }
              else { g with mOutputFormatHelper := inserted }
            let use := CodeGenerator.initializerListUse stmt.typeName stmt.internalListName size
            advancePosition ofm.length (Append g use)
  else
    .ok (Append g (stmt.typeName ++ stmt.subExprText))

/-- The member `UpdateCurrentPos(mCurrentCallExprPos)`. -/
def UpdateCurrentCallExprPos (g : PositionState) : PositionState :=
  { g with mCurrentCallExprPos := some (OutputFormatHelper.CurrentPos g.mOutputFormatHelper) }

mutual
/-- The walk `InsertArg` over an expression. For a call it is the overload
`InsertArg(const CallExpr*)`: the position of the call is recorded, the callee and, between
parentheses, the arguments are rendered, and the position is reset. The lambda stack is left
out: no expression of this model is a lambda, so the buffers of its entries stay empty and the
handlers write nothing. -/
def InsertArg (o : PositionOptions) : Expr → PositionState → Except Fault PositionState
  | .Other text, g => .ok (Append g text)
  | .CXXStdInitializerListExpr stmt, g => InsertArgCXXStdInitializerListExpr o stmt g
  | .CallExpr callee arguments, g =>
    let g := UpdateCurrentCallExprPos g
    match InsertArg o callee g with
    | .error fault => .error fault
    | .ok g =>
      match ForEachArg o arguments false (Append g ['(']) with
      | .error fault => .error fault
      | .ok g => .ok { Append g [')'] with mCurrentCallExprPos := none }
/-- The loop `ForEachArg(stmt->arguments(), ...)` of a call, which is
`OutputFormatHelper.ForEachArg` on a rendering that can fail: `, ` is written between two
arguments; `needsComma` is the state of the loop. -/
def ForEachArg (o : PositionOptions) :
    List Expr → Bool → PositionState → Except Fault PositionState
  | [], _, g => .ok g
  | arg :: rest, needsComma, g =>
    match InsertArg o arg (if needsComma then Append g [',', ' '] else g) with
    | .error fault => .error fault
    | .ok g => ForEachArg o rest true g
end

/-- The overload `InsertArg(const FieldDecl*)` for a field of a class: the declarator, the
bit width, for an aggregate the in-class initializer (rendered by this generator), `;` and a
new line. -/
def InsertArgFieldDecl (o : PositionOptions) (isAggregate : Bool) (stmt : FieldDecl)
    (g : PositionState) : Except Fault PositionState :=
  let g := Append g stmt.declarator
  let g :=
    match stmt.bitWidth with
    | some width => Append (Append g [':']) width
    | none => g
  let rendered : Except Fault PositionState :=
    match stmt.inClassInitializer with
    | some initializer =>
      if isAggregate then
        let g := if stmt.assignBeforeInitializer then Append g " = ".toList else g
        InsertArg o initializer g
      else .ok g
    | none => .ok g
  match rendered with
  | .error fault => .error fault
  | .ok g => .ok (Append (Append g [';']) ['\n'])

/-- The loop over `stmt->decls()` in `InsertArg(const CXXRecordDecl*)`. -/
def InsertDecls (o : PositionOptions) (isAggregate : Bool) :
    List MemberDecl → PositionState → Except Fault PositionState
  | [], g => .ok g
  | .FieldDecl access field :: rest, g =>
    match InsertArgFieldDecl o isAggregate field (Append g access) with
    | .error fault => .error fault
    | .ok g => InsertDecls o isAggregate rest g
  | .Other access text :: rest, g => InsertDecls o isAggregate rest (Append (Append g access) text)

/-- The overload `InsertArg(const CXXRecordDecl*)` for a class with a definition that is no
lambda: after the head of the class the position of the fields is recorded
(`UpdateCurrentPos(mCurrentFieldPos)`), then the declarations are rendered by this
generator. -/
def InsertArgCXXRecordDecl (o : PositionOptions) (stmt : CXXRecordDecl) (g : PositionState) :
    Except Fault PositionState :=
  let g := Append g stmt.head
  let g :=
    { g with mCurrentFieldPos := some (OutputFormatHelper.CurrentPos g.mOutputFormatHelper) }
  match InsertDecls o stmt.isAggregate stmt.decls g with
  | .error fault => .error fault
  | .ok g => .ok (Append g stmt.tail)

end WithFaults

namespace Sample

/-- The call `f(g(), {1, 2})`. -/
def nestedCallBeforeList : Expr :=
  .CallExpr (.Other ['f']) [.CallExpr (.Other ['g']) [], .CXXStdInitializerListExpr listArgument]

/-- The call `f({1, 2})`. -/
def callWithList : Expr := .CallExpr (.Other ['f']) [.CXXStdInitializerListExpr listArgument]

/-- The initializer list of the field `l` below. -/
def listOfField : CXXStdInitializerListExpr :=
  { typeName := "std::initializer_list<int>".toList
    subExpr := .MaterializedInitList 2
    internalListName := "__list1".toList
    typeNameAsParameter := "const int __list1[2]".toList
    subExprText := "\x7b1, 2\x7d".toList }

/-- The aggregate `struct S { std::initializer_list<int> l = {1, 2}; };`. -/
def recordWithListField : CXXRecordDecl :=
  { head := "struct S\n\x7b\n".toList
    isAggregate := true
    decls :=
      [.FieldDecl [] { declarator := "std::initializer_list<int> l".toList
                       inClassInitializer := some (.CXXStdInitializerListExpr listOfField) }]
    tail := "\x7d;\n".toList }

/-- The options with the expansion of initializer lists on and the lifetime comments off. -/
def showInitializerList : PositionOptions :=
  { UseShowInitializerList := true, ShowLifetime := false }

end Sample

/-! ## The table of vtables -/

/-- An entry of the static table `gVtables`: the pair of records and the variable of the
vtable; the declarations are told apart by numbers. -/
abbrev VtableEntry := (Nat × Nat) × Nat

/-- The library function `std::ranges::find_if` on a range: the iterator to the first element
that satisfies the predicate, `end()` if there is none. An iterator is the offset from
`begin()`, so `end()` is the number of elements. -/
def find_if {α : Type} (range : List α) (pred : α → Bool) : Nat := range.findIdx pred

/-- The conversion of a distance (`std::distance`, of type `ptrdiff_t`) to the return type
`int`: the value modulo `2^32`, read as a signed number of 32 bits. -/
def toInt32 (distance : Nat) : Int := ((distance + 2 ^ 31) % 2 ^ 32 : Nat) - 2 ^ 31

/-- The function `GetGlobalVtablePos(record, recordB)` on the table `gVtables`. -/
def GetGlobalVtablePos (gVtables : List VtableEntry) (record recordB : Nat) : Int :=
  let iter := find_if gVtables fun e => e.1.1 == record && e.1.2 == recordB
  let iter :=
    if iter == gVtables.length then find_if gVtables fun e => e.1.1 == record else iter
  toInt32 iter

/-- The function `PushVtableEntry(record, recordB, decl)`: the table after the call. -/
def PushVtableEntry (gVtables : List VtableEntry) (record recordB decl : Nat) :
    List VtableEntry :=
  gVtables ++ [((record, recordB), decl)]

namespace Sample

/-- A table with the entries of `(1, 2)`, `(3, 4)`, `(3, 5)` and once more `(3, 5)`. -/
def vtables : List VtableEntry := [((1, 2), 10), ((3, 4), 11), ((3, 5), 12), ((3, 5), 13)]

end Sample

/-! ## The statements of a compound statement and their semicolons -/

/-- The classes of statement `HandleCompoundStmt` tests with `isa`; `Other` is any other
class. -/
inductive StmtClass where
  | IfStmt
  | NullStmt
  | ForStmt
  | DeclStmt
  | WhileStmt
  | DoStmt
  | CXXForRangeStmt
  | SwitchStmt
  | CXXTryStmt
  | CppInsightsCommentStmt
  | LambdaExpr
  | Other
  deriving DecidableEq, Repr

/-- The classes of generator that define the virtual function `InsertSemi()`. -/
inductive GeneratorClass where
  | CodeGenerator
  | MultiStmtDeclCodeGenerator
  | CfrontCodeGenerator
  deriving DecidableEq, Repr

/-- The members of a generator `HandleCompoundStmt` reads and writes: the output, the lambda
stack, `mSkipSemi`, and the member `mInsertSemi` of `CfrontCodeGenerator`. -/
structure CompoundState where
  mOutputFormatHelper : OutputFormatHelper := []
  mLambdaStack : StackList LambdaHelper := []
  mSkipSemi : Bool := false
  mInsertSemi : Bool := true

namespace CompoundBody

/-- Modelled from the spec: `AppendSemiNewLine()` writes `;` and a new line. -/
def AppendSemiNewLine (g : CompoundState) : CompoundState :=
  { g with mOutputFormatHelper := OutputFormatHelper.Append g.mOutputFormatHelper [';', '\n'] }

/-- The template `IsStmtRequiringSemi<Args...>(stmt)`: `(... and not isa<Args>(stmt))`. -/
def IsStmtRequiringSemi (args : List StmtClass) (stmt : StmtClass) : Bool :=
  args.all fun arg => ! (stmt == arg)

/-- The virtual function `InsertSemi()`: `true` in `CodeGenerator`, `false` in
`MultiStmtDeclCodeGenerator`, and `std::exchange(mInsertSemi, true)` in
`CfrontCodeGenerator`. -/
def InsertSemi (cls : GeneratorClass) (g : CompoundState) : Bool × CompoundState :=
  match cls with
  | .CodeGenerator => (true, g)
  | .MultiStmtDeclCodeGenerator => (false, g)
  | .CfrontCodeGenerator => (g.mInsertSemi, { g with mInsertSemi := true })

/-- The overload `InsertArg(const NullStmt*)`. -/
def InsertArgNullStmt (g : CompoundState) : CompoundState :=
  { AppendSemiNewLine g with mSkipSemi := true }

/-- The function `HandleCompoundStmt` over the statements of the body, given the class of
each statement and its rendering `InsertArg`. The operands of `and` are evaluated from the
left, so `InsertSemi()` is called only for a statement of none of the ten classes. -/
def HandleCompoundStmt {α : Type} (cls : GeneratorClass) (classOf : α → StmtClass)
    (InsertArg : α → CompoundState → CompoundState) : List α → CompoundState → CompoundState
  | [], g => g
  | item :: rest, g =>
    let g := InsertArg item g
    let skipSemiForLambda := StackList.empty g.mLambdaStack && classOf item == .LambdaExpr
    let g :=
      if IsStmtRequiringSemi
          [.IfStmt, .NullStmt, .ForStmt, .DeclStmt, .WhileStmt, .DoStmt, .CXXForRangeStmt,
            .SwitchStmt, .CXXTryStmt, .CppInsightsCommentStmt] (classOf item) then
        let r := InsertSemi cls g
        if r.1 && ! skipSemiForLambda && ! r.2.mSkipSemi then AppendSemiNewLine r.2 else r.2
      else g
    HandleCompoundStmt cls classOf InsertArg rest { g with mSkipSemi := false }

end CompoundBody

namespace Sample

/-- A rendering of statements given by their class and text: a null statement goes through
`InsertArg(const NullStmt*)`, any other statement writes its text. -/
def renderItem (item : StmtClass × List Char) (g : CompoundState) : CompoundState :=
  if item.1 = .NullStmt then CompoundBody.InsertArgNullStmt g
  else { g with mOutputFormatHelper := OutputFormatHelper.Append g.mOutputFormatHelper item.2 }

/-- The body `; f(); if(c) {} g()`: a null statement, a call, an `if` and a call. -/
def bodyWithNullStmt : List (StmtClass × List Char) :=
  [(.NullStmt, []), (.Other, "f()".toList), (.IfStmt, "if(c) \x7b\x7d\n".toList),
    (.Other, "g()".toList)]

end Sample

/-! # Theorems on the hoisting of lambdas -/

section Hoisting

open LambdaScopeHandler

/-! ## Lemmas on buffers and the stack -/

theorem InsertAt_eq_some {ofm : OutputFormatHelper} {atPos : Nat} (data : List Char)
    (h : atPos ≤ ofm.length) :
    OutputFormatHelper.InsertAt ofm atPos data
      = some (ofm.take atPos ++ data ++ ofm.drop atPos) := by
  simp [OutputFormatHelper.InsertAt, h]

theorem InsertAt_length {ofm text : OutputFormatHelper} {atPos : Nat} {data : List Char}
    (h : OutputFormatHelper.InsertAt ofm atPos data = some text) :
    ofm.length ≤ text.length := by
  unfold OutputFormatHelper.InsertAt at h
  split at h
  · cases h
    simp only [List.length_append, List.length_take, List.length_drop]
    omega
  · cases h

theorem pop_concat {α : Type} (st : StackList α) (a : α) :
    StackList.pop (st ++ [a]) = some (a, st) := by
  simp [StackList.pop]

theorem pop_push {α : Type} (st : StackList α) (a : α) :
    StackList.pop (StackList.push st a) = some (a, st) := pop_concat st a

theorem Heap.read_write_same (h : Heap) (r : BufRef) (text t : OutputFormatHelper)
    (hr : h.read r = some t) : (h.write r text).read r = some text := by
  cases r with
  | output id => simp [Heap.read, Heap.write]
  | lambda idx =>
    simp only [Heap.read, Heap.write, List.getElem?_modify] at hr ⊢
    cases hl : h.mStack[idx]? with
    | none => simp [hl] at hr
    | some l => simp [LambdaHelper.buffer]

theorem Heap.read_write_other (h : Heap) (r r' : BufRef) (text : OutputFormatHelper)
    (hne : r' ≠ r) : (h.write r text).read r' = h.read r' := by
  cases r with
  | output id =>
    cases r' with
    | output id' =>
      have : id' ≠ id := fun e => hne (by rw [e])
      simp [Heap.read, Heap.write, Function.update, this]
    | lambda idx' => simp [Heap.read, Heap.write]
  | lambda idx =>
    cases r' with
    | output id' => simp [Heap.read, Heap.write]
    | lambda idx' =>
      have : idx ≠ idx' := fun e => hne (by rw [e])
      simp only [Heap.read, Heap.write, List.getElem?_modify]
      cases h.mStack[idx']? <;> simp [this]

theorem Heap.write_key (h : Heap) (r : BufRef) (text : OutputFormatHelper) (i : Nat) :
    ((h.write r text).mStack[i]?).map LambdaHelper.key = (h.mStack[i]?).map LambdaHelper.key := by
  cases r with
  | output id => simp [Heap.write]
  | lambda idx =>
    simp only [Heap.write, List.getElem?_modify]
    cases h.mStack[i]? with
    | none => simp
    | some l => by_cases e : idx = i <;> simp [e, LambdaHelper.key]

theorem Heap.write_length (h : Heap) (r : BufRef) (text : OutputFormatHelper) :
    (h.write r text).mStack.length = h.mStack.length := by
  cases r <;> simp [Heap.write]

theorem Heap.write_events (h : Heap) (r : BufRef) (text : OutputFormatHelper) :
    (h.write r text).events = h.events := by
  cases r <;> simp [Heap.write]

theorem Heap.Le.refl (n : Nat) (h : Heap) : Heap.Le n h h :=
  ⟨fun _ => Nat.le_refl _, fun _ _ l hl => ⟨l, hl, rfl, Nat.le_refl _⟩⟩

theorem Heap.Le.trans {n : Nat} {a b c : Heap} (hab : Heap.Le n a b) (hbc : Heap.Le n b c) :
    Heap.Le n a c := by
  refine ⟨fun id => Nat.le_trans (hab.1 id) (hbc.1 id), ?_⟩
  intro i hi l hl
  obtain ⟨l1, h1, k1, b1⟩ := hab.2 i hi l hl
  obtain ⟨l2, h2, k2, b2⟩ := hbc.2 i hi l1 h1
  exact ⟨l2, h2, k2.trans k1, Nat.le_trans b1 b2⟩

theorem Heap.Le.mono {m n : Nat} {a b : Heap} (hmn : m ≤ n) (hab : Heap.Le n a b) :
    Heap.Le m a b :=
  ⟨hab.1, fun i hi l hl => hab.2 i (Nat.lt_of_lt_of_le hi hmn) l hl⟩

theorem liveRef_mono {m n : Nat} (hmn : m ≤ n) {r : BufRef}
    (h : Traversal.liveRef m r = true) : Traversal.liveRef n r = true := by
  cases r with
  | output id => rfl
  | lambda idx =>
    simp only [Traversal.liveRef, decide_eq_true_eq] at h ⊢
    omega

theorem Heap.read_of_live (h : Heap) {r : BufRef}
    (hr : Traversal.liveRef h.mStack.length r = true) : ∃ t, h.read r = some t := by
  cases r with
  | output id => exact ⟨_, rfl⟩
  | lambda idx =>
    simp only [Traversal.liveRef, decide_eq_true_eq] at hr
    simp [Heap.read, List.getElem?_eq_getElem hr]

theorem Heap.Le.read {n : Nat} {a b : Heap} (hab : Heap.Le n a b) {r : BufRef}
    (hr : Traversal.liveRef n r = true) {t : OutputFormatHelper} (ht : a.read r = some t) :
    ∃ t', b.read r = some t' ∧ t.length ≤ t'.length := by
  cases r with
  | output id =>
    simp only [Heap.read, Option.some.injEq] at ht
    subst ht
    exact ⟨_, rfl, hab.1 id⟩
  | lambda idx =>
    simp only [Traversal.liveRef, decide_eq_true_eq] at hr
    simp only [Heap.read] at ht ⊢
    cases hl : a.mStack[idx]? with
    | none => simp [hl] at ht
    | some l =>
      obtain ⟨l', h1, _, h3⟩ := hab.2 idx hr l hl
      simp only [hl, Option.map_some', Option.some.injEq] at ht
      subst ht
      exact ⟨l'.buffer, by simp [h1], h3⟩

theorem Heap.WF.of_le {a b : Heap} (hwf : a.WF) (hab : Heap.Le a.mStack.length a b)
    (hlen : b.mStack.length = a.mStack.length) : b.WF := by
  intro i l' hl'
  have hi : i < a.mStack.length := by
    have := (List.getElem?_eq_some_iff.1 hl').1
    omega
  obtain ⟨l, hl⟩ : ∃ l, a.mStack[i]? = some l := ⟨_, List.getElem?_eq_getElem hi⟩
  obtain ⟨l'', h1, k, _⟩ := hab.2 i hi l hl
  rw [hl'] at h1
  cases h1
  obtain ⟨hlive, t, ht, hpos⟩ := hwf i l hl
  simp only [LambdaHelper.key, Prod.mk.injEq] at k
  obtain ⟨_, _, kpos, ktarget⟩ := k
  rw [ktarget, kpos]
  refine ⟨hlive, ?_⟩
  obtain ⟨t', ht', hle⟩ := hab.read (liveRef_mono (Nat.le_of_lt hi) hlive) ht
  exact ⟨t', ht', Nat.le_trans hpos hle⟩

theorem Heap.write_le (n : Nat) (h : Heap) (r : BufRef) {t text : OutputFormatHelper}
    (hr : h.read r = some t) (hlen : t.length ≤ text.length) : Heap.Le n h (h.write r text) := by
  cases r with
  | output id =>
    simp only [Heap.read, Option.some.injEq] at hr
    subst hr
    refine ⟨fun id' => ?_, fun i _ l hl => ⟨l, by simpa [Heap.write] using hl, rfl, Nat.le_refl _⟩⟩
    by_cases e : id' = id
    · subst e
      simpa [Heap.write] using hlen
    · simp [Heap.write, Function.update, e]
  | lambda idx =>
    refine ⟨fun id' => by simp [Heap.write], fun i _ l hl => ?_⟩
    simp only [Heap.write, List.getElem?_modify, hl]
    by_cases e : idx = i
    · subst e
      simp only [Heap.read, hl, Option.map_some', Option.some.injEq] at hr
      subst hr
      exact ⟨{ l with mLambdaOutputFormatHelper := text }, by simp, rfl,
        by simpa [LambdaHelper.buffer] using hlen⟩
    · exact ⟨l, by simp [e], rfl, Nat.le_refl _⟩

/-! ## Lemmas on `GetBuffer` -/

theorem iterate_concat {α : Type} (st : StackList α) (top : α) :
    StackList.iterate (st ++ [top]) = (st.length, top) :: StackList.iterate st := by
  simp [StackList.iterate, List.enum_append, List.enumFrom_cons]

theorem GetBuffer_nil (ofm : BufRef) : GetBuffer [] ofm = ofm := rfl

theorem GetBuffer_concat (st : StackList LambdaHelper) (top : LambdaHelper) (ofm : BufRef) :
    GetBuffer (st ++ [top]) ofm
      = if GetBuffer.returnsBuffer top.callerType = true then BufRef.lambda st.length
        else GetBuffer st ofm := by
  unfold GetBuffer
  rw [iterate_concat, GetBuffer.loop]
  by_cases hq : GetBuffer.returnsBuffer top.callerType = true
  · simp [hq]
  · simp [hq]

/-- What `GetBuffer` returns: the buffer passed in when no entry qualifies, and otherwise the
buffer of a qualifying entry above which no entry qualifies. -/
theorem GetBuffer_cases (st : StackList LambdaHelper) (ofm : BufRef) :
    (GetBuffer st ofm = ofm ∧ ∀ l, l ∈ st → GetBuffer.returnsBuffer l.callerType = false) ∨
    ∃ i l, GetBuffer st ofm = BufRef.lambda i ∧ st[i]? = some l ∧
      GetBuffer.returnsBuffer l.callerType = true ∧
      ∀ j, i < j → ∀ l', st[j]? = some l' → GetBuffer.returnsBuffer l'.callerType = false := by
  induction st using List.reverseRecOn with
  | nil => exact Or.inl ⟨rfl, fun l hl => by simp at hl⟩
  | append_singleton st top ih =>
    rw [GetBuffer_concat]
    by_cases hq : GetBuffer.returnsBuffer top.callerType = true
    · refine Or.inr ⟨st.length, top, by simp [hq], by simp, hq, ?_⟩
      intro j hj l' hl'
      have := (List.getElem?_eq_some_iff.1 hl').1
      simp only [List.length_append, List.length_singleton] at this
      omega
    · have hq' : GetBuffer.returnsBuffer top.callerType = false := by simpa using hq
      rw [if_neg hq]
      rcases ih with ⟨h1, h2⟩ | ⟨i, l, h1, h2, h3, h4⟩
      · refine Or.inl ⟨h1, ?_⟩
        intro l hl
        rcases List.mem_append.1 hl with h | h
        · exact h2 l h
        · simp only [List.mem_singleton] at h
          subst h
          exact hq'
      · have hi := (List.getElem?_eq_some_iff.1 h2).1
        refine Or.inr ⟨i, l, h1, by simpa [List.getElem?_append_left hi] using h2, h3, ?_⟩
        intro j hj l' hl'
        by_cases hjl : j < st.length
        · exact h4 j hj l' (by simpa [List.getElem?_append_left hjl] using hl')
        · have hlen := (List.getElem?_eq_some_iff.1 hl').1
          simp only [List.length_append, List.length_singleton] at hlen
          have hje : j = st.length := by omega
          subst hje
          simp only [List.getElem?_concat_length, Option.some.injEq] at hl'
          subst hl'
          exact hq'

theorem GetBuffer.live (st : StackList LambdaHelper) (ofm : BufRef)
    (hofm : Traversal.liveRef st.length ofm = true) :
    Traversal.liveRef st.length (GetBuffer st ofm) = true := by
  rcases GetBuffer_cases st ofm with ⟨h1, _⟩ | ⟨i, l, h1, h2, _, _⟩
  · rw [h1]
    exact hofm
  · rw [h1]
    have := (List.getElem?_eq_some_iff.1 h2).1
    simp only [Traversal.liveRef, decide_eq_true_eq]
    exact this

theorem GetBuffer_of_anchor (st : StackList LambdaHelper) (ofm : BufRef)
    (h : ∃ (i : Nat) (l : LambdaHelper),
      st[i]? = some l ∧ GetBuffer.returnsBuffer l.callerType = true) :
    ∃ idx, GetBuffer st ofm = BufRef.lambda idx := by
  obtain ⟨i, l, hl, hq⟩ := h
  rcases GetBuffer_cases st ofm with ⟨_, h2⟩ | ⟨idx, _, h1, _⟩
  · have := h2 l (List.getElem?_mem hl)
    rw [hq] at this
    cases this
  · exact ⟨idx, h1⟩

theorem Heap.read_push (h : Heap) (l : LambdaHelper) (ev : List StackEvent) {r : BufRef}
    (hr : Traversal.liveRef h.mStack.length r = true) :
    Heap.read { h with mStack := h.mStack ++ [l], events := ev } r = h.read r := by
  cases r with
  | output id => rfl
  | lambda idx =>
    simp only [Traversal.liveRef, decide_eq_true_eq] at hr
    simp [Heap.read, List.getElem?_append_left hr]

theorem construct_eq (h : Heap) (self : Nat) (ofm : BufRef) (ct : LambdaCallerType)
    (hofm : Traversal.liveRef h.mStack.length ofm = true) :
    ∃ t, h.read (GetBuffer h.mStack ofm) = some t ∧
      construct h self ofm ct
        = some { h with
                 mStack := h.mStack ++
                   [{ self := self, mLambdaCallerType := ct, mCurrentVarDeclPos := t.length,
                      mOutputFormatHelper := GetBuffer h.mStack ofm }]
                 events := h.events ++ [StackEvent.push self] } := by
  obtain ⟨t, ht⟩ := h.read_of_live (GetBuffer.live h.mStack ofm hofm)
  exact ⟨t, ht, by simp [construct, newHelper, ht, StackList.push, OutputFormatHelper.CurrentPos]⟩

theorem destruct_concat (h : Heap) (st : List LambdaHelper) (top : LambdaHelper)
    (hst : h.mStack = st ++ [top]) :
    destruct h
      = finish { h with mStack := st, events := h.events ++ [StackEvent.pop top.self] } top := by
  simp [destruct, hst, StackList.empty, pop_concat]

theorem finish_eq (h : Heap) (l : LambdaHelper) {t : OutputFormatHelper}
    (ht : h.read l.mOutputFormatHelper = some t) (hpos : l.mCurrentVarDeclPos ≤ t.length) :
    finish h l
      = some (if l.mLambdaOutputFormatHelper = [] then h
              else h.write l.mOutputFormatHelper
                (t.take l.mCurrentVarDeclPos ++ l.mLambdaOutputFormatHelper
                  ++ t.drop l.mCurrentVarDeclPos)) := by
  unfold finish
  by_cases he : l.mLambdaOutputFormatHelper = []
  · simp [he, OutputFormatHelper.empty]
  · have : l.mLambdaOutputFormatHelper.isEmpty = false := by
      cases hb : l.mLambdaOutputFormatHelper with
      | nil => exact absurd hb he
      | cons a b => rfl
    simp [he, OutputFormatHelper.empty, this, ht, InsertAt_eq_some _ hpos]

theorem construct_spec (h : Heap) (hwf : h.WF) (self : Nat) (ofm : BufRef)
    (ct : LambdaCallerType) (hofm : Traversal.liveRef h.mStack.length ofm = true) :
    ∃ t h1, h.read (GetBuffer h.mStack ofm) = some t ∧
      construct h self ofm ct = some h1 ∧
      h1.mStack = h.mStack ++
        [{ self := self, mLambdaCallerType := ct, mCurrentVarDeclPos := t.length,
           mOutputFormatHelper := GetBuffer h.mStack ofm }] ∧
      h1.outputs = h.outputs ∧
      h1.events = h.events ++ [StackEvent.push self] ∧
      h1.WF ∧ Heap.Le h.mStack.length h h1 := by
  obtain ⟨t, ht, hc⟩ := construct_eq h self ofm ct hofm
  refine ⟨t, _, ht, hc, rfl, rfl, rfl, ?_, ?_⟩
  · intro i l hl
    have hi : i < h.mStack.length + 1 := by
      have := (List.getElem?_eq_some_iff.1 hl).1
      simpa using this
    by_cases hlt : i < h.mStack.length
    · simp only [List.getElem?_append_left hlt] at hl
      obtain ⟨hlive, t', ht', hpos⟩ := hwf i l hl
      refine ⟨hlive, t', ?_, hpos⟩
      rw [Heap.read_push h _ _ (liveRef_mono (Nat.le_of_lt hlt) hlive)]
      exact ht'
    · have hie : i = h.mStack.length := by omega
      subst hie
      simp only [List.getElem?_concat_length, Option.some.injEq] at hl
      subst hl
      refine ⟨GetBuffer.live h.mStack ofm hofm, t, ?_, Nat.le_refl _⟩
      rw [Heap.read_push h _ _ (GetBuffer.live h.mStack ofm hofm)]
      exact ht
  · refine ⟨fun _ => Nat.le_refl _, fun i hi l hl => ⟨l, ?_, rfl, Nat.le_refl _⟩⟩
    simpa [List.getElem?_append_left hi] using hl

theorem destruct_spec (h2 : Heap) (hwf : h2.WF) (st : List LambdaHelper) (top : LambdaHelper)
    (hst : h2.mStack = st ++ [top]) :
    ∃ t2 h3, h2.read top.mOutputFormatHelper = some t2 ∧
      top.mCurrentVarDeclPos ≤ t2.length ∧
      destruct h2 = some h3 ∧
      h3.mStack.length = st.length ∧
      Heap.Le st.length h2 h3 ∧
      h3.events = h2.events ++ [StackEvent.pop top.self] ∧
      h3.read top.mOutputFormatHelper
        = some (if top.mLambdaOutputFormatHelper = [] then t2
                else t2.take top.mCurrentVarDeclPos ++ top.mLambdaOutputFormatHelper
                  ++ t2.drop top.mCurrentVarDeclPos) ∧
      ∀ r, r ≠ top.mOutputFormatHelper → Traversal.liveRef st.length r = true →
        h3.read r = h2.read r := by
  obtain ⟨outs, stack, evs⟩ := h2
  simp only at hst
  subst hst
  obtain ⟨hlive, t2, ht2, hpos⟩ := hwf st.length top (by simp)
  let hp : Heap := { outputs := outs, mStack := st, events := evs ++ [StackEvent.pop top.self] }
  have hread : ∀ r, Traversal.liveRef st.length r = true →
      Heap.read { outputs := outs, mStack := st ++ [top], events := evs } r = hp.read r :=
    fun r hr => Heap.read_push hp top evs hr
  have ht2p : hp.read top.mOutputFormatHelper = some t2 := by rw [← hread _ hlive]; exact ht2
  have hle : Heap.Le st.length { outputs := outs, mStack := st ++ [top], events := evs } hp := by
    refine ⟨fun _ => Nat.le_refl _, fun i hi l hl => ⟨l, ?_, rfl, Nat.le_refl _⟩⟩
    simpa [hp, List.getElem?_append_left hi] using hl
  have hd : destruct { outputs := outs, mStack := st ++ [top], events := evs }
      = some (if top.mLambdaOutputFormatHelper = [] then hp
              else hp.write top.mOutputFormatHelper
                (t2.take top.mCurrentVarDeclPos ++ top.mLambdaOutputFormatHelper
                  ++ t2.drop top.mCurrentVarDeclPos)) := by
    rw [destruct_concat _ st top rfl]
    exact finish_eq hp top ht2p hpos
  refine ⟨t2, _, ht2, hpos, hd, ?_, ?_, ?_, ?_, ?_⟩
  · by_cases he : top.mLambdaOutputFormatHelper = []
    · simp [he]
    · simp [he, Heap.write_length]
  · by_cases he : top.mLambdaOutputFormatHelper = []
    · simpa [he] using hle
    · simp only [he, if_false]
      refine hle.trans (Heap.write_le _ hp _ ht2p ?_)
      have := List.take_append_drop top.mCurrentVarDeclPos t2
      have hl := congrArg List.length this
      simp only [List.length_append] at hl ⊢
      omega
  · by_cases he : top.mLambdaOutputFormatHelper = []
    · simp [he]
    · simp [he, Heap.write_events]
  · by_cases he : top.mLambdaOutputFormatHelper = []
    · simpa [he] using ht2p
    · simp only [he, if_false]
      exact Heap.read_write_same hp _ _ t2 ht2p
  · intro r hne hr
    by_cases he : top.mLambdaOutputFormatHelper = []
    · simp only [he, if_true]
      exact (hread r hr).symm
    · simp only [he, if_false]
      rw [Heap.read_write_other hp _ _ _ hne]
      exact (hread r hr).symm

theorem key_of_le_top {d : Nat} {h1 h2 : Heap} {e : LambdaHelper}
    (hle : Heap.Le (d + 1) h1 h2) (hlen : h2.mStack.length = d + 1)
    (he : h1.mStack[d]? = some e) :
    ∃ top, h2.mStack = h2.mStack.dropLast ++ [top] ∧ top.key = e.key ∧
      h2.mStack.dropLast.length = d := by
  obtain ⟨top, htop, hkey, _⟩ := hle.2 d (Nat.lt_succ_self d) e he
  have hlast : h2.mStack.getLast? = some top := by
    rw [List.getLast?_eq_getElem?, hlen]
    simpa using htop
  refine ⟨top, (List.dropLast_append_getLast? top hlast).symm, hkey, ?_⟩
  simp [hlen]

theorem hasAnchor_of_le {a b : Heap} (hab : Heap.Le a.mStack.length a b)
    (ha : ∃ (i : Nat) (l : LambdaHelper),
      a.mStack[i]? = some l ∧ GetBuffer.returnsBuffer l.callerType = true) :
    ∃ (i : Nat) (l : LambdaHelper),
      b.mStack[i]? = some l ∧ GetBuffer.returnsBuffer l.callerType = true := by
  obtain ⟨i, l, hl, hq⟩ := ha
  have hi := (List.getElem?_eq_some_iff.1 hl).1
  obtain ⟨l', hl', hk, _⟩ := hab.2 i hi l hl
  refine ⟨i, l', hl', ?_⟩
  simp only [LambdaHelper.key, Prod.mk.injEq] at hk
  simpa [LambdaHelper.callerType, hk.2.1] using hq

/-- The working lemma on traversals: a traversal whose buffer references are live runs to
its end on a well-formed heap, leaves the stack as deep as it found it with the same entries,
records exactly the bracketed events of its handlers, and, as long as some entry on the stack
is an anchor, changes the generator-owned buffers by its own appends only. -/
theorem Traversal.run_spec (t : Traversal) :
    ∀ h : Heap, h.WF → t.live h.mStack.length = true →
      ∃ h', t.run h = some h' ∧ h'.mStack.length = h.mStack.length ∧
        Heap.Le h.mStack.length h h' ∧
        h'.events = h.events ++ t.brackets ∧
        ((∃ (i : Nat) (l : LambdaHelper),
            h.mStack[i]? = some l ∧ GetBuffer.returnsBuffer l.callerType = true) →
          ∀ id, h'.outputs id = h.outputs id ++ t.appended id) := by
  induction t with
  | done =>
    intro h _ _
    exact ⟨h, rfl, rfl, Heap.Le.refl _ _, by simp [Traversal.brackets],
      fun _ id => by simp [Traversal.appended]⟩
  | append buf text next ih =>
    intro h hwf hlive
    simp only [Traversal.live, Bool.and_eq_true] at hlive
    obtain ⟨t0, ht0⟩ := h.read_of_live hlive.1
    have hle : Heap.Le h.mStack.length h (h.write buf (OutputFormatHelper.Append t0 text)) :=
      Heap.write_le _ h buf ht0 (by simp [OutputFormatHelper.Append])
    have hlen := Heap.write_length h buf (OutputFormatHelper.Append t0 text)
    have hwf' := hwf.of_le hle hlen
    obtain ⟨h', hrun, hl', hle', hev, hout⟩ := ih _ hwf' (by rw [hlen]; exact hlive.2)
    refine ⟨h', by simp [Traversal.run, ht0, hrun], by rw [hl', hlen], ?_, ?_, ?_⟩
    · rw [hlen] at hle'
      exact hle.trans hle'
    · rw [hev, Heap.write_events]
      simp [Traversal.brackets]
    · intro hanchor id
      rw [hout (hasAnchor_of_le hle hanchor) id]
      cases buf with
      | output id' =>
        simp only [Heap.read, Option.some.injEq] at ht0
        subst ht0
        by_cases e : id' = id
        · subst e
          simp [Heap.write, Traversal.appended, OutputFormatHelper.Append]
        · have e' : id ≠ id' := fun x => e x.symm
          simp [Heap.write, Traversal.appended, Function.update, e, e']
      | lambda idx => simp [Heap.write, Traversal.appended]
  | scope self ct ofm body next ihb ihn =>
    intro h hwf hlive
    simp only [Traversal.live, Bool.and_eq_true] at hlive
    obtain ⟨⟨hofm, hlb⟩, hln⟩ := hlive
    obtain ⟨t0, h1, ht0, hc, hst1, hout1, hev1, hwf1, hle1⟩ :=
      construct_spec h hwf self ofm ct hofm
    have hlen1 : h1.mStack.length = h.mStack.length + 1 := by simp [hst1]
    obtain ⟨h2, hrun2, hlen2, hle2, hev2, hout2⟩ := ihb h1 hwf1 (by rw [hlen1]; exact hlb)
    have hwf2 := hwf1.of_le hle2 hlen2
    rw [hlen1] at hle2 hlen2
    obtain ⟨top, hst2, hkey, hdl⟩ :=
      key_of_le_top hle2 hlen2 (by rw [hst1]; exact List.getElem?_concat_length _ _)
    obtain ⟨t2, h3, ht2, hpos, hd, hlen3, hle3, hev3, hread3, hother3⟩ :=
      destruct_spec h2 hwf2 _ top hst2
    rw [hdl] at hlen3 hle3 hother3
    have hle03 : Heap.Le h.mStack.length h h3 :=
      (hle1.trans (hle2.mono (Nat.le_succ _))).trans hle3
    have hwf3 := hwf.of_le hle03 hlen3
    obtain ⟨h4, hrun4, hlen4, hle4, hev4, hout4⟩ := ihn h3 hwf3 (by rw [hlen3]; exact hln)
    simp only [LambdaHelper.key, Prod.mk.injEq] at hkey
    refine ⟨h4, by simp [Traversal.run, hc, hrun2, hd, hrun4], by rw [hlen4, hlen3], ?_, ?_, ?_⟩
    · rw [hlen3] at hle4
      exact hle03.trans hle4
    · rw [hev4, hev3, hev2, hev1, hkey.1]
      simp [Traversal.brackets]
    · intro hanchor id
      have hanchor1 := hasAnchor_of_le hle1 hanchor
      rw [hout4 (hasAnchor_of_le hle03 hanchor) id]
      have h32 : h3.outputs id = h2.outputs id := by
        have hne : BufRef.output id ≠ top.mOutputFormatHelper := by
          rw [hkey.2.2.2]
          obtain ⟨idx, hidx⟩ := GetBuffer_of_anchor h.mStack ofm hanchor
          rw [hidx]
          simp
        have := hother3 (BufRef.output id) hne rfl
        simpa [Heap.read] using this
      rw [h32, hout2 hanchor1 id, hout1]
      simp [Traversal.appended]

theorem Heap.WF.of_wellFormed {h : Heap} (hw : h.wellFormed = true) : h.WF := by
  intro i l hl
  have hi := (List.getElem?_eq_some_iff.1 hl).1
  have := List.all_eq_true.1 hw i (List.mem_range.2 hi)
  simp only [hl, Bool.and_eq_true] at this
  refine ⟨this.1, ?_⟩
  cases hr : h.read l.mOutputFormatHelper with
  | none => simp [hr] at this
  | some t => exact ⟨t, rfl, by simpa [hr] using this.2⟩

theorem keys_eq_of_le {a b : Heap} (hab : Heap.Le a.mStack.length a b)
    (hlen : b.mStack.length = a.mStack.length) :
    b.mStack.map LambdaHelper.key = a.mStack.map LambdaHelper.key := by
  apply List.ext_getElem?
  intro i
  simp only [List.getElem?_map]
  by_cases hi : i < a.mStack.length
  · obtain ⟨l', hl', hk, _⟩ := hab.2 i hi _ (List.getElem?_eq_getElem hi)
    simp [hl', List.getElem?_eq_getElem hi, hk]
  · have h1 : a.mStack[i]? = none := List.getElem?_eq_none (by omega)
    have h2 : b.mStack[i]? = none := List.getElem?_eq_none (by omega)
    simp [h1, h2]

theorem replay_brackets (t : Traversal) :
    ∀ (rest : List StackEvent) (opened : List Nat),
      StackEvent.replay (t.brackets ++ rest) opened = StackEvent.replay rest opened := by
  induction t with
  | done => intro rest opened; simp [Traversal.brackets]
  | append buf text next ih => intro rest opened; simpa [Traversal.brackets] using ih rest opened
  | scope self ct ofm body next ihb ihn =>
    intro rest opened
    have e : (Traversal.scope self ct ofm body next).brackets ++ rest
        = StackEvent.push self ::
            (body.brackets ++ (StackEvent.pop self :: (next.brackets ++ rest))) := by
      simp [Traversal.brackets]
    rw [e, StackEvent.replay, ihb, StackEvent.replay, if_pos rfl]
    exact ihn rest opened

theorem returnsBuffer_iff (ct : LambdaCallerType) :
    GetBuffer.returnsBuffer ct = true ↔
      ct ∈ [LambdaCallerType.VarDecl, LambdaCallerType.CallExpr, LambdaCallerType.MemberCallExpr,
        LambdaCallerType.ReturnStmt, LambdaCallerType.OperatorCallExpr,
        LambdaCallerType.BinaryOperator, LambdaCallerType.CXXMethodDecl] := by
  cases ct <;> simp [GetBuffer.returnsBuffer]

/-- C1 (hoisting correctness). A handler with an anchor classification is constructed while
the lambda stack is empty, on the generator buffer `id` holding `outputs id` (of length `p`).
Whatever well-scoped traversal `body` runs before the handler is destroyed, the run succeeds,
the entry on the stack is still the handler's own, the generator buffer has only received the
text `body.appended id` appended by the traversal, and, when the closure-class text `B`
collected in the entry's private buffer (written directly or bubbled up from nested entries)
is not empty, destroying the handler leaves the generator buffer equal to
`outputs id ++ B ++ body.appended id`: the closure-class text stands once, in front of
everything the anchor statement wrote. -/
theorem hoisting_correctness (outputs : Nat → OutputFormatHelper) (events : List StackEvent)
    (self id : Nat) (ct : LambdaCallerType) (body : Traversal)
    (hct : ct ∈ [LambdaCallerType.VarDecl, LambdaCallerType.CallExpr,
      LambdaCallerType.MemberCallExpr, LambdaCallerType.ReturnStmt,
      LambdaCallerType.OperatorCallExpr, LambdaCallerType.BinaryOperator,
      LambdaCallerType.CXXMethodDecl])
    (hlive : body.live 1 = true) :
    ∃ h1 h2 entry,
      construct { outputs := outputs, mStack := [], events := events } self (BufRef.output id) ct
        = some h1 ∧
      h1.mStack = [{ self := self, mLambdaCallerType := ct,
                     mCurrentVarDeclPos := (outputs id).length,
                     mOutputFormatHelper := BufRef.output id }] ∧
      body.run h1 = some h2 ∧
      h2.mStack = [entry] ∧
      entry.key = (self, ct, (outputs id).length, BufRef.output id) ∧
      h2.outputs id = outputs id ++ body.appended id ∧
      (entry.buffer ≠ [] →
        ∃ h3, destruct h2 = some h3 ∧ h3.mStack = [] ∧
          h3.outputs id
            = (h3.outputs id).take (outputs id).length ++ entry.buffer ++ body.appended id ∧
          h3.outputs id = outputs id ++ entry.buffer ++ body.appended id ∧
          (Traversal.scope self ct (BufRef.output id) body Traversal.done).run
              { outputs := outputs, mStack := [], events := events } = some h3) := by
  have hwf0 : Heap.WF { outputs := outputs, mStack := [], events := events } := by
    intro i l hl
    simp at hl
  obtain ⟨t0, h1, ht0, hc, hst1, hout1, _, hwf1, _⟩ :=
    construct_spec _ hwf0 self (BufRef.output id) ct rfl
  have hgb : GetBuffer ([] : StackList LambdaHelper) (BufRef.output id) = BufRef.output id := rfl
  simp only [hgb, Heap.read, Option.some.injEq, List.nil_append] at ht0 hst1
  subst ht0
  have hlen1 : h1.mStack.length = 1 := by simp [hst1]
  obtain ⟨h2, hrun, hlen2, hle2, _, hout2⟩ := body.run_spec h1 hwf1 (by rw [hlen1]; exact hlive)
  have hwf2 := hwf1.of_le hle2 hlen2
  rw [hlen1] at hle2 hlen2
  have he1 : h1.mStack[0]?
      = some { self := self, mLambdaCallerType := ct, mCurrentVarDeclPos := (outputs id).length,
               mOutputFormatHelper := BufRef.output id } := by
    simp [hst1]
  obtain ⟨top, hst2, hkey, hdl⟩ := key_of_le_top hle2 hlen2 he1
  have hnil : h2.mStack.dropLast = [] := List.length_eq_zero.1 hdl
  rw [hnil, List.nil_append] at hst2
  have hanchor : ∃ (i : Nat) (l : LambdaHelper),
      h1.mStack[i]? = some l ∧ GetBuffer.returnsBuffer l.callerType = true :=
    ⟨0, _, he1, by simpa [LambdaHelper.callerType] using (returnsBuffer_iff ct).2 hct⟩
  have hout : h2.outputs id = outputs id ++ body.appended id := by
    rw [hout2 hanchor id, hout1]
  have hkey' : top.key = (self, ct, (outputs id).length, BufRef.output id) := by
    rw [hkey]; rfl
  refine ⟨h1, h2, top, hc, hst1, hrun, hst2, hkey', hout, ?_⟩
  intro hB
  obtain ⟨t2, h3, ht2, _, hd, hlen3, _, _, hread3, _⟩ := destruct_spec h2 hwf2 [] top hst2
  simp only [LambdaHelper.key, Prod.mk.injEq] at hkey'
  obtain ⟨_, _, kpos, ktarget⟩ := hkey'
  have hB' : top.mLambdaOutputFormatHelper ≠ [] := hB
  simp only [ktarget, Heap.read, Option.some.injEq, kpos, hB', if_false] at ht2 hread3
  subst ht2
  have hfinal : h3.outputs id = outputs id ++ top.buffer ++ body.appended id := by
    rw [hread3, hout]
    simp [LambdaHelper.buffer]
  refine ⟨h3, hd, List.length_eq_zero.1 (by simpa using hlen3), ?_, hfinal, ?_⟩
  · rw [hfinal]
    simp
  · simp [Traversal.run, hc, hrun, hd]

/-- C2 (splice on pop). A handler is constructed on a well-formed heap, `before` being the
text of its target buffer `GetBuffer(outputFormatHelper)` at that moment, and any well-scoped
traversal `body` runs during its lifetime. Then the destructor pops the handler's own entry,
whose recorded position is `CurrentPos()` of the target at construction, and `finish()` leaves
the target as it is (`after`) when the entry's private buffer is empty, and otherwise makes it
`after.take p ++ buffer ++ after.drop p` with `p = before.length`; no other live buffer
changes. -/
theorem splice_on_pop (h : Heap) (self : Nat) (ofm : BufRef) (ct : LambdaCallerType)
    (body : Traversal) (hwf : h.wellFormed = true)
    (hofm : Traversal.liveRef h.mStack.length ofm = true)
    (hlive : body.live (h.mStack.length + 1) = true) :
    ∃ before h1 h2 top rest after h3,
      h.read (GetBuffer h.mStack ofm) = some before ∧
      construct h self ofm ct = some h1 ∧
      body.run h1 = some h2 ∧
      StackList.pop h2.mStack = some (top, rest) ∧
      top.key = (self, ct, OutputFormatHelper.CurrentPos before, GetBuffer h.mStack ofm) ∧
      h2.read (GetBuffer h.mStack ofm) = some after ∧
      destruct h2 = some h3 ∧
      h3.mStack.length = h.mStack.length ∧
      (top.buffer = [] → h3.read (GetBuffer h.mStack ofm) = some after) ∧
      (top.buffer ≠ [] →
        h3.read (GetBuffer h.mStack ofm)
          = some (after.take before.length ++ top.buffer ++ after.drop before.length)) ∧
      ∀ r, r ≠ GetBuffer h.mStack ofm → Traversal.liveRef h.mStack.length r = true →
        h3.read r = h2.read r := by
  have hwf0 := Heap.WF.of_wellFormed hwf
  obtain ⟨t0, h1, ht0, hc, hst1, _, _, hwf1, _⟩ := construct_spec h hwf0 self ofm ct hofm
  have hlen1 : h1.mStack.length = h.mStack.length + 1 := by simp [hst1]
  obtain ⟨h2, hrun, hlen2, hle2, _, _⟩ := body.run_spec h1 hwf1 (by rw [hlen1]; exact hlive)
  have hwf2 := hwf1.of_le hle2 hlen2
  rw [hlen1] at hle2 hlen2
  obtain ⟨top, hst2, hkey, hdl⟩ :=
    key_of_le_top hle2 hlen2 (by rw [hst1]; exact List.getElem?_concat_length _ _)
  obtain ⟨t2, h3, ht2, _, hd, hlen3, _, _, hread3, hother3⟩ := destruct_spec h2 hwf2 _ top hst2
  have hkey' : top.key = (self, ct, t0.length, GetBuffer h.mStack ofm) := by rw [hkey]; rfl
  have hk := hkey'
  simp only [LambdaHelper.key, Prod.mk.injEq] at hk
  obtain ⟨_, _, kpos, ktarget⟩ := hk
  rw [ktarget] at ht2 hread3 hother3
  rw [hdl] at hlen3 hother3
  refine ⟨t0, h1, h2, top, h2.mStack.dropLast, t2, h3, ht0, hc, hrun, ?_, hkey', ht2, hd, hlen3,
    ?_, ?_, hother3⟩
  · rw [hst2, pop_concat]
    simp
  · intro he
    have he' : top.mLambdaOutputFormatHelper = [] := he
    simpa [he'] using hread3
  · intro he
    have he' : top.mLambdaOutputFormatHelper ≠ [] := he
    simpa [he', kpos, LambdaHelper.buffer] using hread3

/-- C3 (nearest anchor). The loop of `GetBuffer` stops at the first entry in the order of
the iteration whose classification qualifies. With the iteration from the top of the stack to
its bottom, `GetBuffer` therefore selects the private buffer of the nearest qualifying entry,
the one pushed most recently: the qualifying entry above which no entry qualifies, however
many qualifying entries are below it. -/
theorem GetBuffer_selects_nearest (mStack : StackList LambdaHelper) (ofm : BufRef) (i : Nat)
    (l : LambdaHelper) (hl : mStack[i]? = some l)
    (hq : l.callerType ∈ [LambdaCallerType.VarDecl, LambdaCallerType.CallExpr,
      LambdaCallerType.MemberCallExpr, LambdaCallerType.ReturnStmt,
      LambdaCallerType.OperatorCallExpr, LambdaCallerType.BinaryOperator,
      LambdaCallerType.CXXMethodDecl])
    (hnearest : ∀ j, i < j → ∀ l', mStack[j]? = some l' →
      l'.callerType ∉ [LambdaCallerType.VarDecl, LambdaCallerType.CallExpr,
        LambdaCallerType.MemberCallExpr, LambdaCallerType.ReturnStmt,
        LambdaCallerType.OperatorCallExpr, LambdaCallerType.BinaryOperator,
        LambdaCallerType.CXXMethodDecl]) :
    GetBuffer mStack ofm = BufRef.lambda i ∧
    (StackList.iterate mStack)[mStack.length - 1 - i]? = some (i, l) ∧
    ∀ (visited : List (Nat × LambdaHelper)) (k idx : Nat) (entry : LambdaHelper),
      visited[k]? = some (idx, entry) →
      GetBuffer.returnsBuffer entry.callerType = true →
      (∀ j, j < k → ∀ e, visited[j]? = some e →
        GetBuffer.returnsBuffer e.2.callerType = false) →
      GetBuffer.loop visited = some idx := by
  have hi := (List.getElem?_eq_some_iff.1 hl).1
  refine ⟨?_, ?_, ?_⟩
  · rcases GetBuffer_cases mStack ofm with ⟨_, h2⟩ | ⟨i', l', h1, h2, h3, h4⟩
    · have := h2 l (List.getElem?_mem hl)
      rw [(returnsBuffer_iff _).2 hq] at this
      cases this
    · rw [h1]
      rcases Nat.lt_trichotomy i i' with hlt | heq | hgt
      · have := hnearest i' hlt l' h2
        rw [← returnsBuffer_iff] at this
        exact absurd h3 this
      · rw [heq]
      · have := h4 i hgt l hl
        rw [(returnsBuffer_iff _).2 hq] at this
        cases this
  · unfold StackList.iterate
    rw [List.getElem?_reverse (by simp; omega)]
    have e : mStack.enum.length - 1 - (mStack.length - 1 - i) = i := by
      simp only [List.enum_length]
      omega
    rw [e, List.getElem?_enum, hl]
    rfl
  · intro visited
    induction visited with
    | nil => intro k idx entry h; simp at h
    | cons head rest ih =>
      intro k idx entry hk hqe hfirst
      obtain ⟨hidx, hentry⟩ := head
      cases k with
      | zero =>
        simp only [List.getElem?_cons_zero, Option.some.injEq, Prod.mk.injEq] at hk
        obtain ⟨e1, e2⟩ := hk
        subst e1 e2
        simp [GetBuffer.loop, hqe]
      | succ k =>
        have h0 := hfirst 0 (Nat.succ_pos k) (hidx, hentry) (by simp)
        simp only at h0
        rw [GetBuffer.loop, if_neg (by simp [h0])]
        exact ih k idx entry (by simpa using hk) hqe
          fun j hj e he => hfirst (j + 1) (by omega) e (by simpa using he)

/-- C4 (anchor fallback). When no entry on the lambda stack has a qualifying classification,
`GetBuffer` returns the buffer passed in by the caller, and the entry the constructor pushes
refers to that buffer and records its current length as splice position. -/
theorem anchor_fallback (h : Heap) (self : Nat) (ofm : BufRef) (ct : LambdaCallerType)
    (text : OutputFormatHelper)
    (hno : ∀ l, l ∈ h.mStack →
      l.callerType ∉ [LambdaCallerType.VarDecl, LambdaCallerType.CallExpr,
        LambdaCallerType.MemberCallExpr, LambdaCallerType.ReturnStmt,
        LambdaCallerType.OperatorCallExpr, LambdaCallerType.BinaryOperator,
        LambdaCallerType.CXXMethodDecl])
    (hread : h.read ofm = some text) :
    GetBuffer h.mStack ofm = ofm ∧
    ∃ h1, construct h self ofm ct = some h1 ∧
      StackList.back h1.mStack
        = some { self := self, mLambdaCallerType := ct, mCurrentVarDeclPos := text.length,
                 mOutputFormatHelper := ofm } := by
  have hgb : GetBuffer h.mStack ofm = ofm := by
    rcases GetBuffer_cases h.mStack ofm with ⟨h1, _⟩ | ⟨i, l, _, h2, h3, _⟩
    · exact h1
    · have := hno l (List.getElem?_mem h2)
      rw [← returnsBuffer_iff] at this
      exact absurd h3 this
  refine ⟨hgb, ?_⟩
  simp [construct, newHelper, hgb, hread, StackList.push, StackList.back,
    OutputFormatHelper.CurrentPos]

/-- C5 (anchor classification table). With a single entry on the stack and a generator buffer
passed in, `GetBuffer` selects the entry's private buffer exactly when the entry is classified
VarDecl, CallExpr, MemberCallExpr, ReturnStmt, OperatorCallExpr, BinaryOperator or
CXXMethodDecl; and whatever is on the stack, the entry whose buffer the search selects is never
classified InitCapture, LambdaExpr, TemplateHead or Decltype. -/
theorem anchor_classification_table :
    (∀ (l : LambdaHelper) (id : Nat),
      GetBuffer [l] (BufRef.output id) = BufRef.lambda 0 ↔
        l.callerType ∈ [LambdaCallerType.VarDecl, LambdaCallerType.CallExpr,
          LambdaCallerType.MemberCallExpr, LambdaCallerType.ReturnStmt,
          LambdaCallerType.OperatorCallExpr, LambdaCallerType.BinaryOperator,
          LambdaCallerType.CXXMethodDecl]) ∧
    (∀ (mStack : StackList LambdaHelper) (id idx : Nat) (l : LambdaHelper),
      GetBuffer mStack (BufRef.output id) = BufRef.lambda idx → mStack[idx]? = some l →
        l.callerType ∉ [LambdaCallerType.InitCapture, LambdaCallerType.LambdaExpr,
          LambdaCallerType.TemplateHead, LambdaCallerType.Decltype]) := by
  constructor
  · intro l id
    rw [← returnsBuffer_iff]
    have e := GetBuffer_concat [] l (BufRef.output id)
    rw [List.nil_append] at e
    rw [e]
    by_cases hq : GetBuffer.returnsBuffer l.callerType = true
    · simp [hq]
    · simp [hq, GetBuffer_nil]
  · intro mStack id idx l hgb hl
    rcases GetBuffer_cases mStack (BufRef.output id) with ⟨h1, _⟩ | ⟨i, l', h1, h2, hq, _⟩
    · rw [h1] at hgb
      cases hgb
    · rw [h1] at hgb
      injection hgb with hik
      subst hik
      rw [hl] at h2
      cases h2
      revert hq
      cases l.callerType <;> simp [GetBuffer.returnsBuffer]

/-- C6 (LIFO discipline). A handler is constructed on a well-formed heap and any well-scoped
traversal `body`, with handlers of its own, runs during its lifetime. Then the entry the
destructor pops is the entry the constructor pushed (same object, same fixed members), the
stack after the destructor holds the same entries as before the constructor, the events
recorded are the bracketed pushes and pops of the handlers, each handler popping its own
entry, and these events obey the LIFO discipline: every pop removes the entry pushed last
among those still open. -/
theorem lifo_discipline (h : Heap) (self : Nat) (ofm : BufRef) (ct : LambdaCallerType)
    (body : Traversal) (hwf : h.wellFormed = true)
    (hofm : Traversal.liveRef h.mStack.length ofm = true)
    (hlive : body.live (h.mStack.length + 1) = true) :
    ∃ h1 pushed h2 top rest h3,
      construct h self ofm ct = some h1 ∧
      StackList.pop h1.mStack = some (pushed, h.mStack) ∧
      pushed.self = self ∧
      body.run h1 = some h2 ∧
      StackList.pop h2.mStack = some (top, rest) ∧
      top.key = pushed.key ∧
      rest.map LambdaHelper.key = h.mStack.map LambdaHelper.key ∧
      destruct h2 = some h3 ∧
      h3.mStack.map LambdaHelper.key = h.mStack.map LambdaHelper.key ∧
      h3.events
        = h.events ++ ([StackEvent.push self] ++ body.brackets ++ [StackEvent.pop self]) ∧
      ∀ opened, StackEvent.replay
        ([StackEvent.push self] ++ body.brackets ++ [StackEvent.pop self]) opened
          = some opened := by
  have hwf0 := Heap.WF.of_wellFormed hwf
  obtain ⟨t0, h1, _, hc, hst1, _, hev1, hwf1, hle1⟩ := construct_spec h hwf0 self ofm ct hofm
  have hlen1 : h1.mStack.length = h.mStack.length + 1 := by simp [hst1]
  obtain ⟨h2, hrun, hlen2, hle2, hev2, _⟩ := body.run_spec h1 hwf1 (by rw [hlen1]; exact hlive)
  have hwf2 := hwf1.of_le hle2 hlen2
  rw [hlen1] at hle2 hlen2
  obtain ⟨top, hst2, hkey, hdl⟩ :=
    key_of_le_top hle2 hlen2 (by rw [hst1]; exact List.getElem?_concat_length _ _)
  obtain ⟨t2, h3, _, _, hd, hlen3, hle3, hev3, _, _⟩ := destruct_spec h2 hwf2 _ top hst2
  rw [hdl] at hlen3 hle3
  have hle03 : Heap.Le h.mStack.length h h3 :=
    (hle1.trans (hle2.mono (Nat.le_succ _))).trans hle3
  have hself : top.self = self := by
    have := congrArg Prod.fst hkey
    simpa [LambdaHelper.key] using this
  refine ⟨h1, _, h2, top, h2.mStack.dropLast, h3, hc, by rw [hst1, pop_concat], rfl, hrun, ?_,
    hkey, ?_, hd, keys_eq_of_le hle03 hlen3, ?_, ?_⟩
  · rw [hst2, pop_concat]
    simp
  · have hk2 : h2.mStack.map LambdaHelper.key = h1.mStack.map LambdaHelper.key :=
      keys_eq_of_le (by rw [hlen1]; exact hle2) (by rw [hlen1]; exact hlen2)
    rw [List.map_dropLast, hk2, hst1]
    simp
  · rw [hev3, hev2, hev1, hself]
    simp
  · intro opened
    have e : [StackEvent.push self] ++ body.brackets ++ [StackEvent.pop self]
        = StackEvent.push self :: (body.brackets ++ [StackEvent.pop self]) := by simp
    rw [e, StackEvent.replay, replay_brackets body [StackEvent.pop self] (self :: opened)]
    simp [StackEvent.replay]

theorem hoisting_correctness_witness :
    LambdaCallerType.VarDecl ∈ [LambdaCallerType.VarDecl, LambdaCallerType.CallExpr,
      LambdaCallerType.MemberCallExpr, LambdaCallerType.ReturnStmt,
      LambdaCallerType.OperatorCallExpr, LambdaCallerType.BinaryOperator,
      LambdaCallerType.CXXMethodDecl] ∧
    Sample.callWithLambda.live 1 = true ∧
    (∃ h1 h2 entry,
      construct { outputs := fun _ => ['x', ';'], mStack := [], events := [] } 10
        (BufRef.output 0) LambdaCallerType.VarDecl = some h1 ∧
      h1.mStack = [{ self := 10, mLambdaCallerType := LambdaCallerType.VarDecl,
                     mCurrentVarDeclPos := ['x', ';'].length,
                     mOutputFormatHelper := BufRef.output 0 }] ∧
      Sample.callWithLambda.run h1 = some h2 ∧
      h2.mStack = [entry] ∧
      entry.key = (10, LambdaCallerType.VarDecl, ['x', ';'].length, BufRef.output 0) ∧
      h2.outputs 0 = ['x', ';'] ++ Sample.callWithLambda.appended 0 ∧
      (entry.buffer ≠ [] →
        ∃ h3, destruct h2 = some h3 ∧ h3.mStack = [] ∧
          h3.outputs 0
            = (h3.outputs 0).take ['x', ';'].length ++ entry.buffer
                ++ Sample.callWithLambda.appended 0 ∧
          h3.outputs 0 = ['x', ';'] ++ entry.buffer ++ Sample.callWithLambda.appended 0 ∧
          (Traversal.scope 10 LambdaCallerType.VarDecl (BufRef.output 0) Sample.callWithLambda
              Traversal.done).run
              { outputs := fun _ => ['x', ';'], mStack := [], events := [] } = some h3)) ∧
    ((Traversal.scope 10 LambdaCallerType.VarDecl (BufRef.output 0) Sample.callWithLambda
        Traversal.done).run Sample.emptyStack).map (fun h => h.outputs 0)
      = some ['x', ';', 'C', 'a', '=', 'f', '(', 'n', ')', ';'] :=
  ⟨by decide, by decide,
    hoisting_correctness (fun _ => ['x', ';']) [] 10 0 LambdaCallerType.VarDecl
      Sample.callWithLambda (by decide) (by decide), by rfl⟩

theorem splice_on_pop_witness :
    Sample.inVarDecl.wellFormed = true ∧
    Traversal.liveRef Sample.inVarDecl.mStack.length (BufRef.output 0) = true ∧
    Sample.lambdaArgument.live (Sample.inVarDecl.mStack.length + 1) = true ∧
    ∃ before h1 h2 top rest after h3,
      Sample.inVarDecl.read (GetBuffer Sample.inVarDecl.mStack (BufRef.output 0)) = some before ∧
      construct Sample.inVarDecl 11 (BufRef.output 0) LambdaCallerType.CallExpr = some h1 ∧
      Sample.lambdaArgument.run h1 = some h2 ∧
      StackList.pop h2.mStack = some (top, rest) ∧
      top.key = (11, LambdaCallerType.CallExpr, OutputFormatHelper.CurrentPos before,
        GetBuffer Sample.inVarDecl.mStack (BufRef.output 0)) ∧
      h2.read (GetBuffer Sample.inVarDecl.mStack (BufRef.output 0)) = some after ∧
      destruct h2 = some h3 ∧
      h3.mStack.length = Sample.inVarDecl.mStack.length ∧
      (top.buffer = [] →
        h3.read (GetBuffer Sample.inVarDecl.mStack (BufRef.output 0)) = some after) ∧
      (top.buffer ≠ [] →
        h3.read (GetBuffer Sample.inVarDecl.mStack (BufRef.output 0))
          = some (after.take before.length ++ top.buffer ++ after.drop before.length)) ∧
      ∀ r, r ≠ GetBuffer Sample.inVarDecl.mStack (BufRef.output 0) →
        Traversal.liveRef Sample.inVarDecl.mStack.length r = true →
        h3.read r = h2.read r :=
  ⟨by decide, by decide, by decide,
    splice_on_pop Sample.inVarDecl 11 (BufRef.output 0) LambdaCallerType.CallExpr
      Sample.lambdaArgument (by decide) (by decide) (by decide)⟩

/-- C3 on a stack of three entries, a lambda expression pushed first, then a variable
declaration, then a call expression: the iteration meets the entry of the call first, and
`GetBuffer` selects its buffer, not the buffer of the variable declaration below it. -/
theorem GetBuffer_selects_nearest_witness :
    ([Sample.lambdaExprEntry, Sample.varDeclEntry, Sample.callExprEntry] :
        StackList LambdaHelper)[2]? = some Sample.callExprEntry ∧
    GetBuffer.returnsBuffer Sample.varDeclEntry.callerType = true ∧
    GetBuffer [Sample.lambdaExprEntry, Sample.varDeclEntry, Sample.callExprEntry]
        (BufRef.output 0) = BufRef.lambda 2 ∧
    StackList.iterate [Sample.lambdaExprEntry, Sample.varDeclEntry, Sample.callExprEntry]
      = [(2, Sample.callExprEntry), (1, Sample.varDeclEntry), (0, Sample.lambdaExprEntry)] :=
  ⟨rfl, rfl,
    (GetBuffer_selects_nearest [Sample.lambdaExprEntry, Sample.varDeclEntry, Sample.callExprEntry]
      (BufRef.output 0) 2 Sample.callExprEntry (by decide) (by decide)
      (fun j hj l' hl' => by
        have := (List.getElem?_eq_some_iff.1 hl').1
        simp at this
        omega)).1,
    rfl⟩

theorem anchor_fallback_witness :
    (∀ l, l ∈ Sample.inLambdaExpr.mStack →
      l.callerType ∉ [LambdaCallerType.VarDecl, LambdaCallerType.CallExpr,
        LambdaCallerType.MemberCallExpr, LambdaCallerType.ReturnStmt,
        LambdaCallerType.OperatorCallExpr, LambdaCallerType.BinaryOperator,
        LambdaCallerType.CXXMethodDecl]) ∧
    Sample.inLambdaExpr.read (BufRef.lambda 0) = some [] ∧
    GetBuffer Sample.inLambdaExpr.mStack (BufRef.lambda 0) = BufRef.lambda 0 ∧
    ∃ h1, construct Sample.inLambdaExpr 13 (BufRef.lambda 0) LambdaCallerType.VarDecl = some h1 ∧
      StackList.back h1.mStack
        = some { self := 13, mLambdaCallerType := LambdaCallerType.VarDecl,
                 mCurrentVarDeclPos := ([] : OutputFormatHelper).length,
                 mOutputFormatHelper := BufRef.lambda 0 } :=
  ⟨by decide, by decide,
    anchor_fallback Sample.inLambdaExpr 13 (BufRef.lambda 0) LambdaCallerType.VarDecl []
      (by decide) (by decide)⟩

theorem anchor_classification_table_witness :
    GetBuffer [Sample.lambdaExprEntry, Sample.callExprEntry] (BufRef.output 0)
      = BufRef.lambda 1 ∧
    Sample.callExprEntry.callerType ∉ [LambdaCallerType.InitCapture,
      LambdaCallerType.LambdaExpr, LambdaCallerType.TemplateHead, LambdaCallerType.Decltype] :=
  ⟨by decide,
    anchor_classification_table.2 [Sample.lambdaExprEntry, Sample.callExprEntry] 0 1
      Sample.callExprEntry (by decide) rfl⟩

theorem lifo_discipline_witness :
    Sample.emptyStack.wellFormed = true ∧
    Traversal.liveRef Sample.emptyStack.mStack.length (BufRef.output 0) = true ∧
    Sample.callWithLambda.live (Sample.emptyStack.mStack.length + 1) = true ∧
    ∃ h1 pushed h2 top rest h3,
      construct Sample.emptyStack 10 (BufRef.output 0) LambdaCallerType.VarDecl = some h1 ∧
      StackList.pop h1.mStack = some (pushed, Sample.emptyStack.mStack) ∧
      pushed.self = 10 ∧
      Sample.callWithLambda.run h1 = some h2 ∧
      StackList.pop h2.mStack = some (top, rest) ∧
      top.key = pushed.key ∧
      rest.map LambdaHelper.key = Sample.emptyStack.mStack.map LambdaHelper.key ∧
      destruct h2 = some h3 ∧
      h3.mStack.map LambdaHelper.key = Sample.emptyStack.mStack.map LambdaHelper.key ∧
      h3.events
        = Sample.emptyStack.events ++
            ([StackEvent.push 10] ++ Sample.callWithLambda.brackets ++ [StackEvent.pop 10]) ∧
      ∀ opened, StackEvent.replay
        ([StackEvent.push 10] ++ Sample.callWithLambda.brackets ++ [StackEvent.pop 10]) opened
          = some opened :=
  ⟨by decide, by decide, by decide,
    lifo_discipline Sample.emptyStack 10 (BufRef.output 0) LambdaCallerType.VarDecl
      Sample.callWithLambda (by decide) (by decide) (by decide)⟩

end Hoisting

/-! # Theorems on lifetime tracking -/

section Lifetime

open CodeGenerator

/-! ## Lemmas on the lifetime tracker -/

theorem LifetimeTracker.filter_opened (t : LifetimeTracker) (hw : t.wellScoped = true)
    (opened : List LifetimeEntry) (hnew : ∀ e, e ∈ opened → e.scope = t.scopeCounter + 1) :
    (t.objects ++ opened).filter (fun e => e.scope != t.scopeCounter + 1) = t.objects ∧
    (t.objects ++ opened).filter (fun e => e.scope == t.scopeCounter + 1) = opened := by
  have hold : ∀ e, e ∈ t.objects → e.scope ≠ t.scopeCounter + 1 := by
    intro e he
    have := List.all_eq_true.1 hw e he
    simp only [decide_eq_true_eq] at this
    omega
  constructor
  · rw [List.filter_append, List.filter_eq_self.2, List.filter_eq_nil_iff.2, List.append_nil]
    · intro e he
      simp [hnew e he]
    · intro e he
      simpa using hold e he
  · rw [List.filter_append, List.filter_eq_nil_iff.2, List.filter_eq_self.2, List.nil_append]
    · intro e he
      simp [hnew e he]
    · intro e he
      simpa using hold e he

theorem LifetimeTracker.EndScope_opened (t : LifetimeTracker) (hw : t.wellScoped = true)
    (opened : List LifetimeEntry) (hnew : ∀ e, e ∈ opened → e.scope = t.scopeCounter + 1)
    (clear : Bool) :
    LifetimeTracker.EndScope
        { scopeCounter := t.scopeCounter + 1, objects := t.objects ++ opened } clear
      = (t, if clear then [] else LifetimeTracker.destructionOrder opened) := by
  obtain ⟨h1, h2⟩ := t.filter_opened hw opened hnew
  simp only [LifetimeTracker.EndScope, h1, h2, Int.add_sub_cancel]

theorem destruction_order_tracker (t : LifetimeTracker) (funcStart : Bool) (a b c : VarDecl)
    (ha : a.needsDestruction = true) (hb : b.needsDestruction = true)
    (hc : c.needsDestruction = true) (hw : t.wellScoped = true) :
    ((((t.StartScope funcStart).Add a).Add b).Add c).EndScope false
      = (t, [c.name, b.name, a.name]) := by
  have key : (((t.StartScope funcStart).Add a).Add b).Add c
      = { scopeCounter := t.scopeCounter + 1
          objects := t.objects ++
            ((if funcStart then
                [({ item := none, funcStart := true, scope := t.scopeCounter + 1 } : LifetimeEntry)]
              else []) ++
             [{ item := some a.name, scope := t.scopeCounter + 1 },
              { item := some b.name, scope := t.scopeCounter + 1 },
              { item := some c.name, scope := t.scopeCounter + 1 }]) } := by
    cases funcStart <;> simp [LifetimeTracker.StartScope, LifetimeTracker.Add, ha, hb, hc]
  rw [key, LifetimeTracker.EndScope_opened t hw]
  · cases funcStart <;> simp [LifetimeTracker.destructionOrder]
  · intro e he
    cases funcStart
    · simp at he
      rcases he with h | h | h <;> simp [h]
    · simp at he
      rcases he with h | h | h | h <;> simp [h]

theorem InsertArg_declaration (o : InsightsOptions) (g : CodeGenerator) (n : Nat) :
    InsertArg o (.DeclStmt [.mk n true (some (.Expr [])) []]) g
      = { g with
          mLifeTimeTracker := g.mLifeTimeTracker.Add (.mk n true (some (.Expr [])) [])
          mLastStmt := some (.Expr [])
          mLastDecl := some DeclClass.VarDecl
          mProcessingVarDecl := false
          mOutputFormatHelper :=
            g.mOutputFormatHelper ++ [Token.Declaration n, Token.hlpAssing, Token.SemiNewLine]
          calls := g.calls ++ [TrackerCall.Add n] } := by
  cases hs : o.ShowLifetime <;>
    simp [InsertArg, InsertDecls, InsertArgDecl, InsertArgVarDecl, InsertArgs, InsertFound,
      TemporaryDeclFinder.construct, TemporaryDeclFinder.Visit, TemporaryDeclFinder.destruct,
      trackerAdd, CodeGenerator.Append, hs, VarDecl.name]

theorem InsertArg_CompoundStmt (o : InsightsOptions) (body : List Stmt) (g : CodeGenerator) :
    InsertArg o (.CompoundStmt body) g
      = InsertArgCompoundStmt (HandleCompoundStmt o body)
          { g with mLastStmt := some (Stmt.CompoundStmt body) } := by
  rw [InsertArg]

theorem HandleCompoundStmt_cons (o : InsightsOptions) (item : Stmt) (rest : List Stmt)
    (g : CodeGenerator) :
    HandleCompoundStmt o (item :: rest) g
      = HandleCompoundStmt o rest
          { (if IsStmtRequiringSemi item && ! (InsertArg o item g).mSkipSemi then
              (InsertArg o item g).Append [Token.SemiNewLine]
             else InsertArg o item g) with mSkipSemi := false } := by
  rw [HandleCompoundStmt]

theorem HandleCompoundStmt_nil (o : InsightsOptions) (g : CodeGenerator) :
    HandleCompoundStmt o [] g = g := by
  rw [HandleCompoundStmt]

/-- C7 (destruction order). On the tracker: opening a scope, registering `a`, `b`, `c` of
non-trivially destructible class type in that order and closing the scope normally emits the
destructor calls of `c`, `b`, `a`, in this order and each once, and leaves the tracker as it
was before the scope. In the renderer: for the compound statement `{ A a; B b; C c; }`, which
contains no return and gets no implicit one, `InsertArg(CompoundStmt)` makes exactly these
calls, passes `false` to `EndScope`, and writes the three destructor calls right before the
closing brace. -/
theorem destruction_order (o : InsightsOptions) (g : CodeGenerator) (t : LifetimeTracker)
    (funcStart : Bool) (a b c : VarDecl) (na nb nc : Nat)
    (ha : a.needsDestruction = true) (hb : b.needsDestruction = true)
    (hc : c.needsDestruction = true) (ht : t.wellScoped = true)
    (hz : g.mRequiresImplicitReturnZero = false)
    (hw : g.mLifeTimeTracker.wellScoped = true) :
    ((((t.StartScope funcStart).Add a).Add b).Add c).EndScope false
      = (t, [c.name, b.name, a.name]) ∧
    (InsertArg o
        (.CompoundStmt [.DeclStmt [.mk na true (some (.Expr [])) []],
          .DeclStmt [.mk nb true (some (.Expr [])) []],
          .DeclStmt [.mk nc true (some (.Expr [])) []]]) g).calls
      = g.calls ++ [TrackerCall.StartScope (g.mLastDecl == some DeclClass.FunctionDecl),
          TrackerCall.Add na, TrackerCall.Add nb, TrackerCall.Add nc,
          TrackerCall.EndScope false [nc, nb, na]] ∧
    (InsertArg o
        (.CompoundStmt [.DeclStmt [.mk na true (some (.Expr [])) []],
          .DeclStmt [.mk nb true (some (.Expr [])) []],
          .DeclStmt [.mk nc true (some (.Expr [])) []]]) g).mOutputFormatHelper
      = g.mOutputFormatHelper ++ [Token.OpenScope,
          Token.Declaration na, Token.hlpAssing, Token.SemiNewLine,
          Token.Declaration nb, Token.hlpAssing, Token.SemiNewLine,
          Token.Declaration nc, Token.hlpAssing, Token.SemiNewLine,
          Token.DtorCall nc, Token.DtorCall nb, Token.DtorCall na, Token.CloseScope] ∧
    (InsertArg o
        (.CompoundStmt [.DeclStmt [.mk na true (some (.Expr [])) []],
          .DeclStmt [.mk nb true (some (.Expr [])) []],
          .DeclStmt [.mk nc true (some (.Expr [])) []]]) g).mLifeTimeTracker
      = g.mLifeTimeTracker := by
  refine ⟨destruction_order_tracker t funcStart a b c ha hb hc ht, ?_⟩
  have hend := destruction_order_tracker g.mLifeTimeTracker
    (g.mLastDecl == some DeclClass.FunctionDecl)
    (.mk na true (some (.Expr [])) []) (.mk nb true (some (.Expr [])) [])
    (.mk nc true (some (.Expr [])) []) rfl rfl rfl hw
  simp only [VarDecl.name] at hend
  simp [InsertArg_CompoundStmt, HandleCompoundStmt_cons, HandleCompoundStmt_nil,
    InsertArg_declaration, InsertArgCompoundStmt, IsStmtRequiringSemi, Stmt.isIfStmt,
    Stmt.isNullStmt, Stmt.isDeclStmt, Stmt.isReturnStmt,
    CodeGenerator.Append, trackerStartScope, trackerEndScope, hz, hend]

theorem InsertArg_return (o : InsightsOptions) (g : CodeGenerator) :
    InsertArg o (.ReturnStmt none none []) g
      = { g with
          mLastStmt := some (.ReturnStmt none none [])
          mSkipSemi := ! g.mLifeTimeTracker.Return.isEmpty
          mOutputFormatHelper :=
            g.mOutputFormatHelper ++ [Token.kwReturn]
              ++ g.mLifeTimeTracker.Return.map Token.DtorCall
          calls := g.calls ++ [TrackerCall.Return g.mLifeTimeTracker.Return] } := by
  cases hs : o.ShowLifetime <;>
    simp [InsertArg, InsertArgReturnStmt, InsertFound, TemporaryDeclFinder.construct,
      TemporaryDeclFinder.Visit, TemporaryDeclFinder.destruct, trackerReturn,
      CodeGenerator.Append, hs]

theorem LifetimeTracker.wellScoped_opened (t : LifetimeTracker) (hw : t.wellScoped = true)
    (opened : List LifetimeEntry) (hnew : ∀ e, e ∈ opened → e.scope = t.scopeCounter + 1) :
    LifetimeTracker.wellScoped
      { scopeCounter := t.scopeCounter + 1, objects := t.objects ++ opened } = true := by
  simp only [LifetimeTracker.wellScoped, List.all_eq_true, decide_eq_true_eq]
  intro e he
  rcases List.mem_append.1 he with h | h
  · have := List.all_eq_true.1 hw e h
    simp only [decide_eq_true_eq] at this
    omega
  · rw [hnew e h]

theorem InsertArg_DeclRefExpr (o : InsightsOptions) (decl : Nat) (g : CodeGenerator) :
    InsertArg o (.DeclRefExpr decl) g
      = { g with mLastStmt := some (.DeclRefExpr decl)
                 mOutputFormatHelper := g.mOutputFormatHelper ++ [Token.Name decl] } := by
  simp [InsertArg, CodeGenerator.Append]

theorem InsertArg_IfStmt_plain (o : InsightsOptions) (cond thenStmt : Stmt)
    (g : CodeGenerator) :
    InsertArg o (.IfStmt none none cond thenStmt none) g
      = ((WrapInCompoundIfNeeded thenStmt (InsertArg o thenStmt)
          (InsertArg o cond
            ({ g with mLastStmt := some (.IfStmt none none cond thenStmt none) }.Append
              [Token.kwIf]))).Append [Token.NewLine]).Append [Token.NewLine] := by
  rw [InsertArg]
  simp [InsertArgIfStmt]

theorem return_in_nested_block (o : InsightsOptions) (g : CodeGenerator) (na c : Nat)
    (hf : g.mLastDecl = some DeclClass.FunctionDecl)
    (hz : g.mRequiresImplicitReturnZero = false)
    (hw : g.mLifeTimeTracker.wellScoped = true) :
    (InsertArg o
        (.CompoundStmt [.DeclStmt [.mk na true (some (.Expr [])) []],
          .IfStmt none none (.DeclRefExpr c) (.CompoundStmt [.ReturnStmt none none []]) none])
        g).calls
      = g.calls ++ [TrackerCall.StartScope true, TrackerCall.Add na,
          TrackerCall.StartScope false, TrackerCall.Return [na], TrackerCall.EndScope true [],
          TrackerCall.EndScope true []] ∧
    (InsertArg o
        (.CompoundStmt [.DeclStmt [.mk na true (some (.Expr [])) []],
          .IfStmt none none (.DeclRefExpr c) (.CompoundStmt [.ReturnStmt none none []]) none])
        g).mOutputFormatHelper
      = g.mOutputFormatHelper ++ [Token.OpenScope, Token.Declaration na, Token.hlpAssing,
          Token.SemiNewLine, Token.kwIf, Token.Name c, Token.OpenScope, Token.kwReturn,
          Token.DtorCall na, Token.CloseScope, Token.Space, Token.NewLine, Token.NewLine,
          Token.CloseScope] ∧
    (InsertArg o
        (.CompoundStmt [.DeclStmt [.mk na true (some (.Expr [])) []],
          .IfStmt none none (.DeclRefExpr c) (.CompoundStmt [.ReturnStmt none none []]) none])
        g).mLastStmt = some (.ReturnStmt none none []) := by
  have hopen : ∀ e : LifetimeEntry,
      e ∈ [LifetimeEntry.mk none true (g.mLifeTimeTracker.scopeCounter + 1),
        LifetimeEntry.mk (some na) false (g.mLifeTimeTracker.scopeCounter + 1)] →
      e.scope = g.mLifeTimeTracker.scopeCounter + 1 := by
    intro e he
    simp at he
    rcases he with h | h <;> simp [h]
  have hobj : (g.mLifeTimeTracker.StartScope true).Add (.mk na true (some (.Expr [])) [])
      = { scopeCounter := g.mLifeTimeTracker.scopeCounter + 1
          objects := g.mLifeTimeTracker.objects ++
            [{ item := none, funcStart := true, scope := g.mLifeTimeTracker.scopeCounter + 1 },
             { item := some na, scope := g.mLifeTimeTracker.scopeCounter + 1 }] } := by
    simp [LifetimeTracker.StartScope, LifetimeTracker.Add, VarDecl.needsDestruction,
      VarDecl.name]
  have hst : ∀ (n : Int) (objs : List LifetimeEntry),
      LifetimeTracker.StartScope { scopeCounter := n, objects := objs } false
        = { scopeCounter := n + 1, objects := objs } := by
    intro n objs
    simp [LifetimeTracker.StartScope]
  have hne : (DeclClass.VarDecl == DeclClass.FunctionDecl) = false := by decide
  have hw1 := LifetimeTracker.wellScoped_opened g.mLifeTimeTracker hw _ hopen
  have hinner := LifetimeTracker.EndScope_opened _ hw1 [] (by simp) true
  have houter := LifetimeTracker.EndScope_opened g.mLifeTimeTracker hw _ hopen true
  simp only [List.append_nil, if_true] at hinner houter
  have hret : LifetimeTracker.Return
      { scopeCounter := g.mLifeTimeTracker.scopeCounter + 1 + 1
        objects := g.mLifeTimeTracker.objects ++
          [{ item := none, funcStart := true, scope := g.mLifeTimeTracker.scopeCounter + 1 },
           { item := some na, scope := g.mLifeTimeTracker.scopeCounter + 1 }] }
      = [na] := by
    simp [LifetimeTracker.Return, List.takeWhile]
  simp [InsertArg_CompoundStmt, HandleCompoundStmt_cons, HandleCompoundStmt_nil,
    InsertArg_declaration, InsertArg_return, InsertArg_DeclRefExpr, InsertArg_IfStmt_plain,
    WrapInCompoundIfNeeded, InsertArgCompoundStmt, IsStmtRequiringSemi,
    Stmt.isIfStmt, Stmt.isNullStmt, Stmt.isDeclStmt, Stmt.isReturnStmt, Stmt.isCompoundStmt,
    CodeGenerator.Append, trackerStartScope, trackerEndScope, hz, hf,
    hobj, hne, hst, hret, hinner, houter]

theorem destruction_order_witness :
    (VarDecl.mk 1 true none []).needsDestruction = true ∧
    (VarDecl.mk 2 true none []).needsDestruction = true ∧
    (VarDecl.mk 3 true none []).needsDestruction = true ∧
    LifetimeTracker.wellScoped { scopeCounter := 1, objects := [{ item := some 0, scope := 1 }] }
      = true ∧
    Sample.atFunctionStart.mRequiresImplicitReturnZero = false ∧
    Sample.atFunctionStart.mLifeTimeTracker.wellScoped = true ∧
    (((((LifetimeTracker.StartScope
            { scopeCounter := 1, objects := [{ item := some 0, scope := 1 }] } false).Add
          (VarDecl.mk 1 true none [])).Add (VarDecl.mk 2 true none [])).Add
          (VarDecl.mk 3 true none [])).EndScope false
      = ({ scopeCounter := 1, objects := [{ item := some 0, scope := 1 }] },
          [(VarDecl.mk 3 true none []).name, (VarDecl.mk 2 true none []).name,
           (VarDecl.mk 1 true none []).name]) ∧
    (InsertArg ⟨true⟩
        (.CompoundStmt [.DeclStmt [.mk 1 true (some (.Expr [])) []],
          .DeclStmt [.mk 2 true (some (.Expr [])) []],
          .DeclStmt [.mk 3 true (some (.Expr [])) []]]) Sample.atFunctionStart).calls
      = Sample.atFunctionStart.calls ++
        [TrackerCall.StartScope (Sample.atFunctionStart.mLastDecl == some DeclClass.FunctionDecl),
          TrackerCall.Add 1, TrackerCall.Add 2, TrackerCall.Add 3,
          TrackerCall.EndScope false [3, 2, 1]] ∧
    (InsertArg ⟨true⟩
        (.CompoundStmt [.DeclStmt [.mk 1 true (some (.Expr [])) []],
          .DeclStmt [.mk 2 true (some (.Expr [])) []],
          .DeclStmt [.mk 3 true (some (.Expr [])) []]]) Sample.atFunctionStart).mOutputFormatHelper
      = Sample.atFunctionStart.mOutputFormatHelper ++ [Token.OpenScope,
          Token.Declaration 1, Token.hlpAssing, Token.SemiNewLine,
          Token.Declaration 2, Token.hlpAssing, Token.SemiNewLine,
          Token.Declaration 3, Token.hlpAssing, Token.SemiNewLine,
          Token.DtorCall 3, Token.DtorCall 2, Token.DtorCall 1, Token.CloseScope] ∧
    (InsertArg ⟨true⟩
        (.CompoundStmt [.DeclStmt [.mk 1 true (some (.Expr [])) []],
          .DeclStmt [.mk 2 true (some (.Expr [])) []],
          .DeclStmt [.mk 3 true (some (.Expr [])) []]]) Sample.atFunctionStart).mLifeTimeTracker
      = Sample.atFunctionStart.mLifeTimeTracker) :=
  ⟨rfl, rfl, rfl, by decide, rfl, by decide,
    destruction_order ⟨true⟩ Sample.atFunctionStart
      { scopeCounter := 1, objects := [{ item := some 0, scope := 1 }] } false
      (.mk 1 true none []) (.mk 2 true none []) (.mk 3 true none []) 1 2 3
      rfl rfl rfl (by decide) rfl (by decide)⟩

/-- C9, the code at the failing input. The function body `{ A a; if(c) { return; } }` ends
in an `if` statement, not in a return statement, yet after its body is rendered `mLastStmt`
still is the return statement of the nested block: `InsertArg(CompoundStmt)` passes `true` to
`EndScope` for the outer block as well (the last call), and closing the outer block emits no
destructor call for `a`. -/
theorem nested_return_sets_clear_flag :
    Sample.returnInNestedBlock
      = .CompoundStmt [Sample.objectDecl 1,
          .IfStmt none none (.DeclRefExpr 9) (.CompoundStmt [.ReturnStmt none none []]) none] ∧
    (Stmt.IfStmt none none (.DeclRefExpr 9)
      (.CompoundStmt [.ReturnStmt none none []]) none).isReturnStmt = false ∧
    (InsertArg ⟨true⟩ Sample.returnInNestedBlock Sample.atFunctionStart).calls
      = [TrackerCall.StartScope true, TrackerCall.Add 1, TrackerCall.StartScope false,
          TrackerCall.Return [1], TrackerCall.EndScope true [], TrackerCall.EndScope true []] ∧
    (InsertArg ⟨true⟩ Sample.returnInNestedBlock Sample.atFunctionStart).mOutputFormatHelper
      = [Token.OpenScope, Token.Declaration 1, Token.hlpAssing, Token.SemiNewLine, Token.kwIf,
          Token.Name 9, Token.OpenScope, Token.kwReturn, Token.DtorCall 1, Token.CloseScope,
          Token.Space, Token.NewLine, Token.NewLine, Token.CloseScope] ∧
    (InsertArg ⟨true⟩ Sample.returnInNestedBlock Sample.atFunctionStart).mLastStmt
      = some (.ReturnStmt none none []) :=
  ⟨rfl, rfl, return_in_nested_block ⟨true⟩ Sample.atFunctionStart 1 9 rfl rfl (by decide)⟩

/-! ## Balance of the lifetime scopes -/

theorem Step.nil (g : CodeGenerator) : Step g g 0 :=
  ⟨[], by simp, by simp [startScopeCalls, endScopeCalls]⟩

theorem Step.of_calls {g g' : CodeGenerator} (h : g'.calls = g.calls) : Step g g' 0 :=
  ⟨[], by simp [h], by simp [startScopeCalls, endScopeCalls]⟩

theorem Step.seq {g g1 g2 : CodeGenerator} {a b : Int} (h1 : Step g g1 a)
    (h2 : Step g1 g2 b) : Step g g2 (a + b) := by
  obtain ⟨d1, e1, n1⟩ := h1
  obtain ⟨d2, e2, n2⟩ := h2
  refine ⟨d1 ++ d2, by rw [e2, e1, List.append_assoc], ?_⟩
  simp only [startScopeCalls, endScopeCalls, List.countP_append, Nat.cast_add] at n1 n2 ⊢
  omega

theorem Step.cast {g g' : CodeGenerator} {a b : Int} (h : Step g g' a) (e : a = b) :
    Step g g' b := e ▸ h

theorem Step.left {g0 g g' : CodeGenerator} {a : Int} (e : g.calls = g0.calls)
    (h : Step g g' a) : Step g0 g' a := by
  obtain ⟨d, hd, n⟩ := h
  exact ⟨d, by rw [hd, e], n⟩

theorem Step.right {g g' g1 : CodeGenerator} {a : Int} (h : Step g g' a)
    (e : g1.calls = g'.calls) : Step g g1 a := by
  obtain ⟨d, hd, n⟩ := h
  exact ⟨d, by rw [e, hd], n⟩

theorem Step.trackerStartScope (g : CodeGenerator) (funcStart : Bool) :
    Step g (g.trackerStartScope funcStart) 1 :=
  ⟨[TrackerCall.StartScope funcStart], rfl, by
    simp [startScopeCalls, endScopeCalls, TrackerCall.isStartScope, TrackerCall.isEndScope]⟩

theorem Step.trackerEndScope (g : CodeGenerator) (clear : Bool) :
    Step g (g.trackerEndScope clear).1 (-1) :=
  ⟨[TrackerCall.EndScope clear (g.mLifeTimeTracker.EndScope clear).2], rfl, by
    simp [startScopeCalls, endScopeCalls, TrackerCall.isStartScope, TrackerCall.isEndScope]⟩

theorem Step.trackerAdd (g : CodeGenerator) (decl : VarDecl) : Step g (g.trackerAdd decl) 0 :=
  ⟨[TrackerCall.Add decl.name], rfl, by
    simp [startScopeCalls, endScopeCalls, TrackerCall.isStartScope, TrackerCall.isEndScope]⟩

theorem Step.trackerReturn (g : CodeGenerator) : Step g g.trackerReturn.1 0 :=
  ⟨[TrackerCall.Return g.mLifeTimeTracker.Return], rfl, by
    simp [startScopeCalls, endScopeCalls, TrackerCall.isStartScope, TrackerCall.isEndScope]⟩

theorem Step.LifetimeAddExtended (g : CodeGenerator) (vd : VarDecl) (extending : Nat) :
    Step g (g.LifetimeAddExtended vd extending) 0 :=
  ⟨[TrackerCall.AddExtended vd.name extending], rfl, by
    simp [startScopeCalls, endScopeCalls, TrackerCall.isStartScope, TrackerCall.isEndScope]⟩

theorem Step.Append (g : CodeGenerator) (tokens : List Token) : Step g (g.Append tokens) 0 :=
  Step.of_calls rfl

theorem Visit_spec (found : List Temporary) :
    ∀ (finder : TemporaryDeclFinder) (g : CodeGenerator),
      (TemporaryDeclFinder.Visit found finder g).1.mHaveTemporary
        = (finder.mHaveTemporary || (! finder.mFound && handlesFullExpression found)) ∧
      Step g (TemporaryDeclFinder.Visit found finder g).2
        (if ! finder.mHaveTemporary && ! finder.mFound && handlesFullExpression found
          then 1 else 0) := by
  induction found with
  | nil =>
    intro finder g
    simp [TemporaryDeclFinder.Visit, handlesFullExpression, Step.nil]
  | cons t rest ih =>
    intro finder g
    cases t with
    | CXXTemporaryObjectExpr vd =>
      obtain ⟨h1, h2⟩ := ih { finder with mFound := true, mTempName := some vd.name } g
      simp only [TemporaryDeclFinder.Visit, handlesFullExpression]
      refine ⟨by simpa using h1, ?_⟩
      simpa using h2
    | MaterializeTemporaryExpr sd ext vd =>
      simp only [TemporaryDeclFinder.Visit, handlesFullExpression]
      by_cases hf : finder.mFound = true
      · obtain ⟨h1, h2⟩ := ih finder g
        simp only [hf, if_true]
        refine ⟨by simpa [hf] using h1, ?_⟩
        simpa [hf] using h2
      · simp only [Bool.not_eq_true] at hf
        by_cases hsd : sd = StorageDuration.SD_FullExpression
        · cases hh : finder.mHaveTemporary
          · obtain ⟨h1, h2⟩ := ih { finder with mHaveTemporary := true } g.StartLifetimeScope
            simp only [hf, hsd, hh, Bool.false_eq_true, if_false, decide_True, Bool.not_false,
              Bool.and_self, if_true]
            refine ⟨by simpa [hf] using h1, ?_⟩
            have h3 := (Step.trackerStartScope g false).seq h2
            simpa [StartLifetimeScope, hf] using h3
          · obtain ⟨h1, h2⟩ := ih finder g
            obtain ⟨h1', h2'⟩ := ih finder (g.LifetimeAddExtended vd (ext.getD 0))
            cases ext with
            | none =>
              simp only [hf, hsd, hh, Bool.false_eq_true, if_false, decide_True, Bool.not_true,
                Bool.and_false]
              refine ⟨by simpa [hh] using h1, ?_⟩
              simpa [hh] using h2
            | some e =>
              simp only [hf, hsd, hh, Bool.false_eq_true, if_false, decide_True, Bool.not_true,
                Bool.and_false]
              refine ⟨by simpa [hh] using h1', ?_⟩
              have h3 := (Step.LifetimeAddExtended g vd e).seq h2'
              simpa [hh] using h3
        · obtain ⟨h1, h2⟩ := ih finder g
          obtain ⟨h1', h2'⟩ := ih finder (g.LifetimeAddExtended vd (ext.getD 0))
          cases ext with
          | none =>
            simp only [hf, hsd, Bool.false_eq_true, if_false, decide_False, Bool.false_and,
              Bool.false_or]
            refine ⟨by simpa [hf] using h1, ?_⟩
            simpa [hf] using h2
          | some e =>
            simp only [hf, hsd, Bool.false_eq_true, if_false, decide_False, Bool.false_and,
              Bool.false_or]
            refine ⟨by simpa [hf] using h1', ?_⟩
            have h3 := (Step.LifetimeAddExtended g vd e).seq h2'
            simpa [hf] using h3

theorem Step.trans0 {g g1 g2 : CodeGenerator} (h1 : Step g g1 0) (h2 : Step g1 g2 0) :
    Step g g2 0 := (h1.seq h2).cast (by simp)

theorem Step.append0 {g g1 : CodeGenerator} {k : Int} (tokens : List Token)
    (h : Step g g1 k) : Step g (g1.Append tokens) k := h.right rfl

theorem Step.appendIf {g g1 : CodeGenerator} {k : Int} (c : Bool) (tokens : List Token)
    (h : Step g g1 k) : Step g (if c then g1.Append tokens else g1) k := by
  cases c
  · exact h
  · exact h.right rfl

theorem destruct_net (finder : TemporaryDeclFinder) (g : CodeGenerator) :
    Step g (finder.destruct g) (if finder.mHaveTemporary then -1 else 0) := by
  unfold TemporaryDeclFinder.destruct
  cases finder.mHaveTemporary
  · simpa using Step.nil g
  · simpa using (Step.trackerEndScope g false).right rfl

theorem Step.endScopeAssign {g g1 : CodeGenerator} {k : Int} (h : Step g g1 k) (clear : Bool) :
    Step g { (g1.trackerEndScope clear).1 with mSkipSemi := (g1.trackerEndScope clear).2 }
      (k + -1) :=
  (h.seq (Step.trackerEndScope g1 clear)).right rfl

theorem Step.destruct {g g1 : CodeGenerator} {k : Int} (h : Step g g1 k)
    (finder : TemporaryDeclFinder) :
    Step g (finder.destruct g1) (k + if finder.mHaveTemporary then -1 else 0) :=
  h.seq (destruct_net finder g1)

theorem construct_spec_finder (o : InsightsOptions) (notNull : Bool) (found : List Temporary)
    (insertDecls : CodeGenerator → CodeGenerator)
    (hdecls : ∀ g, Step g (insertDecls g) 0) (g : CodeGenerator) :
    (TemporaryDeclFinder.construct o notNull found insertDecls g).1.mHaveTemporary
      = (o.ShowLifetime && notNull && handlesFullExpression found) ∧
    Step g (TemporaryDeclFinder.construct o notNull found insertDecls g).2
      (if (TemporaryDeclFinder.construct o notNull found insertDecls g).1.mHaveTemporary
        then 1 else 0) := by
  unfold TemporaryDeclFinder.construct
  by_cases hc : (o.ShowLifetime && notNull) = true
  · obtain ⟨h1, h2⟩ := Visit_spec found {} g
    simp only [Bool.false_or, Bool.not_false, Bool.true_and] at h1 h2
    simp only [hc, if_true, Bool.true_and]
    refine ⟨h1, ?_⟩
    rw [h1]
    exact (h2.seq (hdecls _)).cast (by simp)
  · simp only [hc, if_false, Bool.false_eq_true]
    simp only [Bool.not_eq_true] at hc
    refine ⟨by simp [hc], by simpa using Step.nil g⟩

theorem InsertArgReturnStmt_net (stmt : Stmt)
    (finderCtor : CodeGenerator → TemporaryDeclFinder × CodeGenerator)
    (retValue : Option (CodeGenerator → CodeGenerator)) (NRVOCandidate : Option Nat)
    (hctor : ∀ g, Step g (finderCtor g).2 (if (finderCtor g).1.mHaveTemporary then 1 else 0))
    (hret : ∀ render, retValue = some render → ∀ g, Step g (render g) 0)
    (g : CodeGenerator) :
    Step g (InsertArgReturnStmt stmt finderCtor retValue NRVOCandidate g) 0 := by
  have h1 := hctor g
  have h3 : ∀ (value : Option (CodeGenerator → CodeGenerator)),
      (∀ render, value = some render → ∀ g, Step g (render g) 0) →
      ∀ g1 : CodeGenerator, Step g1
      (match value with
        | none => g1
        | some render =>
          if ! (finderCtor g).1.mFound then
            match NRVOCandidate with
            | some nrvoVD => (g1.Append [Token.Space]).Append [Token.Name nrvoVD]
            | none => render (g1.Append [Token.Space])
          else
            match (finderCtor g).1.mTempName with
            | some name => (g1.Append [Token.Space]).Append [Token.Name name]
            | none => g1.Append [Token.Space]) 0 := by
    intro value hvalue g1
    cases value with
    | none => exact Step.nil _
    | some render =>
      simp only []
      split
      · cases NRVOCandidate with
        | some nrvoVD => exact Step.of_calls rfl
        | none => exact (Step.Append g1 _).trans0 (hvalue render rfl _)
      · split
        · exact Step.of_calls rfl
        · exact Step.of_calls rfl
  unfold InsertArgReturnStmt
  refine Step.right ?_ rfl
  refine ((((h1.append0 [Token.kwReturn]).seq (h3 retValue hret _)).destruct _).seq
    (Step.trackerReturn _)).cast ?_
  split <;> simp

theorem InsertArgNullStmt_net (g : CodeGenerator) : Step g g.InsertArgNullStmt 0 :=
  Step.of_calls rfl

theorem InsertArgCompoundStmt_net (handleCompoundStmt : CodeGenerator → CodeGenerator)
    (hbody : ∀ g, Step g (handleCompoundStmt g) 0) (g : CodeGenerator) :
    Step g (InsertArgCompoundStmt handleCompoundStmt g) 0 := by
  have hret : ∀ g1 : CodeGenerator, Step g1
      (InsertArgReturnStmt (Stmt.ReturnStmt (some (Stmt.IntegerLiteral 0)) none [])
        (fun g => ({}, g))
        (some fun g =>
          { g with mLastStmt := some (Stmt.IntegerLiteral 0) }.Append [Token.Literal 0])
        none g1) 0 := by
    intro g1
    refine InsertArgReturnStmt_net _ _ _ _ (fun g => ?_) ?_ g1
    · simpa using Step.nil g
    · intro render hr g2
      cases hr
      exact Step.of_calls rfl
  have himplicit : ∀ (b : Bool) (g1 : CodeGenerator), Step g1
      (if b then
        (if ! (InsertArgReturnStmt (Stmt.ReturnStmt (some (Stmt.IntegerLiteral 0)) none [])
              (fun g => ({}, g))
              (some fun g =>
                { g with mLastStmt := some (Stmt.IntegerLiteral 0) }.Append [Token.Literal 0])
              none g1).mSkipSemi then
          (InsertArgReturnStmt (Stmt.ReturnStmt (some (Stmt.IntegerLiteral 0)) none [])
              (fun g => ({}, g))
              (some fun g =>
                { g with mLastStmt := some (Stmt.IntegerLiteral 0) }.Append [Token.Literal 0])
              none g1).InsertArgNullStmt
        else
          InsertArgReturnStmt (Stmt.ReturnStmt (some (Stmt.IntegerLiteral 0)) none [])
              (fun g => ({}, g))
              (some fun g =>
                { g with mLastStmt := some (Stmt.IntegerLiteral 0) }.Append [Token.Literal 0])
              none g1)
       else g1) 0 := by
    intro b g1
    cases b
    · exact Step.nil _
    · simp only [if_true]
      split
      · exact (hret g1).trans0 (InsertArgNullStmt_net _)
      · exact hret g1
  unfold InsertArgCompoundStmt
  refine Step.right ?_ rfl
  have h1 : Step g (g.Append [Token.OpenScope]) 0 := Step.Append _ _
  have h2 := Step.trackerStartScope (g.Append [Token.OpenScope])
    ((g.Append [Token.OpenScope]).mLastDecl == some DeclClass.FunctionDecl)
  have h3 : Step
      ((g.Append [Token.OpenScope]).trackerStartScope
        ((g.Append [Token.OpenScope]).mLastDecl == some DeclClass.FunctionDecl))
      { (g.Append [Token.OpenScope]).trackerStartScope
          ((g.Append [Token.OpenScope]).mLastDecl == some DeclClass.FunctionDecl) with
        mRequiresImplicitReturnZero := false } 0 := Step.of_calls rfl
  have h4 := hbody
    { (g.Append [Token.OpenScope]).trackerStartScope
        ((g.Append [Token.OpenScope]).mLastDecl == some DeclClass.FunctionDecl) with
      mRequiresImplicitReturnZero := false }
  have h5 := himplicit
    ((g.Append [Token.OpenScope]).trackerStartScope
      ((g.Append [Token.OpenScope]).mLastDecl
        == some DeclClass.FunctionDecl)).mRequiresImplicitReturnZero
    (handleCompoundStmt
      { (g.Append [Token.OpenScope]).trackerStartScope
          ((g.Append [Token.OpenScope]).mLastDecl == some DeclClass.FunctionDecl) with
        mRequiresImplicitReturnZero := false })
  have h6 := ((((h1.seq h2).seq h3).seq h4).seq h5)
  refine (h6.seq (Step.trackerEndScope _ _)).cast ?_
  simp

theorem WrapInCompoundIfNeeded_net (stmt : Stmt) (render : CodeGenerator → CodeGenerator)
    (hrender : ∀ g, Step g (render g) 0) (g : CodeGenerator) :
    Step g (WrapInCompoundIfNeeded stmt render g) 0 := by
  unfold WrapInCompoundIfNeeded
  refine Step.right ?_ rfl
  have h1 := Step.appendIf (! stmt.isCompoundStmt) [Token.OpenScope] (Step.nil g)
  have h2 : ∀ g1 : CodeGenerator, Step g1
      (if ! stmt.isNullStmt then
        (if ! stmt.isIfStmt && ! stmt.isCompoundStmt && ! stmt.isNullStmt then
          (render g1).Append [Token.SemiNewLine]
        else render g1)
       else g1) 0 := by
    intro g1
    split
    · split
      · exact (hrender g1).append0 _
      · exact hrender g1
    · exact Step.nil _
  exact Step.appendIf (! stmt.isCompoundStmt) [Token.CloseScope] (h1.trans0 (h2 _))

theorem InsertArgExprWithCleanups_net (o : InsightsOptions)
    (finderCtor : CodeGenerator → TemporaryDeclFinder × CodeGenerator)
    (subExpr : CodeGenerator → CodeGenerator)
    (hctor : ∀ g, Step g (finderCtor g).2 (if (finderCtor g).1.mHaveTemporary then 1 else 0))
    (hsub : ∀ g, Step g (subExpr g) 0) (g : CodeGenerator) :
    Step g (InsertArgExprWithCleanups o finderCtor subExpr g) 0 := by
  unfold InsertArgExprWithCleanups
  have h1 := Step.trackerStartScope g false
  have h2 := hctor (g.trackerStartScope false)
  have h3 := hsub (finderCtor (g.trackerStartScope false)).2
  refine (((((h1.seq h2).seq h3).appendIf _ _).endScopeAssign false).destruct _).cast ?_
  split <;> simp

theorem InsertArgVarDecl_net (decl : VarDecl)
    (finderCtor : CodeGenerator → TemporaryDeclFinder × CodeGenerator)
    (init : Option (CodeGenerator → CodeGenerator))
    (hctor : ∀ g, Step g (finderCtor g).2 (if (finderCtor g).1.mHaveTemporary then 1 else 0))
    (hinit : ∀ render, init = some render → ∀ g, Step g (render g) 0) (g : CodeGenerator) :
    Step g (InsertArgVarDecl decl finderCtor init g) 0 := by
  have h3 : ∀ (value : Option (CodeGenerator → CodeGenerator)),
      (∀ render, value = some render → ∀ g, Step g (render g) 0) →
      ∀ g1 : CodeGenerator, Step g1
      (match value with
        | none => g1
        | some render =>
          { render ({ g1 with mProcessingVarDecl := true }.Append [Token.hlpAssing]) with
            mProcessingVarDecl := false }) 0 := by
    intro value hvalue g1
    cases value with
    | none => exact Step.nil _
    | some render =>
      have a : Step g1 ({ g1 with mProcessingVarDecl := true }.Append [Token.hlpAssing]) 0 :=
        Step.of_calls rfl
      exact (a.trans0 (hvalue render rfl _)).right rfl
  unfold InsertArgVarDecl
  have h1 := Step.trackerAdd g decl
  have h2 := hctor (g.trackerAdd decl)
  refine (((((h1.seq h2).append0 [Token.Declaration decl.name]).seq
    (h3 init hinit _)).append0 [Token.SemiNewLine]).destruct _).cast ?_
  split <;> simp

theorem InsertArgIfStmt_net (conditionVariable : Option (CodeGenerator → CodeGenerator))
    (init : Option (Stmt × (CodeGenerator → CodeGenerator)))
    (cond : CodeGenerator → CodeGenerator)
    (thenStmt : Stmt × (CodeGenerator → CodeGenerator))
    (elseStmt : Option (Stmt × (CodeGenerator → CodeGenerator)))
    (hcv : ∀ render, conditionVariable = some render → ∀ g, Step g (render g) 0)
    (hinit : ∀ i, init = some i → ∀ g, Step g (i.2 g) 0)
    (hcond : ∀ g, Step g (cond g) 0)
    (hthen : ∀ g, Step g (thenStmt.2 g) 0)
    (helse : ∀ e, elseStmt = some e → ∀ g, Step g (e.2 g) 0) (g : CodeGenerator) :
    Step g (InsertArgIfStmt conditionVariable init cond thenStmt elseStmt g) 0 := by
  have h2 : ∀ (value : Option (CodeGenerator → CodeGenerator)),
      (∀ render, value = some render → ∀ g, Step g (render g) 0) →
      ∀ g1 : CodeGenerator, Step g1
      (match value with
        | none => g1
        | some render => render g1) 0 := by
    intro value hvalue g1
    cases value with
    | none => exact Step.nil _
    | some render => exact hvalue render rfl _
  have h3 : ∀ (value : Option (Stmt × (CodeGenerator → CodeGenerator))),
      (∀ i, value = some i → ∀ g, Step g (i.2 g) 0) →
      ∀ g1 : CodeGenerator, Step g1
      (match value with
        | none => g1
        | some i =>
          if ! i.1.isDeclStmt then (i.2 g1).Append [Token.SemiNewLine] else i.2 g1) 0 := by
    intro value hvalue g1
    cases value with
    | none => exact Step.nil _
    | some i => exact Step.appendIf _ _ (hvalue i rfl _)
  have h4 : ∀ (value : Option (Stmt × (CodeGenerator → CodeGenerator))),
      (∀ e, value = some e → ∀ g, Step g (e.2 g) 0) →
      ∀ g1 : CodeGenerator, Step g1
      (match value with
        | none => g1
        | some elsePart =>
          WrapInCompoundIfNeeded elsePart.1 elsePart.2 (g1.Append [Token.kwElse])) 0 := by
    intro value hvalue g1
    cases value with
    | none => exact Step.nil _
    | some e =>
      exact (Step.Append g1 _).trans0 (WrapInCompoundIfNeeded_net e.1 e.2 (hvalue e rfl) _)
  unfold InsertArgIfStmt
  refine Step.append0 _ (Step.appendIf _ _ (Step.append0 _ ?_))
  refine Step.trans0 ?_ (h4 elseStmt helse _)
  refine Step.trans0 ?_ (WrapInCompoundIfNeeded_net thenStmt.1 thenStmt.2 hthen _)
  refine Step.trans0 ?_ (hcond _)
  refine Step.append0 _ ?_
  refine Step.trans0 ?_ (h3 init hinit _)
  refine Step.trans0 ?_ (h2 conditionVariable hcv _)
  exact Step.appendIf _ _ (Step.nil g)

theorem InsertArg_ReturnStmt_eq (o : InsightsOptions) (retValue : Option Stmt)
    (NRVOCandidate : Option Nat) (found : List Temporary) (g : CodeGenerator) :
    InsertArg o (Stmt.ReturnStmt retValue NRVOCandidate found) g
      = InsertArgReturnStmt (Stmt.ReturnStmt retValue NRVOCandidate found)
          (TemporaryDeclFinder.construct o retValue.isSome found (InsertFound o found false))
          (retValue.map (InsertArg o)) NRVOCandidate
          { g with mLastStmt := some (Stmt.ReturnStmt retValue NRVOCandidate found) } := by
  cases retValue <;> rw [InsertArg] <;> rfl

theorem InsertArg_IfStmt_eq (o : InsightsOptions) (conditionVariable : Option VarDecl)
    (init : Option Stmt) (cond thenStmt : Stmt) (elseStmt : Option Stmt) (g : CodeGenerator) :
    InsertArg o (Stmt.IfStmt conditionVariable init cond thenStmt elseStmt) g
      = InsertArgIfStmt (conditionVariable.map (InsertArgDecl o))
          (init.map fun i => (i, InsertArg o i)) (InsertArg o cond)
          (thenStmt, InsertArg o thenStmt)
          (elseStmt.map fun elsePart => (elsePart, InsertArg o elsePart))
          { g with
            mLastStmt := some (Stmt.IfStmt conditionVariable init cond thenStmt elseStmt) } := by
  cases conditionVariable <;> cases init <;> cases elseStmt <;> rw [InsertArg] <;> rfl

theorem InsertArgDecl_eq (o : InsightsOptions) (name : Nat) (needsDestruction : Bool)
    (init : Option Stmt) (found : List Temporary) (g : CodeGenerator) :
    InsertArgDecl o (VarDecl.mk name needsDestruction init found) g
      = InsertArgVarDecl (VarDecl.mk name needsDestruction init found)
          (TemporaryDeclFinder.construct o init.isSome found (InsertFound o found false))
          (init.map (InsertArg o)) g := by
  cases init <;> rw [InsertArgDecl] <;> rfl

mutual
theorem InsertArg_net (o : InsightsOptions) :
    ∀ (stmt : Stmt) (g : CodeGenerator), Step g (InsertArg o stmt g) 0
  | .NullStmt, g => by
    rw [InsertArg]
    exact Step.of_calls rfl
  | .IntegerLiteral value, g => by
    rw [InsertArg]
    exact Step.of_calls rfl
  | .DeclRefExpr decl, g => by
    rw [InsertArg]
    exact Step.of_calls rfl
  | .Expr children, g => by
    rw [InsertArg]
    exact (InsertArgs_net o children { g with mLastStmt := some (Stmt.Expr children) }).left rfl
  | .CompoundStmt body, g => by
    rw [InsertArg]
    exact (InsertArgCompoundStmt_net _ (fun g1 => HandleCompoundStmt_net o body g1)
      { g with mLastStmt := some (Stmt.CompoundStmt body) }).left rfl
  | .DeclStmt decls, g => by
    rw [InsertArg]
    exact (InsertDecls_net o decls { g with mLastStmt := some (Stmt.DeclStmt decls) }).left rfl
  | .ReturnStmt retValue NRVOCandidate found, g => by
    rw [InsertArg_ReturnStmt_eq]
    refine (InsertArgReturnStmt_net _ _ _ _ ?_ ?_
      { g with mLastStmt := some (Stmt.ReturnStmt retValue NRVOCandidate found) }).left rfl
    · intro g1
      exact (construct_spec_finder o _ found _ (fun g2 => InsertFound_net o found false g2) g1).2
    · intro render hr g1
      cases retValue with
      | none => simp at hr
      | some value =>
        simp only [Option.map_some', Option.some.injEq] at hr
        subst hr
        exact InsertArg_net o value g1
  | .IfStmt conditionVariable init cond thenStmt elseStmt, g => by
    rw [InsertArg_IfStmt_eq]
    refine (InsertArgIfStmt_net _ _ _ _ _ ?_ ?_ ?_ ?_ ?_
      { g with mLastStmt := some (Stmt.IfStmt conditionVariable init cond thenStmt elseStmt)
        }).left rfl
    · intro render hr g1
      cases conditionVariable with
      | none => simp at hr
      | some vd =>
        simp only [Option.map_some', Option.some.injEq] at hr
        subst hr
        exact InsertArgDecl_net o vd g1
    · intro i hi g1
      cases init with
      | none => simp at hi
      | some s =>
        simp only [Option.map_some', Option.some.injEq] at hi
        subst hi
        exact InsertArg_net o s g1
    · intro g1
      exact InsertArg_net o cond g1
    · intro g1
      exact InsertArg_net o thenStmt g1
    · intro e he g1
      cases elseStmt with
      | none => simp at he
      | some s =>
        simp only [Option.map_some', Option.some.injEq] at he
        subst he
        exact InsertArg_net o s g1
  | .ExprWithCleanups subExpr found, g => by
    rw [InsertArg]
    refine (InsertArgExprWithCleanups_net o _ _ ?_ ?_
      { g with mLastStmt := some (Stmt.ExprWithCleanups subExpr found) }).left rfl
    · intro g1
      exact (construct_spec_finder o _ found _ (fun g2 => InsertFound_net o found false g2) g1).2
    · intro g1
      exact InsertArg_net o subExpr g1
  | .MaterializeTemporaryExpr subExpr, g => by
    rw [InsertArg]
    exact (InsertArg_net o subExpr
      { g with mLastStmt := some (Stmt.MaterializeTemporaryExpr subExpr) }).left rfl
theorem InsertArgs_net (o : InsightsOptions) :
    ∀ (children : List Stmt) (g : CodeGenerator), Step g (InsertArgs o children g) 0
  | [], g => by
    rw [InsertArgs]
    exact Step.nil g
  | child :: rest, g => by
    rw [InsertArgs]
    exact (InsertArg_net o child g).trans0 (InsertArgs_net o rest _)
theorem HandleCompoundStmt_net (o : InsightsOptions) :
    ∀ (body : List Stmt) (g : CodeGenerator), Step g (HandleCompoundStmt o body g) 0
  | [], g => by
    rw [HandleCompoundStmt]
    exact Step.nil g
  | item :: rest, g => by
    rw [HandleCompoundStmt]
    refine Step.trans0 ?_ (HandleCompoundStmt_net o rest _)
    exact (Step.appendIf _ _ (InsertArg_net o item g)).right rfl
theorem InsertDecls_net (o : InsightsOptions) :
    ∀ (decls : List VarDecl) (g : CodeGenerator), Step g (InsertDecls o decls g) 0
  | [], g => by
    rw [InsertDecls]
    exact Step.nil g
  | decl :: rest, g => by
    rw [InsertDecls]
    exact ((InsertArgDecl_net o decl { g with mLastDecl := some DeclClass.VarDecl }).left
      rfl).trans0 (InsertDecls_net o rest _)
theorem InsertArgDecl_net (o : InsightsOptions) :
    ∀ (decl : VarDecl) (g : CodeGenerator), Step g (InsertArgDecl o decl g) 0
  | .mk name needsDestruction init found, g => by
    rw [InsertArgDecl_eq]
    refine InsertArgVarDecl_net _ _ _ ?_ ?_ _
    · intro g1
      exact (construct_spec_finder o _ found _ (fun g2 => InsertFound_net o found false g2) g1).2
    · intro render hr g1
      cases init with
      | none => simp at hr
      | some value =>
        simp only [Option.map_some', Option.some.injEq] at hr
        subst hr
        exact InsertArg_net o value g1
theorem InsertFound_net (o : InsightsOptions) :
    ∀ (found : List Temporary) (mFound : Bool) (g : CodeGenerator),
      Step g (InsertFound o found mFound g) 0
  | [], _, g => by
    rw [InsertFound]
    exact Step.nil g
  | .CXXTemporaryObjectExpr vd :: rest, _, g => by
    rw [InsertFound]
    exact (InsertArgDecl_net o vd g).trans0 (InsertFound_net o rest true _)
  | .MaterializeTemporaryExpr _ _ vd :: rest, mFound, g => by
    rw [InsertFound]
    split
    · exact InsertFound_net o rest mFound g
    · exact (InsertArgDecl_net o vd g).trans0 (InsertFound_net o rest mFound _)
end

theorem Visit_endScopeCalls (found : List Temporary) :
    ∀ (finder : TemporaryDeclFinder) (g : CodeGenerator),
      ∃ delta, (TemporaryDeclFinder.Visit found finder g).2.calls = g.calls ++ delta ∧
        endScopeCalls delta = 0 := by
  induction found with
  | nil =>
    intro finder g
    exact ⟨[], by simp [TemporaryDeclFinder.Visit], rfl⟩
  | cons t rest ih =>
    intro finder g
    cases t with
    | CXXTemporaryObjectExpr vd =>
      simp only [TemporaryDeclFinder.Visit]
      exact ih _ g
    | MaterializeTemporaryExpr sd ext vd =>
      simp only [TemporaryDeclFinder.Visit]
      split
      · exact ih _ g
      · split
        · obtain ⟨d, hd, hn⟩ := ih { finder with mHaveTemporary := true } g.StartLifetimeScope
          refine ⟨TrackerCall.StartScope false :: d, ?_, ?_⟩
          · rw [hd]
            simp [StartLifetimeScope, trackerStartScope]
          · simpa [endScopeCalls, TrackerCall.isEndScope] using hn
        · cases ext with
          | none => exact ih _ g
          | some e =>
            obtain ⟨d, hd, hn⟩ := ih finder (g.LifetimeAddExtended vd e)
            refine ⟨TrackerCall.AddExtended vd.name e :: d, ?_, ?_⟩
            · simp only []
              rw [hd]
              simp [LifetimeAddExtended]
            · simpa [endScopeCalls, TrackerCall.isEndScope] using hn

theorem Visit_opens (found : List Temporary) (g : CodeGenerator) :
    ∃ delta, (TemporaryDeclFinder.Visit found {} g).2.calls = g.calls ++ delta ∧
      startScopeCalls delta = (if handlesFullExpression found then 1 else 0) ∧
      endScopeCalls delta = 0 ∧
      (TemporaryDeclFinder.Visit found {} g).1.mHaveTemporary = handlesFullExpression found := by
  obtain ⟨d, hd, hn⟩ := Visit_endScopeCalls found {} g
  obtain ⟨h1, d2, hd2, hn2⟩ := Visit_spec found {} g
  have e : d2 = d := List.append_cancel_left (hd2.symm.trans hd)
  subst e
  refine ⟨d2, hd, ?_, hn, by simpa using h1⟩
  simp only [Bool.not_false, Bool.true_and] at hn2
  rw [hn] at hn2
  split at hn2 <;> simp_all

theorem destruct_closes (finder : TemporaryDeclFinder) (g : CodeGenerator) :
    ∃ closing, (finder.destruct g).calls = g.calls ++ closing ∧ startScopeCalls closing = 0 ∧
      endScopeCalls closing = (if finder.mHaveTemporary then 1 else 0) := by
  unfold TemporaryDeclFinder.destruct
  cases finder.mHaveTemporary
  · exact ⟨[], by simp, rfl, rfl⟩
  · exact ⟨[TrackerCall.EndScope false (g.mLifeTimeTracker.EndScope false).2], rfl, rfl, rfl⟩

theorem InsertArgExprWithCleanups_calls (o : InsightsOptions)
    (finderCtor : CodeGenerator → TemporaryDeclFinder × CodeGenerator)
    (subExpr : CodeGenerator → CodeGenerator) (g : CodeGenerator) :
    ∃ (emitted : List Nat) (closing : List TrackerCall),
      (InsertArgExprWithCleanups o finderCtor subExpr g).calls
        = (subExpr (finderCtor (g.trackerStartScope false)).2).calls
            ++ [TrackerCall.EndScope false emitted] ++ closing ∧
      startScopeCalls closing = 0 ∧
      endScopeCalls closing =
        (if (finderCtor (g.trackerStartScope false)).1.mHaveTemporary then 1 else 0) := by
  unfold InsertArgExprWithCleanups
  simp only []
  generalize subExpr (finderCtor (g.trackerStartScope false)).2 = g2
  have hg3 : (if o.ShowLifetime && ! g2.mProcessingVarDecl then g2.Append [Token.SemiNewLine]
      else g2).calls = g2.calls := by
    split <;> rfl
  generalize (if o.ShowLifetime && ! g2.mProcessingVarDecl then g2.Append [Token.SemiNewLine]
      else g2) = g3 at hg3 ⊢
  obtain ⟨cl, hcl, hcs, hce⟩ := destruct_closes (finderCtor (g.trackerStartScope false)).1
    { (g3.trackerEndScope false).1 with mSkipSemi := (g3.trackerEndScope false).2 }
  refine ⟨(g3.mLifeTimeTracker.EndScope false).2, cl, ?_, hcs, hce⟩
  rw [hcl, ← hg3]
  rfl

theorem ExprWithCleanups_scope (o : InsightsOptions) (subExpr : Stmt) (found : List Temporary)
    (g : CodeGenerator) :
    ∃ (g1 : CodeGenerator) (ctorCalls subCalls : List TrackerCall) (emitted : List Nat)
        (closing : List TrackerCall),
      g1.calls = g.calls ++ [TrackerCall.StartScope false] ++ ctorCalls ∧
      (InsertArg o subExpr g1).calls = g1.calls ++ subCalls ∧
      (InsertArg o (Stmt.ExprWithCleanups subExpr found) g).calls
        = g.calls ++ [TrackerCall.StartScope false] ++ ctorCalls ++ subCalls
            ++ [TrackerCall.EndScope false emitted] ++ closing ∧
      startScopeCalls subCalls = endScopeCalls subCalls ∧
      startScopeCalls ctorCalls = endScopeCalls ctorCalls +
        (if o.ShowLifetime && ! g.mProcessingVarDecl && handlesFullExpression found
          then 1 else 0) ∧
      startScopeCalls closing = 0 ∧
      endScopeCalls closing =
        (if o.ShowLifetime && ! g.mProcessingVarDecl && handlesFullExpression found
          then 1 else 0) := by
  obtain ⟨hh, dc, hdc, hnc⟩ := construct_spec_finder o (! g.mProcessingVarDecl) found
    (InsertFound o found false) (fun g2 => InsertFound_net o found false g2)
    ({ g with mLastStmt := some (Stmt.ExprWithCleanups subExpr found) }.trackerStartScope false)
  obtain ⟨ds, hds, hns⟩ := InsertArg_net o subExpr
    (TemporaryDeclFinder.construct o (! g.mProcessingVarDecl) found (InsertFound o found false)
      ({ g with mLastStmt := some (Stmt.ExprWithCleanups subExpr found)
        }.trackerStartScope false)).2
  obtain ⟨emitted, cl, hcl, hcs, hce⟩ := InsertArgExprWithCleanups_calls o
    (fun g =>
      TemporaryDeclFinder.construct o (! g.mProcessingVarDecl) found (InsertFound o found false)
        g)
    (InsertArg o subExpr) { g with mLastStmt := some (Stmt.ExprWithCleanups subExpr found) }
  rw [hh] at hnc
  have hhe : (TemporaryDeclFinder.construct o
      (! ({ g with mLastStmt := some (Stmt.ExprWithCleanups subExpr found)
          }.trackerStartScope false).mProcessingVarDecl) found (InsertFound o found false)
      ({ g with mLastStmt := some (Stmt.ExprWithCleanups subExpr found)
        }.trackerStartScope false)).1.mHaveTemporary
      = (o.ShowLifetime && ! g.mProcessingVarDecl && handlesFullExpression found) := hh
  simp only [hhe] at hce
  refine ⟨_, dc, ds, emitted, cl, ?_, hds, ?_, by omega, ?_, hcs, hce⟩
  · rw [hdc]
    rfl
  · rw [InsertArg, hcl]
    have e : (InsertArg o subExpr
        (TemporaryDeclFinder.construct o
          (! ({ g with mLastStmt := some (Stmt.ExprWithCleanups subExpr found)
              }.trackerStartScope false).mProcessingVarDecl) found (InsertFound o found false)
          ({ g with mLastStmt := some (Stmt.ExprWithCleanups subExpr found)
            }.trackerStartScope false)).2).calls
        = g.calls ++ [TrackerCall.StartScope false] ++ dc ++ ds := by
      have e1 := hds
      rw [hdc] at e1
      exact e1
    rw [e]
  · by_cases hc : (o.ShowLifetime && ! g.mProcessingVarDecl && handlesFullExpression found)
        = true
    · rw [if_pos hc] at hnc
      rw [if_pos hc]
      omega
    · rw [if_neg hc] at hnc
      rw [if_neg hc]
      omega

/-! ## C10: balanced lifetime scopes -/

/-- C10: full-statement temporaries get a balanced nested lifetime scope. First, the record of
tracker calls of `InsertArg(ExprWithCleanups)` is the record before it, then one
`StartScope(false)`, the calls of the constructor of the `TemporaryDeclFinder`, the calls of
the rendering of the sub-expression (which are balanced), one `EndScope(.., false)` and the
calls of the destructor of the finder; the destructor closes one scope exactly when the
constructor has left one open. Second, the visit of a `TemporaryDeclFinder` makes no `EndScope`
call and one `StartScope` call if it comes to a temporary of storage duration
`SD_FullExpression` before `mFound` is set, none otherwise, and `mHaveTemporary` tells which.
Third, the destructor of the finder makes one `EndScope` call if `mHaveTemporary` is set and
no call otherwise. Fourth, for every statement and every state the rendering makes as many
`EndScope` calls as `StartScope` calls. Fifth, the statement `f(A{});` makes the calls
`StartScope`, `StartScope`, `Add`, `EndScope` (destroying the temporary), `EndScope`. -/
theorem lifetime_scopes_balanced :
    (∀ (o : InsightsOptions) (subExpr : Stmt) (found : List Temporary) (g : CodeGenerator),
      ∃ (g1 : CodeGenerator) (ctorCalls subCalls : List TrackerCall) (emitted : List Nat)
          (closing : List TrackerCall),
        g1.calls = g.calls ++ [TrackerCall.StartScope false] ++ ctorCalls ∧
        (InsertArg o subExpr g1).calls = g1.calls ++ subCalls ∧
        (InsertArg o (Stmt.ExprWithCleanups subExpr found) g).calls
          = g.calls ++ [TrackerCall.StartScope false] ++ ctorCalls ++ subCalls
              ++ [TrackerCall.EndScope false emitted] ++ closing ∧
        startScopeCalls subCalls = endScopeCalls subCalls ∧
        startScopeCalls ctorCalls = endScopeCalls ctorCalls +
          (if o.ShowLifetime && ! g.mProcessingVarDecl && handlesFullExpression found
            then 1 else 0) ∧
        startScopeCalls closing = 0 ∧
        endScopeCalls closing =
          (if o.ShowLifetime && ! g.mProcessingVarDecl && handlesFullExpression found
            then 1 else 0)) ∧
    (∀ (found : List Temporary) (g : CodeGenerator),
      ∃ delta, (TemporaryDeclFinder.Visit found {} g).2.calls = g.calls ++ delta ∧
        startScopeCalls delta = (if handlesFullExpression found then 1 else 0) ∧
        endScopeCalls delta = 0 ∧
        (TemporaryDeclFinder.Visit found {} g).1.mHaveTemporary
          = handlesFullExpression found) ∧
    (∀ (finder : TemporaryDeclFinder) (g : CodeGenerator),
      ∃ closing, (finder.destruct g).calls = g.calls ++ closing ∧
        startScopeCalls closing = 0 ∧
        endScopeCalls closing = (if finder.mHaveTemporary then 1 else 0)) ∧
    (∀ (o : InsightsOptions) (stmt : Stmt) (g : CodeGenerator),
      ∃ delta, (InsertArg o stmt g).calls = g.calls ++ delta ∧
        startScopeCalls delta = endScopeCalls delta) ∧
    (InsertArg ⟨true⟩ Sample.callWithTemporary {}).calls
      = [TrackerCall.StartScope false, TrackerCall.StartScope false, TrackerCall.Add 7,
          TrackerCall.EndScope false [7], TrackerCall.EndScope false []] := by
  refine ⟨ExprWithCleanups_scope, Visit_opens, destruct_closes, ?_, rfl⟩
  intro o stmt g
  obtain ⟨delta, hd, hn⟩ := InsertArg_net o stmt g
  exact ⟨delta, hd, by omega⟩

end Lifetime

section LambdaExprRendering

open LambdaScopeHandler CodeGenerator

/-! ## C11: lambdas in an unevaluated context -/

theorem back_concat {α : Type} (st : StackList α) (a : α) :
    StackList.back (st ++ [a]) = some a := by
  simp [StackList.back]

theorem Heap.updateBack_concat (h : Heap) (st : List LambdaHelper) (top : LambdaHelper)
    (hst : h.mStack = st ++ [top]) (f : LambdaHelper → LambdaHelper) :
    h.updateBack f = { h with mStack := st ++ [f top] } := by
  simp [Heap.updateBack, hst, pop_concat]

theorem HandleLambdaExpr_concat (lambda : LambdaExpr) (h : Heap) (st : List LambdaHelper)
    (top : LambdaHelper) (hst : h.mStack = st ++ [top]) :
    HandleLambdaExpr lambda h
      = some { h with
          mStack := st ++
            [{ top with
               mLambdaOutputFormatHelper :=
                 top.mLambdaOutputFormatHelper ++ ['\n'] ++ lambda.classBody
                   ++ lambdaClassSuffix lambda top.callerType
               mInits := top.mInits ++ lambdaClassInits lambda top.callerType }] } := by
  simp [HandleLambdaExpr, hst, back_concat, pop_concat, Heap.updateBack]

/-- C11, as amended. When `InsertArg(LambdaExpr)` renders a lambda while the entry on top of
the lambda stack is classified `Decltype`, the closure class is written all the same, into the
private buffer of that entry (a new line, the class, `;` and two new lines); what the
force-name flag decides is the name of the lambda: it is appended to the output buffer if the
flag is set and not otherwise. The pending constructor arguments of the entry follow in the
output and are cleared; no other generator buffer changes. -/
theorem decltype_suppresses_name (h : Heap) (st : List LambdaHelper) (top : LambdaHelper)
    (id : Nat) (mLambdaInitCapture : Bool) (self : Nat) (stmt : LambdaExpr)
    (hst : h.mStack = st ++ [top]) (hct : top.callerType = LambdaCallerType.Decltype) :
    ∃ h', InsertArgLambdaExpr (BufRef.output id) mLambdaInitCapture self stmt h = some h' ∧
      h'.mStack = st ++
        [{ top with
           mLambdaOutputFormatHelper :=
             top.buffer ++ ['\n'] ++ stmt.classBody ++ [';', '\n', '\n']
           mInits := [] }] ∧
      h'.outputs id
        = h.outputs id ++ (if top.mForceName then stmt.name else []) ++ top.mInits ∧
      ∀ other, other ≠ id → h'.outputs other = h.outputs other := by
  have hsuffix : lambdaClassSuffix stmt top.callerType = [';', '\n', '\n'] := by
    simp [lambdaClassSuffix, hct]
  have hinits : lambdaClassInits stmt top.callerType = [] := by
    simp [lambdaClassInits, hct]
  have hname : top.insertName = top.mForceName := by
    have hct' : top.mLambdaCallerType = LambdaCallerType.Decltype := hct
    simp [LambdaHelper.insertName, hct']
  unfold InsertArgLambdaExpr
  rw [hst, back_concat, HandleLambdaExpr_concat stmt h st top hst, hsuffix, hinits]
  simp only [hname]
  cases hf : top.mForceName <;> cases hi : top.mInits <;>
    simp [Heap.append, Heap.read, Heap.write, OutputFormatHelper.Append, StackList.empty,
      insertInits, back_concat, Heap.updateBack, pop_concat, LambdaHelper.buffer, hi,
      Function.update_apply]
  all_goals exact fun other h1 h2 => absurd h2 h1

/-- C11, the claim as stated fails. The entry on top of the stack is classified `Decltype`
and its force-name flag is not set; `InsertArg(LambdaExpr)` writes the closure class `C` into
the private buffer of that entry, and the destructor of the handler of the `decltype` context
splices it into the output, where it stands behind `x;`. -/
theorem decltype_body_counterexample :
    (StackList.back Sample.inDecltype.mStack).map
        (fun l => (l.callerType, l.mForceName)) = some (LambdaCallerType.Decltype, false) ∧
    ∃ h1, InsertArgLambdaExpr (BufRef.output 0) false 20 Sample.plainLambda Sample.inDecltype
        = some h1 ∧
      h1.read (BufRef.lambda 0) = some ['\n', 'C', ';', '\n', '\n'] ∧
      h1.outputs 0 = ['x', ';'] ∧
      ∃ h2, destruct h1 = some h2 ∧
        h2.outputs 0 = ['x', ';', '\n', 'C', ';', '\n', '\n'] := by
  refine ⟨by decide, _, rfl, by decide, by decide, _, rfl, by decide⟩

theorem decltype_suppresses_name_witness :
    Sample.inDecltype.mStack
      = [] ++ [{ self := 14, mLambdaCallerType := LambdaCallerType.Decltype,
                 mCurrentVarDeclPos := 2, mOutputFormatHelper := BufRef.output 0 }] ∧
    ∃ h', InsertArgLambdaExpr (BufRef.output 0) false 20 Sample.plainLambda Sample.inDecltype
        = some h' ∧
      h'.mStack = [] ++
        [{ self := 14, mLambdaCallerType := LambdaCallerType.Decltype, mCurrentVarDeclPos := 2,
           mOutputFormatHelper := BufRef.output 0,
           mLambdaOutputFormatHelper := ['\n', 'C', ';', '\n', '\n'] }] ∧
      h'.outputs 0 = ['x', ';'] ∧
      ∀ other, other ≠ 0 → h'.outputs other = ['x', ';'] :=
  ⟨rfl, by
    simpa [Sample.inDecltype, Sample.plainLambda, LambdaHelper.buffer] using
      decltype_suppresses_name Sample.inDecltype [] _ 0 false 20 Sample.plainLambda rfl rfl⟩

end LambdaExprRendering

section StaticState

open CodeGenerator

/-! ## C12: renders and the static state -/

theorem SeenDecls.contains_assign (s : SeenDecls) (a b : List Char) :
    (s.assign a).contains b = (decide (a = b) || s.contains b) := by
  rw [Bool.eq_iff_iff]
  simp only [SeenDecls.contains, SeenDecls.assign, List.any_cons, Bool.or_eq_true,
    List.any_eq_true, beq_iff_eq, decide_eq_true_eq, List.mem_filter, bne_iff_ne, ne_eq]
  constructor
  · rintro (h | ⟨e, ⟨he, _⟩, hb⟩)
    · exact Or.inl h
    · exact Or.inr ⟨e, he, hb⟩
  · rintro (h | ⟨e, he, hb⟩)
    · exact Or.inl h
    · by_cases hab : a = b
      · exact Or.inl hab
      · exact Or.inr ⟨e, ⟨he, fun h => hab (h.symm.trans hb)⟩, hb⟩

theorem InsertTemplateArgsObjectParam_contains (param : TemplateParamObjectDecl)
    (s : SeenDecls) (b : List Char) :
    (InsertTemplateArgsObjectParam param s).contains b
      = (decide (param.varName = b) || s.contains b) := by
  unfold InsertTemplateArgsObjectParam
  by_cases hc : s.contains param.varName = true
  · simp only [hc, Bool.not_true, Bool.false_eq_true, if_false]
    by_cases hb : param.varName = b
    · simp [← hb, hc]
    · simp [hb]
  · simp only [hc, Bool.not_eq_true] at hc ⊢
    simp only [hc, Bool.not_false, if_true]
    rw [SeenDecls.contains_assign]
    rfl

theorem InsertTemplateArgsObjectParam_of_contains (param : TemplateParamObjectDecl)
    (s : SeenDecls) (hc : s.contains param.varName = true) :
    InsertTemplateArgsObjectParam param s = s := by
  simp [InsertTemplateArgsObjectParam, hc]

theorem InsertTemplateArgsObjectParam_length (param : TemplateParamObjectDecl)
    (s : SeenDecls) :
    s.mOutputFormatHelper.length
      ≤ (InsertTemplateArgsObjectParam param s).mOutputFormatHelper.length := by
  unfold InsertTemplateArgsObjectParam
  split
  · simp [SeenDecls.assign, OutputFormatHelper.Append]
  · exact Nat.le_refl _

theorem InsertTemplateArgsObjectParam_grows (param : TemplateParamObjectDecl)
    (s : SeenDecls) (hc : s.contains param.varName = false) :
    s.mOutputFormatHelper.length
      < (InsertTemplateArgsObjectParam param s).mOutputFormatHelper.length := by
  simp [InsertTemplateArgsObjectParam, hc, SeenDecls.assign, OutputFormatHelper.Append,
    templateParamObjectText]

theorem InsertTemplateArgsObjectParamArray_contains (array : List TemplateArgument) :
    ∀ (s : SeenDecls) (b : List Char),
      (InsertTemplateArgsObjectParamArray array s).contains b
        = (array.any (fun arg =>
            match arg with
            | .Declaration (some decl) => decide (decl.varName = b)
            | _ => false) || s.contains b) := by
  induction array with
  | nil => intro s b; simp [InsertTemplateArgsObjectParamArray]
  | cons arg rest ih =>
    intro s b
    match arg with
    | .Declaration (some decl) =>
      rw [InsertTemplateArgsObjectParamArray, ih, InsertTemplateArgsObjectParam_contains]
      simp only [List.any_cons]
      cases decide (decl.varName = b) <;> simp
    | .Declaration none =>
      rw [InsertTemplateArgsObjectParamArray, ih]
      simp
    | .Other =>
      rw [InsertTemplateArgsObjectParamArray, ih]
      simp

theorem InsertTemplateArgsObjectParamArray_length (array : List TemplateArgument) :
    ∀ s : SeenDecls,
      s.mOutputFormatHelper.length
        ≤ (InsertTemplateArgsObjectParamArray array s).mOutputFormatHelper.length := by
  induction array with
  | nil => intro s; exact Nat.le_refl _
  | cons arg rest ih =>
    intro s
    match arg with
    | .Declaration (some decl) =>
      rw [InsertTemplateArgsObjectParamArray]
      exact Nat.le_trans (InsertTemplateArgsObjectParam_length decl s) (ih _)
    | .Declaration none =>
      rw [InsertTemplateArgsObjectParamArray]
      exact ih s
    | .Other =>
      rw [InsertTemplateArgsObjectParamArray]
      exact ih s

theorem InsertTemplateArgsObjectParamArray_of_contains (array : List TemplateArgument) :
    ∀ s : SeenDecls,
      (∀ decl, TemplateArgument.Declaration (some decl) ∈ array →
        s.contains decl.varName = true) →
      InsertTemplateArgsObjectParamArray array s = s := by
  induction array with
  | nil => intro s _; rfl
  | cons arg rest ih =>
    intro s hall
    have hrest : ∀ decl, TemplateArgument.Declaration (some decl) ∈ rest →
        s.contains decl.varName = true := fun decl hd => hall decl (List.mem_cons_of_mem _ hd)
    match arg with
    | .Declaration (some decl) =>
      rw [InsertTemplateArgsObjectParamArray,
        InsertTemplateArgsObjectParam_of_contains decl s (hall decl (List.mem_cons_self _ _))]
      exact ih s hrest
    | .Declaration none =>
      rw [InsertTemplateArgsObjectParamArray]
      exact ih s hrest
    | .Other =>
      rw [InsertTemplateArgsObjectParamArray]
      exact ih s hrest

theorem InsertTemplateArgsObjectParamArray_silent (array : List TemplateArgument) :
    ∀ s : SeenDecls,
      (InsertTemplateArgsObjectParamArray array s).mOutputFormatHelper.length
          = s.mOutputFormatHelper.length →
      ∀ decl, TemplateArgument.Declaration (some decl) ∈ array →
        s.contains decl.varName = true := by
  induction array with
  | nil => intro s _ decl hd; simp at hd
  | cons arg rest ih =>
    intro s hlen decl hd
    match arg with
    | .Declaration (some first) =>
      rw [InsertTemplateArgsObjectParamArray] at hlen
      have hc : s.contains first.varName = true := by
        cases hc : s.contains first.varName with
        | true => rfl
        | false =>
          have h1 := InsertTemplateArgsObjectParam_grows first s hc
          have h2 := InsertTemplateArgsObjectParamArray_length rest
            (InsertTemplateArgsObjectParam first s)
          omega
      rw [InsertTemplateArgsObjectParam_of_contains first s hc] at hlen
      rcases List.mem_cons.1 hd with h | h
      · cases h
        exact hc
      · exact ih s hlen decl h
    | .Declaration none =>
      rw [InsertTemplateArgsObjectParamArray] at hlen
      rcases List.mem_cons.1 hd with h | h
      · cases h
      · exact ih s hlen decl h
    | .Other =>
      rw [InsertTemplateArgsObjectParamArray] at hlen
      rcases List.mem_cons.1 hd with h | h
      · cases h
      · exact ih s hlen decl h

/-- C12, as amended. The static map `mSeenDecls` is kept from one render to the next: after a
first render of an argument list, from any contents of the map, a second render of the same
list with a fresh output buffer emits nothing and leaves the map as it is (so every later
render is like the second), and the first and the second render emit the same text exactly
when every template parameter object of the list was in the map before the first render, that
is, when the first render emitted no declaration. -/
theorem rerender_after_first (array : List TemplateArgument)
    (mSeenDecls : List (List Char × Bool)) :
    renderTemplateArgsObjects array (renderTemplateArgsObjects array mSeenDecls).mSeenDecls
      = { mSeenDecls := (renderTemplateArgsObjects array mSeenDecls).mSeenDecls
          mOutputFormatHelper := [] } ∧
    ((renderTemplateArgsObjects array mSeenDecls).mOutputFormatHelper
        = (renderTemplateArgsObjects array
            (renderTemplateArgsObjects array mSeenDecls).mSeenDecls).mOutputFormatHelper ↔
      ∀ decl, TemplateArgument.Declaration (some decl) ∈ array →
        SeenDecls.contains { mSeenDecls := mSeenDecls } decl.varName = true) := by
  have hsecond : renderTemplateArgsObjects array
      (renderTemplateArgsObjects array mSeenDecls).mSeenDecls
      = { mSeenDecls := (renderTemplateArgsObjects array mSeenDecls).mSeenDecls
          mOutputFormatHelper := [] } := by
    unfold renderTemplateArgsObjects
    apply InsertTemplateArgsObjectParamArray_of_contains
    intro decl hd
    have h := InsertTemplateArgsObjectParamArray_contains array { mSeenDecls := mSeenDecls }
      decl.varName
    have hany : (array.any fun arg =>
        match arg with
        | .Declaration (some d) => decide (d.varName = decl.varName)
        | _ => false) = true :=
      List.any_eq_true.2 ⟨_, hd, by simp⟩
    rw [hany, Bool.true_or] at h
    exact h
  refine ⟨hsecond, ?_⟩
  rw [hsecond]
  constructor
  · intro hout
    apply InsertTemplateArgsObjectParamArray_silent array { mSeenDecls := mSeenDecls }
    have : (renderTemplateArgsObjects array mSeenDecls).mOutputFormatHelper = [] := hout
    unfold renderTemplateArgsObjects at this
    rw [this]
  · intro hall
    unfold renderTemplateArgsObjects
    rw [InsertTemplateArgsObjectParamArray_of_contains array _ hall]

/-- C12, the claim as stated fails. The argument list of `X<A{1}>` is rendered twice, each
time with a fresh output buffer, the static map being empty before the first render: the
first render emits the declaration of the template parameter object, the second emits
nothing. -/
theorem rerender_counterexample :
    (renderTemplateArgsObjects Sample.objectArgument []).mOutputFormatHelper
      = "static constexpr A a\x7b1\x7d;\n".toList ∧
    (renderTemplateArgsObjects Sample.objectArgument
      (renderTemplateArgsObjects Sample.objectArgument []).mSeenDecls).mOutputFormatHelper
      = [] ∧
    (renderTemplateArgsObjects Sample.objectArgument []).mOutputFormatHelper
      ≠ (renderTemplateArgsObjects Sample.objectArgument
          (renderTemplateArgsObjects Sample.objectArgument
            []).mSeenDecls).mOutputFormatHelper := by
  decide

end StaticState

section PositionHandles

open CodeGenerator

/-! ## C13: position handles after the insertion of a backing array -/

/-- The overload with `UseShowInitializerList` on, past the early returns. -/
theorem InsertArgCXXStdInitializerListExpr_insert (ShowLifetime : Bool)
    (stmt : CXXStdInitializerListExpr) (g : PositionState)
    (hsub : ShowLifetime = false ∨ ∀ name size, stmt.subExpr ≠ .DeclRefExpr name size)
    (hset : (g.mCurrentVarDeclPos.isNone && g.mCurrentFieldPos.isNone
      && g.mCurrentReturnPos.isNone && g.mCurrentCallExprPos.isNone) = false) :
    InsertArgCXXStdInitializerListExpr true ShowLifetime stmt g
      = (let size :=
          match stmt.subExpr with
          | .MaterializedInitList numInits => numInits
          | _ => 0
        let use := initializerListUse stmt.typeName stmt.internalListName size
        if g.mCurrentVarDeclPos.isNone && g.mCurrentReturnPos.isNone
            && g.mCurrentCallExprPos.isNone then
          let variableInsertPos := g.mCurrentFieldPos.getD 0
          let ofm := backingArrayText "static inline ".toList stmt
          match g.mOutputFormatHelperOutside with
          | none => none
          | some outside =>
            match OutputFormatHelper.InsertAt outside variableInsertPos ofm with
            | none => none
            | some inserted =>
              some { g with
                mOutputFormatHelperOutside := some inserted
                mOutputFormatHelper := OutputFormatHelper.Append g.mOutputFormatHelper use
                mCurrentVarDeclPos := some (variableInsertPos + ofm.length) }
        else
          let variableInsertPos :=
            g.mCurrentReturnPos.getD (g.mCurrentVarDeclPos.getD (g.mCurrentCallExprPos.getD 0))
          let ofm := backingArrayText [] stmt
          match OutputFormatHelper.InsertAt g.mOutputFormatHelper variableInsertPos ofm with
          | none => none
          | some inserted =>
            let g := { g with mOutputFormatHelper := OutputFormatHelper.Append inserted use }
            match g.mCurrentReturnPos, g.mCurrentVarDeclPos, g.mCurrentCallExprPos with
            | some pos, _, _ => some { g with mCurrentReturnPos := some (pos + ofm.length) }
            | none, some pos, _ => some { g with mCurrentVarDeclPos := some (pos + ofm.length) }
            | none, none, some pos =>
              some { g with mCurrentCallExprPos := some (pos + ofm.length) }
            | none, none, none => none) := by
  unfold InsertArgCXXStdInitializerListExpr
  rw [if_pos rfl, hset]
  simp only [Bool.false_eq_true, if_false]
  rcases hsub with h | h
  · subst h
    cases stmt.subExpr <;> rfl
  · cases hs : stmt.subExpr with
    | DeclRefExpr name size => exact absurd hs (h name size)
    | MaterializedInitList n => cases ShowLifetime <;> rfl
    | Other => cases ShowLifetime <;> rfl

/-- C13, as amended. After `InsertArg(CXXStdInitializerListExpr)` has spliced the backing
array (of length `n`) at the chosen recorded position, exactly one handle is advanced by `n`:
`mCurrentReturnPos` if it is set, otherwise `mCurrentVarDeclPos` if it is set, otherwise
`mCurrentCallExprPos`; the other handles keep their values, whatever offsets they refer to.
When only `mCurrentFieldPos` is set, the array goes into the outer buffer at that position,
`mCurrentFieldPos` stays and `mCurrentVarDeclPos` becomes that position plus `n`. -/
theorem initializer_list_advances_one_handle (ShowLifetime : Bool)
    (stmt : CXXStdInitializerListExpr) (g : PositionState)
    (hsub : ShowLifetime = false ∨ ∀ name size, stmt.subExpr ≠ .DeclRefExpr name size) :
    (∀ pos, g.mCurrentReturnPos = some pos → pos ≤ g.mOutputFormatHelper.length →
      ∃ g', InsertArgCXXStdInitializerListExpr true ShowLifetime stmt g = some g' ∧
        g'.mCurrentReturnPos = some (pos + (backingArrayText [] stmt).length) ∧
        g'.mCurrentVarDeclPos = g.mCurrentVarDeclPos ∧
        g'.mCurrentCallExprPos = g.mCurrentCallExprPos ∧
        g'.mCurrentFieldPos = g.mCurrentFieldPos ∧
        (g'.mOutputFormatHelper.take (pos + (backingArrayText [] stmt).length)
          = g.mOutputFormatHelper.take pos ++ backingArrayText [] stmt)) ∧
    (∀ pos, g.mCurrentReturnPos = none → g.mCurrentVarDeclPos = some pos →
      pos ≤ g.mOutputFormatHelper.length →
      ∃ g', InsertArgCXXStdInitializerListExpr true ShowLifetime stmt g = some g' ∧
        g'.mCurrentVarDeclPos = some (pos + (backingArrayText [] stmt).length) ∧
        g'.mCurrentReturnPos = none ∧
        g'.mCurrentCallExprPos = g.mCurrentCallExprPos ∧
        g'.mCurrentFieldPos = g.mCurrentFieldPos ∧
        (g'.mOutputFormatHelper.take (pos + (backingArrayText [] stmt).length)
          = g.mOutputFormatHelper.take pos ++ backingArrayText [] stmt)) ∧
    (∀ pos, g.mCurrentReturnPos = none → g.mCurrentVarDeclPos = none →
      g.mCurrentCallExprPos = some pos → pos ≤ g.mOutputFormatHelper.length →
      ∃ g', InsertArgCXXStdInitializerListExpr true ShowLifetime stmt g = some g' ∧
        g'.mCurrentCallExprPos = some (pos + (backingArrayText [] stmt).length) ∧
        g'.mCurrentReturnPos = none ∧
        g'.mCurrentVarDeclPos = none ∧
        g'.mCurrentFieldPos = g.mCurrentFieldPos ∧
        (g'.mOutputFormatHelper.take (pos + (backingArrayText [] stmt).length)
          = g.mOutputFormatHelper.take pos ++ backingArrayText [] stmt)) ∧
    (∀ pos outside, g.mCurrentReturnPos = none → g.mCurrentVarDeclPos = none →
      g.mCurrentCallExprPos = none → g.mCurrentFieldPos = some pos →
      g.mOutputFormatHelperOutside = some outside → pos ≤ outside.length →
      ∃ g', InsertArgCXXStdInitializerListExpr true ShowLifetime stmt g = some g' ∧
        g'.mCurrentFieldPos = some pos ∧
        g'.mCurrentVarDeclPos
          = some (pos + (backingArrayText "static inline ".toList stmt).length) ∧
        g'.mCurrentReturnPos = none ∧
        g'.mCurrentCallExprPos = none ∧
        g'.mOutputFormatHelperOutside
          = some (outside.take pos ++ backingArrayText "static inline ".toList stmt
              ++ outside.drop pos)) := by
  refine ⟨?_, ?_, ?_, ?_⟩
  · intro pos hr hle
    rw [InsertArgCXXStdInitializerListExpr_insert ShowLifetime stmt g hsub (by simp [hr])]
    simp only [hr, Option.isNone_some, Bool.and_false, Bool.false_and, Bool.false_eq_true,
      if_false, Option.getD_some, OutputFormatHelper.InsertAt, hle, if_true]
    refine ⟨_, rfl, rfl, rfl, rfl, rfl, ?_⟩
    simp only [OutputFormatHelper.Append, List.append_assoc]
    rw [← List.append_assoc, List.take_append_of_le_length (by simp; omega)]
    rw [List.take_of_length_le (by simp)]
  · intro pos hr hv hle
    rw [InsertArgCXXStdInitializerListExpr_insert ShowLifetime stmt g hsub (by simp [hv])]
    simp only [hr, hv, Option.isNone_some, Option.isNone_none, Bool.and_false, Bool.false_and,
      Bool.false_eq_true, if_false, Option.getD_some, Option.getD_none,
      OutputFormatHelper.InsertAt, hle, if_true]
    refine ⟨_, rfl, rfl, rfl, rfl, rfl, ?_⟩
    simp only [OutputFormatHelper.Append, List.append_assoc]
    rw [← List.append_assoc, List.take_append_of_le_length (by simp; omega)]
    rw [List.take_of_length_le (by simp)]
  · intro pos hr hv hc hle
    rw [InsertArgCXXStdInitializerListExpr_insert ShowLifetime stmt g hsub (by simp [hc])]
    simp only [hr, hv, hc, Option.isNone_some, Option.isNone_none, Bool.and_false,
      Bool.false_and, Bool.false_eq_true, if_false, Option.getD_some, Option.getD_none,
      OutputFormatHelper.InsertAt, hle, if_true]
    refine ⟨_, rfl, rfl, rfl, rfl, rfl, ?_⟩
    simp only [OutputFormatHelper.Append, List.append_assoc]
    rw [← List.append_assoc, List.take_append_of_le_length (by simp; omega)]
    rw [List.take_of_length_le (by simp)]
  · intro pos outside hr hv hc hf ho hle
    rw [InsertArgCXXStdInitializerListExpr_insert ShowLifetime stmt g hsub (by simp [hf])]
    simp only [hr, hv, hc, hf, ho, Option.isNone_none, Bool.and_self, if_true,
      Option.getD_some, OutputFormatHelper.InsertAt, hle]
    exact ⟨_, rfl, rfl, rfl, rfl, rfl, rfl⟩

/-- C13, the claim as stated fails. Inside `auto v = f({1, 2})` the declaration was recorded
at offset 0 and the call expression at offset 9. The backing array (28 characters) is inserted
at offset 0, the position of the declaration; `mCurrentVarDeclPos` is advanced to 28, but
`mCurrentCallExprPos`, which refers to an offset behind the insertion point, still is 9. -/
theorem stale_handle_counterexample :
    (backingArrayText [] Sample.listArgument).length = 28 ∧
    ∃ g, InsertArgCXXStdInitializerListExpr true false Sample.listArgument
        Sample.insideCallInDecl = some g ∧
      g.mOutputFormatHelper
        = ("const int __list0[2]\x7b1, 2\x7d;\n" ++ "auto v = f("
            ++ "std::initializer_list<int>\x7b__list0, 2\x7d").toList ∧
      g.mCurrentVarDeclPos = some 28 ∧
      g.mCurrentCallExprPos = some 9 := by
  decide

theorem initializer_list_advances_one_handle_witness :
    Sample.insideCallInDecl.mCurrentReturnPos = none ∧
    Sample.insideCallInDecl.mCurrentVarDeclPos = some 0 ∧
    0 ≤ Sample.insideCallInDecl.mOutputFormatHelper.length ∧
    ∃ g', InsertArgCXXStdInitializerListExpr true false Sample.listArgument
        Sample.insideCallInDecl = some g' ∧
      g'.mCurrentVarDeclPos = some (0 + (backingArrayText [] Sample.listArgument).length) ∧
      g'.mCurrentReturnPos = none ∧
      g'.mCurrentCallExprPos = Sample.insideCallInDecl.mCurrentCallExprPos ∧
      g'.mCurrentFieldPos = Sample.insideCallInDecl.mCurrentFieldPos ∧
      (g'.mOutputFormatHelper.take (0 + (backingArrayText [] Sample.listArgument).length)
        = Sample.insideCallInDecl.mOutputFormatHelper.take 0
          ++ backingArrayText [] Sample.listArgument) :=
  ⟨rfl, rfl, by decide,
    (initializer_list_advances_one_handle false Sample.listArgument Sample.insideCallInDecl
      (Or.inl rfl)).2.1 0 rfl rfl (by decide)⟩

end PositionHandles

section ScopeHandlerDestructor

open LambdaScopeHandler

/-! ## C14: the destructor on an empty stack -/

/-- C14, as amended. Destroying a `LambdaScopeHandler` while the lambda stack is empty is not
reported: the destructor tests `not mStack.empty()`, skips `pop()` and `finish()`, and leaves
the buffers, the stack and the record of events as they are. -/
theorem destructor_skips_empty_stack (h : Heap) (hempty : h.mStack = []) :
    destruct h = some h := by
  simp [destruct, StackList.empty, hempty]

/-- C14, the claim as stated fails. On the heap with the output `x;` and an empty lambda
stack the destructor does not fail: it returns, with the output, the stack and the events
unchanged. -/
theorem pop_on_empty_stack_counterexample :
    Sample.emptyStack.mStack = [] ∧
    destruct Sample.emptyStack ≠ none ∧
    (destruct Sample.emptyStack).map (fun h => (h.outputs 0, h.mStack, h.events))
      = some (['x', ';'], [], []) :=
  ⟨rfl, by simp [destruct, StackList.empty, Sample.emptyStack], rfl⟩

theorem destructor_skips_empty_stack_witness :
    Sample.emptyStack.mStack = [] ∧ destruct Sample.emptyStack = some Sample.emptyStack :=
  ⟨rfl, destructor_skips_empty_stack Sample.emptyStack rfl⟩

end ScopeHandlerDestructor

section LoopRewrites

open CodeGenerator

/-! ## C15: range-based `for` -/

theorem StmtsContainer.Add_eq (stmts : StmtsContainer) (stmt : Ast) :
    stmts.Add stmt = stmts ++ Ast.nonNull [stmt] := by
  cases stmt <;> simp [StmtsContainer.Add, Ast.nonNull, Ast.isNull]

theorem StmtsContainer.AddBodyStmts_eq (stmts : StmtsContainer) (body : Ast) :
    stmts.AddBodyStmts body = stmts ++ Ast.bodyStatements body := by
  unfold StmtsContainer.AddBodyStmts Ast.bodyStatements
  split
  · rfl
  · rw [StmtsContainer.Add_eq]

/-- C15 (range-based `for` becomes a primitive loop). `InsertArg(CXXForRangeStmt)` renders
one compound statement, followed by a new line. The compound statement holds, in this order,
the init statement if there is one, the range statement, in C++17 mode and later the begin and
the end statement, and one `for` statement; the `for` statement has the condition and the
increment of the range-based `for`, its body is a compound statement made of the declaration
of the loop variable followed by the statements of the original body, and before C++17 its
init statement is the declaration of begin and end, while from C++17 on it has none. The
last part shows the tree for `for(auto x : v) { f(x); }` in C++17 mode. -/
theorem range_for_becomes_primitive_loop
    (InsertArg : Ast → OutputFormatHelper → OutputFormatHelper) (onlyCpp11 : Bool)
    (rangeForStmt : CXXForRangeStmt) (ofm : OutputFormatHelper) :
    InsertArgCXXForRangeStmt InsertArg onlyCpp11 rangeForStmt ofm
      = InsertArg (rangeForOuterScope onlyCpp11 rangeForStmt) ofm ++ ['\n'] ∧
    rangeForOuterScope onlyCpp11 rangeForStmt
      = Ast.node AstKind.CompoundStmt
          (Ast.nonNull [rangeForStmt.init] ++ Ast.nonNull [rangeForStmt.rangeStmt]
            ++ (if onlyCpp11 then []
                else Ast.nonNull [rangeForStmt.beginStmt] ++ Ast.nonNull [rangeForStmt.endStmt])
            ++ [Ast.node AstKind.ForStmt
                  [if onlyCpp11 then
                     Ast.node AstKind.DeclStmt [rangeForStmt.beginStmt, rangeForStmt.endStmt]
                   else Ast.null,
                   rangeForStmt.loopVariable, rangeForStmt.cond, rangeForStmt.inc,
                   Ast.node AstKind.CompoundStmt
                     (Ast.nonNull [rangeForStmt.loopVarStmt]
                       ++ Ast.bodyStatements rangeForStmt.body)]]) ∧
    rangeForOuterScope false Sample.rangeFor
      = Ast.node AstKind.CompoundStmt
          [Ast.node (AstKind.Other 1) [], Ast.node (AstKind.Other 2) [],
           Ast.node (AstKind.Other 3) [],
           Ast.node AstKind.ForStmt
             [Ast.null, Ast.node (AstKind.Other 6) [], Ast.node (AstKind.Other 4) [],
              Ast.node (AstKind.Other 5) [],
              Ast.node AstKind.CompoundStmt
                [Ast.node (AstKind.Other 7) [], Ast.node (AstKind.Other 8) []]]] := by
  refine ⟨rfl, ?_, rfl⟩
  unfold rangeForOuterScope
  simp only [StmtsContainer.Add_eq, StmtsContainer.AddBodyStmts_eq, Ast.mkCompoundStmt,
    Ast.mkForStmt, Ast.mkDeclStmt, List.nil_append]
  cases onlyCpp11 <;> simp [Ast.nonNull, Ast.isNull]

/-! ## C18: the alternative syntax of `for` -/

mutual
theorem VisitStmt_spec (label : Nat) :
    ∀ t : Ast,
      Ast.containsContinueStmt (ContinueASTTransformer.VisitStmt label t).1 = t.isContinueStmt ∧
      (ContinueASTTransformer.VisitStmt label t).2
        = (match t with
           | .null => false
           | .node _ children => Ast.anyContainsContinueStmt children)
  | .null => by
    simp [ContinueASTTransformer.VisitStmt, Ast.containsContinueStmt, Ast.isContinueStmt]
  | .node kind children => by
    obtain ⟨h1, h2⟩ := VisitChildren_spec label children
    rw [ContinueASTTransformer.VisitStmt]
    simp only [Ast.containsContinueStmt, h1, h2, Bool.or_false, and_true]
    cases kind <;> simp [Ast.isContinueStmt]
theorem VisitChildren_spec (label : Nat) :
    ∀ children : List Ast,
      Ast.anyContainsContinueStmt (ContinueASTTransformer.VisitChildren label children).1
        = false ∧
      (ContinueASTTransformer.VisitChildren label children).2
        = Ast.anyContainsContinueStmt children
  | [] => by
    simp [ContinueASTTransformer.VisitChildren, Ast.anyContainsContinueStmt]
  | .null :: rest => by
    obtain ⟨h1, h2⟩ := VisitChildren_spec label rest
    rw [ContinueASTTransformer.VisitChildren]
    · simp [ContinueASTTransformer.VisitStmt, Ast.anyContainsContinueStmt,
        Ast.containsContinueStmt, h1, h2]
    · intro c h
      cases h
  | .node kind grand :: rest => by
    obtain ⟨h1, h2⟩ := VisitChildren_spec label rest
    obtain ⟨h3, h4⟩ := VisitStmt_spec label (.node kind grand)
    by_cases hk : kind = AstKind.ContinueStmt
    · subst hk
      rw [ContinueASTTransformer.VisitChildren]
      simp [Ast.anyContainsContinueStmt, Ast.containsContinueStmt, Ast.Goto, h1]
    · have hroot : (Ast.node kind grand).isContinueStmt = false := by
        cases kind <;> first | rfl | exact absurd rfl hk
      rw [ContinueASTTransformer.VisitChildren]
      · rw [hroot] at h3
        have e : Ast.containsContinueStmt (Ast.node kind grand)
            = Ast.anyContainsContinueStmt grand := by
          simp [Ast.containsContinueStmt, hk]
        simp only [Ast.anyContainsContinueStmt, h1, h2, h3, h4, e, Bool.or_false, and_self]
      · intro c h
        cases h
        exact hk rfl
end

/-- C18, the code at the failing input. The visit of `ContinueASTTransformer` descends into
every child of every statement, loops included: after it no `ContinueStmt` is left below the
root of the body, whatever loop it belonged to, and `found` tells whether the body held one.
For `for(; ; i++) { while(c) { continue; } }` the `continue` of the inner `while` loop
becomes `goto` to the label of the `for` loop, and the label is put before the increment. -/
theorem nested_continue_is_replaced :
    (∀ (body : Ast) (continueLabel : Nat),
      Ast.containsContinueStmt (ContinueASTTransformer.construct body continueLabel).1
        = body.isContinueStmt ∧
      (ContinueASTTransformer.construct body continueLabel).2
        = Ast.containsContinueStmt body) ∧
    altForOuterScope Sample.forWithNestedContinue
      = Ast.node AstKind.CompoundStmt
          [Ast.node AstKind.WhileStmt
            [Ast.null, Ast.node (AstKind.CXXBoolLiteralExpr true) [],
             Ast.node AstKind.CompoundStmt
               [Ast.node AstKind.WhileStmt
                  [Ast.null, Ast.node (AstKind.Other 1) [],
                   Ast.node AstKind.CompoundStmt [Ast.node (AstKind.GotoStmt 7) []]],
                Ast.node (AstKind.LabelStmt 7) [],
                Ast.node (AstKind.Other 2) []]]] := by
  refine ⟨?_, rfl⟩
  intro body continueLabel
  cases body with
  | null =>
    simp [ContinueASTTransformer.construct, ContinueASTTransformer.VisitStmt,
      Ast.containsContinueStmt, Ast.isContinueStmt]
  | node kind children =>
    obtain ⟨h1, h2⟩ := VisitStmt_spec continueLabel (.node kind children)
    by_cases hk : kind = AstKind.ContinueStmt
    · subst hk
      simp [ContinueASTTransformer.construct, Ast.containsContinueStmt, Ast.isContinueStmt]
    · have hc : ContinueASTTransformer.construct (Ast.node kind children) continueLabel
          = ContinueASTTransformer.VisitStmt continueLabel (Ast.node kind children) := by
        cases kind <;> first | rfl | exact absurd rfl hk
      rw [hc, h1, h2]
      simp [Ast.containsContinueStmt, hk]

end LoopRewrites

section ImplicitReturn

open CodeGenerator

/-! ## C16: the implicit `return 0` -/

theorem Eqv.of_unset {a : CodeGenerator} (h : a.mRequiresImplicitReturnZero = false) :
    Eqv a a := ⟨rfl, h⟩

theorem Eqv.map {a b : CodeGenerator} (f : CodeGenerator → CodeGenerator)
    (hf : ∀ g, (f g).mRequiresImplicitReturnZero = g.mRequiresImplicitReturnZero)
    (h : Eqv a b) : Eqv (f a) (f b) := by
  obtain ⟨rfl, hu⟩ := h
  exact ⟨rfl, (hf a).trans hu⟩

theorem Eqv.append {a b : CodeGenerator} (tokens : List Token) (h : Eqv a b) :
    Eqv (a.Append tokens) (b.Append tokens) := h.map (fun g => g.Append tokens) fun _ => rfl

theorem Eqv.appendWhen {a b : CodeGenerator} (c : Bool) (tokens : List Token) (h : Eqv a b) :
    Eqv (if c then a.Append tokens else a) (if c then b.Append tokens else b) := by
  cases c
  · exact h
  · exact h.append tokens

theorem Eqv.appendWhenState {a b : CodeGenerator} (c : CodeGenerator → Bool)
    (tokens : List Token) (h : Eqv a b) :
    Eqv (if c a then a.Append tokens else a) (if c b then b.Append tokens else b) := by
  obtain ⟨rfl, hu⟩ := h
  exact Eqv.appendWhen (c a) tokens ⟨rfl, hu⟩

theorem Eqv.iteB {a b x y : CodeGenerator} (c : Bool) (h1 : Eqv a b) (h2 : Eqv x y) :
    Eqv (if c then a else x) (if c then b else y) := by
  cases c
  · exact h2
  · exact h1

theorem Visit_keeps (found : List Temporary) :
    ∀ (finder : TemporaryDeclFinder) (g : CodeGenerator),
      (TemporaryDeclFinder.Visit found finder g).2.mRequiresImplicitReturnZero
        = g.mRequiresImplicitReturnZero := by
  induction found with
  | nil => intro finder g; rfl
  | cons t rest ih =>
    intro finder g
    cases t with
    | CXXTemporaryObjectExpr vd =>
      simp only [TemporaryDeclFinder.Visit]
      exact ih _ g
    | MaterializeTemporaryExpr sd ext vd =>
      simp only [TemporaryDeclFinder.Visit]
      split
      · exact ih _ g
      · split
        · exact (ih _ _).trans rfl
        · cases ext with
          | none => exact ih _ g
          | some e => exact (ih _ _).trans rfl

theorem destruct_keeps (finder : TemporaryDeclFinder) (g : CodeGenerator) :
    (finder.destruct g).mRequiresImplicitReturnZero = g.mRequiresImplicitReturnZero := by
  unfold TemporaryDeclFinder.destruct
  split <;> rfl

theorem construct_agree (o : InsightsOptions) (notNull : Bool) (found : List Temporary)
    (ins ins' : CodeGenerator → CodeGenerator) (hins : Agree ins ins') :
    FinderAgree (TemporaryDeclFinder.construct o notNull found ins)
      (TemporaryDeclFinder.construct o notNull found ins') := by
  intro a b h
  obtain ⟨rfl, hu⟩ := h
  unfold TemporaryDeclFinder.construct
  cases (o.ShowLifetime && notNull)
  · exact ⟨rfl, rfl, hu⟩
  · exact ⟨rfl, hins _ _ ⟨rfl, (Visit_keeps found {} a).trans hu⟩⟩

theorem construct_agree_state (o : InsightsOptions) (found : List Temporary)
    (ins ins' : CodeGenerator → CodeGenerator) (hins : Agree ins ins') :
    FinderAgree
      (fun g => TemporaryDeclFinder.construct o (! g.mProcessingVarDecl) found ins g)
      (fun g => TemporaryDeclFinder.construct o (! g.mProcessingVarDecl) found ins' g) := by
  intro a b h
  obtain ⟨rfl, hu⟩ := h
  exact construct_agree o (! a.mProcessingVarDecl) found ins ins' hins a a ⟨rfl, hu⟩

theorem WrapInCompoundIfNeeded_agree (stmt : Stmt) (r r' : CodeGenerator → CodeGenerator)
    (hr : Agree r r') :
    Agree (WrapInCompoundIfNeeded stmt r) (WrapInCompoundIfNeeded stmt r') := by
  intro a b h
  have h1 := h.appendWhen (! stmt.isCompoundStmt) [Token.OpenScope]
  have h2 := Eqv.iteB (! stmt.isNullStmt)
    ((hr _ _ h1).appendWhen (! stmt.isIfStmt && ! stmt.isCompoundStmt && ! stmt.isNullStmt)
      [Token.SemiNewLine]) h1
  exact ((h2.appendWhen (! stmt.isCompoundStmt) [Token.CloseScope]).append [Token.Space])

theorem InsertArgReturnStmt_agree (stmt : Stmt)
    (c c' : CodeGenerator → TemporaryDeclFinder × CodeGenerator)
    (rv rv' : Option (CodeGenerator → CodeGenerator)) (NRVOCandidate : Option Nat)
    (hc : FinderAgree c c') (hrv : OptAgree rv rv') :
    Agree (InsertArgReturnStmt stmt c rv NRVOCandidate)
      (InsertArgReturnStmt stmt c' rv' NRVOCandidate) := by
  intro a b h
  obtain ⟨hfind, hst⟩ := hc a b h
  unfold InsertArgReturnStmt
  simp only []
  generalize c a = fg at hfind hst ⊢
  generalize c' b = fg' at hfind hst ⊢
  obtain ⟨f1, s1⟩ := fg
  obtain ⟨f2, s2⟩ := fg'
  simp only at hfind hst
  subst hfind
  have h1 := hst.append [Token.kwReturn]
  have h2 : ∀ (x x' : Option (CodeGenerator → CodeGenerator)), OptAgree x x' → Eqv
      (match x with
        | none => s1.Append [Token.kwReturn]
        | some render =>
          if ! f1.mFound then
            match NRVOCandidate with
            | some nrvoVD =>
              ((s1.Append [Token.kwReturn]).Append [Token.Space]).Append [Token.Name nrvoVD]
            | none => render ((s1.Append [Token.kwReturn]).Append [Token.Space])
          else
            match f1.mTempName with
            | some name =>
              ((s1.Append [Token.kwReturn]).Append [Token.Space]).Append [Token.Name name]
            | none => (s1.Append [Token.kwReturn]).Append [Token.Space])
      (match x' with
        | none => s2.Append [Token.kwReturn]
        | some render =>
          if ! f1.mFound then
            match NRVOCandidate with
            | some nrvoVD =>
              ((s2.Append [Token.kwReturn]).Append [Token.Space]).Append [Token.Name nrvoVD]
            | none => render ((s2.Append [Token.kwReturn]).Append [Token.Space])
          else
            match f1.mTempName with
            | some name =>
              ((s2.Append [Token.kwReturn]).Append [Token.Space]).Append [Token.Name name]
            | none => (s2.Append [Token.kwReturn]).Append [Token.Space]) := by
    intro x x' hx
    cases x with
    | none =>
      cases x' with
      | none => exact h1
      | some r' => exact absurd hx (by simp [OptAgree])
    | some r =>
      cases x' with
      | none => exact absurd hx (by simp [OptAgree])
      | some r' =>
        have hr : Agree r r' := hx
        simp only []
        cases f1.mFound
        · cases NRVOCandidate with
          | some nrvoVD => exact (h1.append _).append _
          | none => exact hr _ _ (h1.append _)
        · cases f1.mTempName with
          | some name => exact (h1.append _).append _
          | none => exact h1.append _
  exact (h2 rv rv' hrv).map
    (fun g =>
      { (f1.destruct g).trackerReturn.1 with
        mSkipSemi := (f1.destruct g).trackerReturn.2, mLastStmt := some stmt })
    (fun g => destruct_keeps f1 g)

theorem InsertArgCompoundStmt_agree (h h' : CodeGenerator → CodeGenerator)
    (hh : Agree h h') : Agree (InsertArgCompoundStmt h) (InsertArgCompoundStmtPlain h') := by
  intro a b hab
  obtain ⟨rfl, hu⟩ := hab
  have hreq : ((a.Append [Token.OpenScope]).trackerStartScope
      ((a.Append [Token.OpenScope]).mLastDecl
        == some DeclClass.FunctionDecl)).mRequiresImplicitReturnZero = false := hu
  have hb := hh
    { (a.Append [Token.OpenScope]).trackerStartScope
        ((a.Append [Token.OpenScope]).mLastDecl == some DeclClass.FunctionDecl) with
      mRequiresImplicitReturnZero := false } _ ⟨rfl, rfl⟩
  unfold InsertArgCompoundStmt InsertArgCompoundStmtPlain
  simp only [hreq, Bool.false_eq_true, if_false]
  exact hb.map
    (fun g =>
      { (g.trackerEndScope
          (match g.mLastStmt with
           | some last => last.isReturnStmt
           | none => false)).1 with
        mSkipSemi := (g.trackerEndScope
          (match g.mLastStmt with
           | some last => last.isReturnStmt
           | none => false)).2 }.Append [Token.CloseScope])
    (fun _ => rfl)

theorem InsertArgExprWithCleanups_agree (o : InsightsOptions)
    (c c' : CodeGenerator → TemporaryDeclFinder × CodeGenerator)
    (sub sub' : CodeGenerator → CodeGenerator) (hc : FinderAgree c c') (hsub : Agree sub sub') :
    Agree (InsertArgExprWithCleanups o c sub) (InsertArgExprWithCleanups o c' sub') := by
  intro a b h
  have h1 := h.map (fun g => g.trackerStartScope false) (fun _ => rfl)
  obtain ⟨hfind, hst⟩ := hc _ _ h1
  unfold InsertArgExprWithCleanups
  simp only []
  generalize c (a.trackerStartScope false) = fg at hfind hst ⊢
  generalize c' (b.trackerStartScope false) = fg' at hfind hst ⊢
  obtain ⟨f1, s1⟩ := fg
  obtain ⟨f2, s2⟩ := fg'
  simp only at hfind hst
  subst hfind
  have h3 := (hsub _ _ hst).appendWhenState
    (fun g => o.ShowLifetime && ! g.mProcessingVarDecl) [Token.SemiNewLine]
  exact h3.map
    (fun g =>
      f1.destruct { (g.trackerEndScope false).1 with mSkipSemi := (g.trackerEndScope false).2 })
    (fun g => destruct_keeps f1 _)

theorem InsertArgVarDecl_agree (decl : VarDecl)
    (c c' : CodeGenerator → TemporaryDeclFinder × CodeGenerator)
    (init init' : Option (CodeGenerator → CodeGenerator)) (hc : FinderAgree c c')
    (hinit : OptAgree init init') :
    Agree (InsertArgVarDecl decl c init) (InsertArgVarDecl decl c' init') := by
  intro a b h
  have h1 := h.map (fun g => g.trackerAdd decl) (fun _ => rfl)
  obtain ⟨hfind, hst⟩ := hc _ _ h1
  unfold InsertArgVarDecl
  simp only []
  generalize c (a.trackerAdd decl) = fg at hfind hst ⊢
  generalize c' (b.trackerAdd decl) = fg' at hfind hst ⊢
  obtain ⟨f1, s1⟩ := fg
  obtain ⟨f2, s2⟩ := fg'
  simp only at hfind hst
  subst hfind
  have h2 := hst.append [Token.Declaration decl.name]
  have h3 : ∀ (x x' : Option (CodeGenerator → CodeGenerator)), OptAgree x x' → Eqv
      (match x with
        | none => s1.Append [Token.Declaration decl.name]
        | some render =>
          { render ({ s1.Append [Token.Declaration decl.name] with
                      mProcessingVarDecl := true }.Append [Token.hlpAssing]) with
            mProcessingVarDecl := false })
      (match x' with
        | none => s2.Append [Token.Declaration decl.name]
        | some render =>
          { render ({ s2.Append [Token.Declaration decl.name] with
                      mProcessingVarDecl := true }.Append [Token.hlpAssing]) with
            mProcessingVarDecl := false }) := by
    intro x x' hx
    cases x with
    | none =>
      cases x' with
      | none => exact h2
      | some r' => exact absurd hx (by simp [OptAgree])
    | some r =>
      cases x' with
      | none => exact absurd hx (by simp [OptAgree])
      | some r' =>
        have hr : Agree r r' := hx
        have h4 := h2.map
          (fun g => { g with mProcessingVarDecl := true }.Append [Token.hlpAssing])
          (fun _ => rfl)
        exact (hr _ _ h4).map (fun g => { g with mProcessingVarDecl := false }) (fun _ => rfl)
  exact ((h3 init init' hinit).append [Token.SemiNewLine]).map (fun g => f1.destruct g)
    (fun g => destruct_keeps f1 g)

theorem InsertArgIfStmt_agree (cv cv' : Option (CodeGenerator → CodeGenerator))
    (init init' : Option (Stmt × (CodeGenerator → CodeGenerator)))
    (cond cond' : CodeGenerator → CodeGenerator)
    (thenStmt thenStmt' : Stmt × (CodeGenerator → CodeGenerator))
    (elseStmt elseStmt' : Option (Stmt × (CodeGenerator → CodeGenerator)))
    (hcv : OptAgree cv cv') (hinit : OptAgreeStmt init init') (hcond : Agree cond cond')
    (hthen : thenStmt.1 = thenStmt'.1 ∧ Agree thenStmt.2 thenStmt'.2)
    (helse : OptAgreeStmt elseStmt elseStmt') :
    Agree (InsertArgIfStmt cv init cond thenStmt elseStmt)
      (InsertArgIfStmt cv' init' cond' thenStmt' elseStmt') := by
  intro a b h
  have hsome : (init.isSome || cv.isSome) = (init'.isSome || cv'.isSome) := by
    cases cv <;> cases cv' <;> cases init <;> cases init' <;>
      simp_all [OptAgree, OptAgreeStmt]
  have h1 := h.appendWhen (init.isSome || cv.isSome) [Token.OpenScope]
  have h2 : ∀ (x x' : Option (CodeGenerator → CodeGenerator)), OptAgree x x' →
      ∀ u v, Eqv u v → Eqv
      (match x with
        | none => u
        | some render => render u)
      (match x' with
        | none => v
        | some render => render v) := by
    intro x x' hx u v huv
    cases x with
    | none =>
      cases x' with
      | none => exact huv
      | some r' => exact absurd hx (by simp [OptAgree])
    | some r =>
      cases x' with
      | none => exact absurd hx (by simp [OptAgree])
      | some r' => exact hx _ _ huv
  have h3 : ∀ (x x' : Option (Stmt × (CodeGenerator → CodeGenerator))), OptAgreeStmt x x' →
      ∀ u v, Eqv u v → Eqv
      (match x with
        | none => u
        | some i => if ! i.1.isDeclStmt then (i.2 u).Append [Token.SemiNewLine] else i.2 u)
      (match x' with
        | none => v
        | some i => if ! i.1.isDeclStmt then (i.2 v).Append [Token.SemiNewLine] else i.2 v) := by
    intro x x' hx u v huv
    cases x with
    | none =>
      cases x' with
      | none => exact huv
      | some r' => exact absurd hx (by simp [OptAgreeStmt])
    | some r =>
      cases x' with
      | none => exact absurd hx (by simp [OptAgreeStmt])
      | some r' =>
        obtain ⟨e, hr⟩ : r.1 = r'.1 ∧ Agree r.2 r'.2 := hx
        simp only [← e]
        exact (hr _ _ huv).appendWhen _ _
  have h4 : ∀ (x x' : Option (Stmt × (CodeGenerator → CodeGenerator))), OptAgreeStmt x x' →
      ∀ u v, Eqv u v → Eqv
      (match x with
        | none => u
        | some elsePart =>
          WrapInCompoundIfNeeded elsePart.1 elsePart.2 (u.Append [Token.kwElse]))
      (match x' with
        | none => v
        | some elsePart =>
          WrapInCompoundIfNeeded elsePart.1 elsePart.2 (v.Append [Token.kwElse])) := by
    intro x x' hx u v huv
    cases x with
    | none =>
      cases x' with
      | none => exact huv
      | some r' => exact absurd hx (by simp [OptAgreeStmt])
    | some r =>
      cases x' with
      | none => exact absurd hx (by simp [OptAgreeStmt])
      | some r' =>
        obtain ⟨e, hr⟩ : r.1 = r'.1 ∧ Agree r.2 r'.2 := hx
        simp only [← e]
        exact WrapInCompoundIfNeeded_agree r.1 r.2 r'.2 hr _ _ (huv.append _)
  have h5 := h3 init init' hinit _ _ (h2 cv cv' hcv _ _ h1)
  have h6 := hcond _ _ (h5.append [Token.kwIf])
  have h7 := WrapInCompoundIfNeeded_agree thenStmt.1 thenStmt.2 thenStmt'.2 hthen.2 _ _ h6
  have h8 := (h4 elseStmt elseStmt' helse _ _ h7).append [Token.NewLine]
  have h9 := (h8.appendWhen (init.isSome || cv.isSome) [Token.CloseScope, Token.NewLine]).append
    [Token.NewLine]
  unfold InsertArgIfStmt
  simp only [← hsome, ← hthen.1]
  exact h9

theorem InsertArgPlain_ReturnStmt_eq (o : InsightsOptions) (retValue : Option Stmt)
    (NRVOCandidate : Option Nat) (found : List Temporary) (g : CodeGenerator) :
    InsertArgPlain o (Stmt.ReturnStmt retValue NRVOCandidate found) g
      = InsertArgReturnStmt (Stmt.ReturnStmt retValue NRVOCandidate found)
          (TemporaryDeclFinder.construct o retValue.isSome found (InsertFoundPlain o found false))
          (retValue.map (InsertArgPlain o)) NRVOCandidate
          { g with mLastStmt := some (Stmt.ReturnStmt retValue NRVOCandidate found) } := by
  cases retValue <;> rw [InsertArgPlain] <;> rfl

theorem InsertArgPlain_IfStmt_eq (o : InsightsOptions) (conditionVariable : Option VarDecl)
    (init : Option Stmt) (cond thenStmt : Stmt) (elseStmt : Option Stmt) (g : CodeGenerator) :
    InsertArgPlain o (Stmt.IfStmt conditionVariable init cond thenStmt elseStmt) g
      = InsertArgIfStmt (conditionVariable.map (InsertArgDeclPlain o))
          (init.map fun i => (i, InsertArgPlain o i)) (InsertArgPlain o cond)
          (thenStmt, InsertArgPlain o thenStmt)
          (elseStmt.map fun elsePart => (elsePart, InsertArgPlain o elsePart))
          { g with
            mLastStmt := some (Stmt.IfStmt conditionVariable init cond thenStmt elseStmt) } := by
  cases conditionVariable <;> cases init <;> cases elseStmt <;> rw [InsertArgPlain] <;> rfl

theorem InsertArgDeclPlain_eq (o : InsightsOptions) (name : Nat) (needsDestruction : Bool)
    (init : Option Stmt) (found : List Temporary) (g : CodeGenerator) :
    InsertArgDeclPlain o (VarDecl.mk name needsDestruction init found) g
      = InsertArgVarDecl (VarDecl.mk name needsDestruction init found)
          (TemporaryDeclFinder.construct o init.isSome found (InsertFoundPlain o found false))
          (init.map (InsertArgPlain o)) g := by
  cases init <;> rw [InsertArgDeclPlain] <;> rfl

mutual
theorem InsertArg_agree (o : InsightsOptions) :
    ∀ (stmt : Stmt) (a b : CodeGenerator), Eqv a b →
      Eqv (InsertArg o stmt a) (InsertArgPlain o stmt b)
  | .NullStmt, a, b, h => by
    rw [InsertArg, InsertArgPlain]
    exact h.map (fun g => InsertArgNullStmt { g with mLastStmt := some Stmt.NullStmt })
      (fun _ => rfl)
  | .IntegerLiteral value, a, b, h => by
    rw [InsertArg, InsertArgPlain]
    exact h.map
      (fun g =>
        { g with mLastStmt := some (Stmt.IntegerLiteral value) }.Append [Token.Literal value])
      (fun _ => rfl)
  | .DeclRefExpr decl, a, b, h => by
    rw [InsertArg, InsertArgPlain]
    exact h.map
      (fun g => { g with mLastStmt := some (Stmt.DeclRefExpr decl) }.Append [Token.Name decl])
      (fun _ => rfl)
  | .Expr children, a, b, h => by
    rw [InsertArg, InsertArgPlain]
    exact InsertArgs_agree o children _ _
      (h.map (fun g => { g with mLastStmt := some (Stmt.Expr children) }) (fun _ => rfl))
  | .CompoundStmt body, a, b, h => by
    rw [InsertArg, InsertArgPlain]
    exact InsertArgCompoundStmt_agree _ _
      (fun x y hxy => HandleCompoundStmt_agree o body x y hxy) _ _
      (h.map (fun g => { g with mLastStmt := some (Stmt.CompoundStmt body) }) (fun _ => rfl))
  | .DeclStmt decls, a, b, h => by
    rw [InsertArg, InsertArgPlain]
    exact InsertDecls_agree o decls _ _
      (h.map (fun g => { g with mLastStmt := some (Stmt.DeclStmt decls) }) (fun _ => rfl))
  | .ReturnStmt retValue NRVOCandidate found, a, b, h => by
    rw [InsertArg_ReturnStmt_eq, InsertArgPlain_ReturnStmt_eq]
    refine InsertArgReturnStmt_agree _ _ _ _ _ _ ?_ ?_ _ _
      (h.map
        (fun g => { g with mLastStmt := some (Stmt.ReturnStmt retValue NRVOCandidate found) })
        (fun _ => rfl))
    · exact construct_agree o _ found _ _
        (fun x y hxy => InsertFound_agree o found false x y hxy)
    · cases retValue with
      | none => exact trivial
      | some value => exact fun x y hxy => InsertArg_agree o value x y hxy
  | .IfStmt conditionVariable init cond thenStmt elseStmt, a, b, h => by
    rw [InsertArg_IfStmt_eq, InsertArgPlain_IfStmt_eq]
    refine InsertArgIfStmt_agree _ _ _ _ _ _ _ _ _ _ ?_ ?_ ?_ ?_ ?_ _ _
      (h.map
        (fun g =>
          { g with
            mLastStmt := some (Stmt.IfStmt conditionVariable init cond thenStmt elseStmt) })
        (fun _ => rfl))
    · cases conditionVariable with
      | none => exact trivial
      | some vd => exact fun x y hxy => InsertArgDecl_agree o vd x y hxy
    · cases init with
      | none => exact trivial
      | some i => exact ⟨rfl, fun x y hxy => InsertArg_agree o i x y hxy⟩
    · exact fun x y hxy => InsertArg_agree o cond x y hxy
    · exact ⟨rfl, fun x y hxy => InsertArg_agree o thenStmt x y hxy⟩
    · cases elseStmt with
      | none => exact trivial
      | some e => exact ⟨rfl, fun x y hxy => InsertArg_agree o e x y hxy⟩
  | .ExprWithCleanups subExpr found, a, b, h => by
    rw [InsertArg, InsertArgPlain]
    refine InsertArgExprWithCleanups_agree o _ _ _ _ ?_ ?_ _ _
      (h.map (fun g => { g with mLastStmt := some (Stmt.ExprWithCleanups subExpr found) })
        (fun _ => rfl))
    · exact construct_agree_state o found _ _
        (fun x y hxy => InsertFound_agree o found false x y hxy)
    · exact fun x y hxy => InsertArg_agree o subExpr x y hxy
  | .MaterializeTemporaryExpr subExpr, a, b, h => by
    rw [InsertArg, InsertArgPlain]
    exact InsertArg_agree o subExpr _ _
      (h.map (fun g => { g with mLastStmt := some (Stmt.MaterializeTemporaryExpr subExpr) })
        (fun _ => rfl))
theorem InsertArgs_agree (o : InsightsOptions) :
    ∀ (children : List Stmt) (a b : CodeGenerator), Eqv a b →
      Eqv (InsertArgs o children a) (InsertArgsPlain o children b)
  | [], a, b, h => by
    rw [InsertArgs, InsertArgsPlain]
    exact h
  | child :: rest, a, b, h => by
    rw [InsertArgs, InsertArgsPlain]
    exact InsertArgs_agree o rest _ _ (InsertArg_agree o child a b h)
theorem HandleCompoundStmt_agree (o : InsightsOptions) :
    ∀ (body : List Stmt) (a b : CodeGenerator), Eqv a b →
      Eqv (HandleCompoundStmt o body a) (HandleCompoundStmtPlain o body b)
  | [], a, b, h => by
    rw [HandleCompoundStmt, HandleCompoundStmtPlain]
    exact h
  | item :: rest, a, b, h => by
    rw [HandleCompoundStmt, HandleCompoundStmtPlain]
    refine HandleCompoundStmt_agree o rest _ _ ?_
    have h1 := (InsertArg_agree o item a b h).appendWhenState
      (fun g => IsStmtRequiringSemi item && ! g.mSkipSemi) [Token.SemiNewLine]
    exact h1.map (fun g => { g with mSkipSemi := false }) (fun _ => rfl)
theorem InsertDecls_agree (o : InsightsOptions) :
    ∀ (decls : List VarDecl) (a b : CodeGenerator), Eqv a b →
      Eqv (InsertDecls o decls a) (InsertDeclsPlain o decls b)
  | [], a, b, h => by
    rw [InsertDecls, InsertDeclsPlain]
    exact h
  | decl :: rest, a, b, h => by
    rw [InsertDecls, InsertDeclsPlain]
    exact InsertDecls_agree o rest _ _
      (InsertArgDecl_agree o decl _ _
        (h.map (fun g => { g with mLastDecl := some DeclClass.VarDecl }) (fun _ => rfl)))
theorem InsertArgDecl_agree (o : InsightsOptions) :
    ∀ (decl : VarDecl) (a b : CodeGenerator), Eqv a b →
      Eqv (InsertArgDecl o decl a) (InsertArgDeclPlain o decl b)
  | .mk name needsDestruction init found, a, b, h => by
    rw [InsertArgDecl_eq, InsertArgDeclPlain_eq]
    refine InsertArgVarDecl_agree _ _ _ _ _ ?_ ?_ _ _ h
    · exact construct_agree o _ found _ _
        (fun x y hxy => InsertFound_agree o found false x y hxy)
    · cases init with
      | none => exact trivial
      | some value => exact fun x y hxy => InsertArg_agree o value x y hxy
theorem InsertFound_agree (o : InsightsOptions) :
    ∀ (found : List Temporary) (mFound : Bool) (a b : CodeGenerator), Eqv a b →
      Eqv (InsertFound o found mFound a) (InsertFoundPlain o found mFound b)
  | [], _, a, b, h => by
    rw [InsertFound, InsertFoundPlain]
    exact h
  | .CXXTemporaryObjectExpr vd :: rest, _, a, b, h => by
    rw [InsertFound, InsertFoundPlain]
    exact InsertFound_agree o rest true _ _ (InsertArgDecl_agree o vd a b h)
  | .MaterializeTemporaryExpr _ _ vd :: rest, mFound, a, b, h => by
    rw [InsertFound, InsertFoundPlain]
    cases mFound
    · exact InsertFound_agree o rest false _ _ (InsertArgDecl_agree o vd a b h)
    · exact InsertFound_agree o rest true _ _ h
end

theorem foldl_trackerAdd_keeps (parameters : List VarDecl) :
    ∀ g : CodeGenerator,
      (parameters.foldl (fun g param => g.trackerAdd param) g).mRequiresImplicitReturnZero
        = g.mRequiresImplicitReturnZero := by
  induction parameters with
  | nil => intro g; rfl
  | cons p rest ih => intro g; exact (ih _).trans rfl

theorem foldl_trackerAdd_flag (parameters : List VarDecl) (b : Bool) :
    ∀ g : CodeGenerator,
      parameters.foldl (fun g param => g.trackerAdd param)
          { g with mRequiresImplicitReturnZero := b }
        = { parameters.foldl (fun g param => g.trackerAdd param) g with
            mRequiresImplicitReturnZero := b } := by
  induction parameters with
  | nil => intro g; rfl
  | cons p rest ih => intro g; exact ih (g.trackerAdd p)

theorem addParameters_keeps (o : InsightsOptions) (parameters : List VarDecl)
    (g : CodeGenerator) :
    (addParameters o parameters g).mRequiresImplicitReturnZero
      = g.mRequiresImplicitReturnZero := by
  unfold addParameters
  split
  · exact foldl_trackerAdd_keeps parameters g
  · rfl

theorem InsertMethodBody_eq (o : InsightsOptions) (hasImplicitReturnZero : Bool)
    (parameters : List VarDecl) (body : List Stmt) (g : CodeGenerator) :
    InsertMethodBody o hasImplicitReturnZero parameters body g
      = InsertArgCompoundStmt (HandleCompoundStmt o body)
          { addParameters o parameters
              (if hasImplicitReturnZero then
                { g with mRequiresImplicitReturnZero := ! body.any fun e => e.isReturnStmt }
               else g) with
            mLastStmt := some (Stmt.CompoundStmt body) } := by
  unfold InsertMethodBody addParameters
  simp only []
  rw [InsertArg]

theorem InsertArgCompoundStmt_output_of_required (h : CodeGenerator → CodeGenerator)
    (g : CodeGenerator) (hreq : g.mRequiresImplicitReturnZero = true) :
    (InsertArgCompoundStmt h g).mOutputFormatHelper
      = (h { (g.Append [Token.OpenScope]).trackerStartScope
              ((g.Append [Token.OpenScope]).mLastDecl == some DeclClass.FunctionDecl) with
            mRequiresImplicitReturnZero := false }).mOutputFormatHelper
        ++ [Token.kwReturn, Token.Space, Token.Literal 0]
        ++ (h { (g.Append [Token.OpenScope]).trackerStartScope
              ((g.Append [Token.OpenScope]).mLastDecl == some DeclClass.FunctionDecl) with
            mRequiresImplicitReturnZero := false }).mLifeTimeTracker.Return.map Token.DtorCall
        ++ (if (h { (g.Append [Token.OpenScope]).trackerStartScope
              ((g.Append [Token.OpenScope]).mLastDecl == some DeclClass.FunctionDecl) with
            mRequiresImplicitReturnZero := false }).mLifeTimeTracker.Return.isEmpty
            then [Token.SemiNewLine] else [])
        ++ [Token.CloseScope] := by
  have hreq' : ((g.Append [Token.OpenScope]).trackerStartScope
      ((g.Append [Token.OpenScope]).mLastDecl
        == some DeclClass.FunctionDecl)).mRequiresImplicitReturnZero = true := hreq
  unfold InsertArgCompoundStmt
  simp only [hreq', if_true]
  generalize h { (g.Append [Token.OpenScope]).trackerStartScope
      ((g.Append [Token.OpenScope]).mLastDecl == some DeclClass.FunctionDecl) with
      mRequiresImplicitReturnZero := false } = gb
  cases hr : gb.mLifeTimeTracker.Return with
  | nil =>
    simp [InsertArgReturnStmt, TemporaryDeclFinder.destruct, trackerReturn, trackerEndScope,
      CodeGenerator.Append, InsertArgNullStmt, Stmt.isReturnStmt, LifetimeTracker.EndScope, hr]
  | cons d ds =>
    simp [InsertArgReturnStmt, TemporaryDeclFinder.destruct, trackerReturn, trackerEndScope,
      CodeGenerator.Append, InsertArgNullStmt, Stmt.isReturnStmt, LifetimeTracker.EndScope, hr]

/-- C16 (the implicit `return 0` is inserted exactly once). First, whatever statement is
rendered from a state in which `mRequiresImplicitReturnZero` is not set, and this is the state
in which the statements of every body are rendered, the result is that of the renderer without
the code of the implicit return, and the flag stays unset: no compound statement nested in a
body receives a `return 0`. Second, for a function with an implicit return zero whose body
has no return statement among its top-level statements, the output is the output of its
statements rendered by that renderer, then `return 0`, the destructor calls of the return, a
semicolon if there were none, and the closing brace. Third, when a top-level return statement
exists, the body is rendered as the renderer without the implicit return renders it. Fourth,
for `main` with the body `{ { } }` the one `return 0` stands after the nested block, before
the closing brace of the body, and for `main` with the body `{ return 1; }` there is none. -/
theorem implicit_return_zero_once :
    (∀ (o : InsightsOptions) (stmt : Stmt) (g : CodeGenerator),
      g.mRequiresImplicitReturnZero = false →
        InsertArg o stmt g = InsertArgPlain o stmt g ∧
        (InsertArg o stmt g).mRequiresImplicitReturnZero = false) ∧
    (∀ (o : InsightsOptions) (parameters : List VarDecl) (body : List Stmt)
        (g : CodeGenerator),
      (body.any fun e => e.isReturnStmt) = false →
        (InsertMethodBody o true parameters body g).mOutputFormatHelper
          = (HandleCompoundStmtPlain o body
              (bodyEntry o parameters body
                { g with mRequiresImplicitReturnZero := true })).mOutputFormatHelper
            ++ [Token.kwReturn, Token.Space, Token.Literal 0]
            ++ (HandleCompoundStmtPlain o body
                (bodyEntry o parameters body
                  { g with mRequiresImplicitReturnZero := true })).mLifeTimeTracker.Return.map
                Token.DtorCall
            ++ (if (HandleCompoundStmtPlain o body
                  (bodyEntry o parameters body
                    { g with
                      mRequiresImplicitReturnZero := true })).mLifeTimeTracker.Return.isEmpty
                then [Token.SemiNewLine] else [])
            ++ [Token.CloseScope]) ∧
    (∀ (o : InsightsOptions) (parameters : List VarDecl) (body : List Stmt)
        (g : CodeGenerator),
      (body.any fun e => e.isReturnStmt) = true →
        InsertMethodBody o true parameters body g
          = InsertArgPlain o (Stmt.CompoundStmt body)
              (addParameters o parameters { g with mRequiresImplicitReturnZero := false })) ∧
    (InsertMethodBody ⟨true⟩ true [] Sample.mainWithNestedBlock
        Sample.atFunctionStart).mOutputFormatHelper
      = [Token.OpenScope, Token.OpenScope, Token.CloseScope, Token.SemiNewLine,
          Token.kwReturn, Token.Space, Token.Literal 0, Token.SemiNewLine,
          Token.CloseScope] ∧
    (InsertMethodBody ⟨true⟩ true [] Sample.mainWithReturn
        Sample.atFunctionStart).mOutputFormatHelper
      = [Token.OpenScope, Token.kwReturn, Token.Space, Token.Literal 1, Token.SemiNewLine,
          Token.CloseScope] := by
  refine ⟨?_, ?_, ?_, rfl, rfl⟩
  · intro o stmt g hg
    exact InsertArg_agree o stmt g g ⟨rfl, hg⟩
  · intro o parameters body g hnone
    have hstart : ({ addParameters o parameters { g with mRequiresImplicitReturnZero := true }
        with mLastStmt := some (Stmt.CompoundStmt body)
        } : CodeGenerator).mRequiresImplicitReturnZero = true :=
      addParameters_keeps o parameters { g with mRequiresImplicitReturnZero := true }
    rw [InsertMethodBody_eq, if_pos rfl, hnone]
    simp only [Bool.not_false]
    rw [InsertArgCompoundStmt_output_of_required (HandleCompoundStmt o body) _ hstart]
    have hb := HandleCompoundStmt_agree o body
      (bodyEntry o parameters body { g with mRequiresImplicitReturnZero := true }) _ ⟨rfl, rfl⟩
    have e : HandleCompoundStmt o body
        (bodyEntry o parameters body { g with mRequiresImplicitReturnZero := true })
        = HandleCompoundStmtPlain o body
            (bodyEntry o parameters body { g with mRequiresImplicitReturnZero := true }) :=
      hb.1
    rw [← e]
    rfl
  · intro o parameters body g hsome
    have hstart : ({ addParameters o parameters { g with mRequiresImplicitReturnZero := false }
        with mLastStmt := some (Stmt.CompoundStmt body)
        } : CodeGenerator).mRequiresImplicitReturnZero = false :=
      addParameters_keeps o parameters { g with mRequiresImplicitReturnZero := false }
    rw [InsertMethodBody_eq, if_pos rfl, hsome, InsertArgPlain]
    simp only [Bool.not_true]
    exact (InsertArgCompoundStmt_agree _ _
      (fun x y hxy => HandleCompoundStmt_agree o body x y hxy) _ _ ⟨rfl, hstart⟩).1

theorem implicit_return_zero_once_witness :
    (Sample.mainWithReturn.any fun e => e.isReturnStmt) = true ∧
    InsertMethodBody ⟨true⟩ true [] Sample.mainWithReturn Sample.atFunctionStart
      = InsertArgPlain ⟨true⟩ (Stmt.CompoundStmt Sample.mainWithReturn)
          (addParameters ⟨true⟩ []
            { Sample.atFunctionStart with mRequiresImplicitReturnZero := false }) :=
  ⟨rfl, implicit_return_zero_once.2.2.1 ⟨true⟩ [] Sample.mainWithReturn Sample.atFunctionStart
    rfl⟩

end ImplicitReturn

section ArrayFill

open CodeGenerator

/-! ## C17: the fill limit of arrays -/

theorem fill_loop (value : List Char) (indices : List Nat) :
    ∀ text : OutputFormatHelper,
      indices.foldl
          (fun (state : OutputFormatHelper × Bool) (_ : Nat) =>
            (OutputFormatHelper.Append (OutputFormatHelper.AppendComma state.1 state.2) value,
              true))
          (text, true)
        = (text ++ commaPrefixed indices.length value, true) := by
  induction indices with
  | nil => intro text; simp [commaPrefixed]
  | cons i rest ih =>
    intro text
    rw [List.foldl_cons]
    refine (ih _).trans ?_
    simp [commaPrefixed, List.replicate_succ, OutputFormatHelper.AppendComma,
      OutputFormatHelper.Append]

theorem FillConstantArray_eq (arraySize : Nat) (value : List Char) (startAt : Nat) :
    FillConstantArray (some arraySize) value startAt
      = if startAt = 0 then commaSeparated (min arraySize MAX_FILL_VALUES_FOR_ARRAYS) value
        else commaPrefixed (min arraySize MAX_FILL_VALUES_FOR_ARRAYS - startAt) value := by
  unfold FillConstantArray for_each
  simp only [Nat.zero_max]
  by_cases h0 : startAt = 0
  · subst h0
    simp only [if_true, Nat.sub_zero, ne_eq, not_true_eq_false, decide_False]
    cases hk : min arraySize MAX_FILL_VALUES_FOR_ARRAYS with
    | zero => simp [commaSeparated]
    | succ k =>
      rw [List.range'_succ, List.foldl_cons]
      have e := fill_loop value (List.range' (0 + 1) k) value
      refine (congrArg Prod.fst e).trans ?_
      simp [commaSeparated, commaPrefixed]
  · have hd : decide (0 ≠ startAt) = true := by
      simp only [ne_eq, decide_eq_true_eq]
      exact fun h => h0 h.symm
    simp only [h0, if_false, hd]
    rw [fill_loop]
    simp

theorem count_commaPrefixed (k : Nat) (value : List Char) :
    (commaPrefixed k value).count ',' = k * (value.count ',' + 1) := by
  induction k with
  | zero => simp [commaPrefixed]
  | succ k ih =>
    unfold commaPrefixed at ih ⊢
    rw [List.replicate_succ, List.flatten_cons, List.count_append, ih]
    simp [List.count_cons]
    ring

theorem count_commaSeparated (k : Nat) (value : List Char) :
    (commaSeparated k value).count ',' + 1 ≤ max 1 (k * (value.count ',' + 1)) := by
  cases k with
  | zero => simp [commaSeparated]
  | succ k =>
    unfold commaSeparated
    have h := count_commaPrefixed k value
    unfold commaPrefixed at h
    rw [List.count_append, h]
    have : value.count ',' + k * (value.count ',' + 1) + 1
        = (k + 1) * (value.count ',' + 1) := by ring
    omega

theorem GetValueOfValueInit_scalar (kind : ScalarTypeKind) (builtin : Option BuiltinKind) :
    (GetValueOfValueInit (.scalar kind builtin none)).count ',' = 0 := by
  rcases builtin with _ | b
  · cases kind <;> decide
  · cases kind <;> cases b <;> decide

theorem GetValueOfValueInit_complex (kind : ScalarTypeKind) (builtin : Option BuiltinKind)
    (elementType : QualType) :
    GetValueOfValueInit (.scalar kind builtin (some elementType))
      = if kind = .STK_FloatingComplex ∨ kind = .STK_IntegralComplex then
          GetValueOfValueInit elementType
        else GetValueOfValueInit (.scalar kind builtin none) := by
  cases kind <;> simp [GetValueOfValueInit]

theorem count_GetValueOfValueInit :
    ∀ t : QualType,
      (GetValueOfValueInit t).count ',' + 1 ≤ MAX_FILL_VALUES_FOR_ARRAYS ^ t.arrayDepth
  | .scalar kind builtin (some elementType) => by
    have ih := count_GetValueOfValueInit elementType
    rw [GetValueOfValueInit_complex, QualType.arrayDepth]
    split
    · exact ih
    · rw [GetValueOfValueInit_scalar]
      exact Nat.one_le_pow _ _ (by decide)
  | .scalar kind builtin none => by
    rw [GetValueOfValueInit_scalar, QualType.arrayDepth]
    exact Nat.le_refl _
  | .constantArray size elementType => by
    have ih := count_GetValueOfValueInit elementType
    rw [GetValueOfValueInit, FillConstantArray_eq, if_pos rfl, QualType.arrayDepth]
    have h1 := count_commaSeparated (min size MAX_FILL_VALUES_FOR_ARRAYS)
      (GetValueOfValueInit elementType)
    have h2 : min size MAX_FILL_VALUES_FOR_ARRAYS
          * ((GetValueOfValueInit elementType).count ',' + 1)
        ≤ MAX_FILL_VALUES_FOR_ARRAYS
          * MAX_FILL_VALUES_FOR_ARRAYS ^ elementType.arrayDepth :=
      Nat.mul_le_mul (Nat.min_le_right _ _) ih
    have h3 : 1 ≤ MAX_FILL_VALUES_FOR_ARRAYS
          * MAX_FILL_VALUES_FOR_ARRAYS ^ elementType.arrayDepth :=
      Nat.mul_le_mul (show 1 ≤ MAX_FILL_VALUES_FOR_ARRAYS by decide)
        (Nat.one_le_pow _ _ (by decide))
    rw [Nat.pow_succ, Nat.mul_comm]
    omega
  | .other => by
    rw [GetValueOfValueInit, QualType.arrayDepth]
    decide

/-- C17, as amended. One call of `FillConstantArray` writes at most
`MAX_FILL_VALUES_FOR_ARRAYS` (100) copies of the fill value: none for a null pointer, and for
an array type of `size` elements `min(size, 100)` copies separated by `, ` when `startAt` is
0, and `min(size, 100) - startAt` copies, each after `, `, otherwise. Through
`GetValueOfValueInit` the limit holds at each level of nested array types on its own, so the
text shows at most 100 to the power of the nesting depth values. -/
theorem fill_limit_per_call :
    (∀ (value : List Char) (startAt : Nat), FillConstantArray none value startAt = []) ∧
    (∀ (arraySize : Nat) (value : List Char),
      FillConstantArray (some arraySize) value 0
        = commaSeparated (min arraySize MAX_FILL_VALUES_FOR_ARRAYS) value ∧
      min arraySize MAX_FILL_VALUES_FOR_ARRAYS ≤ MAX_FILL_VALUES_FOR_ARRAYS) ∧
    (∀ (arraySize : Nat) (value : List Char) (startAt : Nat), startAt ≠ 0 →
      FillConstantArray (some arraySize) value startAt
        = commaPrefixed (min arraySize MAX_FILL_VALUES_FOR_ARRAYS - startAt) value ∧
      min arraySize MAX_FILL_VALUES_FOR_ARRAYS - startAt ≤ MAX_FILL_VALUES_FOR_ARRAYS) ∧
    (∀ t : QualType,
      shownValues (GetValueOfValueInit t) ≤ MAX_FILL_VALUES_FOR_ARRAYS ^ t.arrayDepth) := by
  refine ⟨fun _ _ => rfl, ?_, ?_, ?_⟩
  · intro arraySize value
    exact ⟨by rw [FillConstantArray_eq, if_pos rfl], Nat.min_le_right _ _⟩
  · intro arraySize value startAt h0
    exact ⟨by rw [FillConstantArray_eq, if_neg h0],
      Nat.le_trans (Nat.sub_le _ _) (Nat.min_le_right _ _)⟩
  · intro t
    have h := count_GetValueOfValueInit t
    unfold shownValues
    split
    · exact Nat.zero_le _
    · exact h

theorem fill_limit_per_call_witness :
    (2 : Nat) ≠ 0 ∧
    FillConstantArray (some 5) ['0'] 2
      = commaPrefixed (min 5 MAX_FILL_VALUES_FOR_ARRAYS - 2) ['0'] ∧
    min 5 MAX_FILL_VALUES_FOR_ARRAYS - 2 ≤ MAX_FILL_VALUES_FOR_ARRAYS :=
  ⟨by decide, fill_limit_per_call.2.2.1 5 ['0'] 2 (by decide)⟩

set_option maxRecDepth 100000 in
/-- C17, the claim as stated fails. For the type `int[51][2]` each of the 51 elements of the
outer array is the text `0, 0` of an inner array: the text of `GetValueOfValueInit` shows 102
values, more than `MAX_FILL_VALUES_FOR_ARRAYS`. -/
theorem fill_limit_counterexample :
    shownValues (GetValueOfValueInit Sample.nestedArray) = 102 ∧
    ¬ shownValues (GetValueOfValueInit Sample.nestedArray) ≤ MAX_FILL_VALUES_FOR_ARRAYS := by
  decide

end ArrayFill

section Templates

open CodeGenerator

/-! ## C19: the specializations of a class template -/

theorem count_filter_eq {α : Type} [DecidableEq α] (p : α → Bool) (a : α) (l : List α) :
    (l.filter p).count a = if p a = true then l.count a else 0 := by
  induction l with
  | nil => simp
  | cons x rest ih =>
    by_cases hx : p x = true
    · rw [List.filter_cons_of_pos hx, List.count_cons, List.count_cons, ih]
      by_cases hxa : x = a
      · subst hxa
        simp [hx]
      · have : (x == a) = false := by simpa using hxa
        simp [this]
    · rw [List.filter_cons_of_neg hx, ih]
      by_cases hxa : x = a
      · subst hxa
        simp [hx]
      · have : (x == a) = false := by simpa using hxa
        simp [List.count_cons, this]

/-- C19 (specializations are rendered sorted by point of instantiation). With a sort that
keeps the contract of `ranges::sort`, `InsertArg(ClassTemplateDecl)` renders the template
parameters and the templated declaration and then a list of specializations that is a
rearrangement of the specializations of kind `TSK_ImplicitInstantiation` (each of them once,
and no explicit specialization and no explicit instantiation) in which the points of
instantiation do not decrease. -/
theorem specializations_sorted_by_point_of_instantiation
    (sort : List ClassTemplateSpecializationDecl → List ClassTemplateSpecializationDecl)
    (hsort : SortsByPointOfInstantiation sort) (stmt : ClassTemplateDecl) :
    ∃ rendered : List ClassTemplateSpecializationDecl,
      InsertArgClassTemplateDecl sort stmt
        = [RenderedDecl.TemplateParameters stmt.templateParameters,
            RenderedDecl.Decl stmt.templatedDecl]
          ++ rendered.map RenderedDecl.Specialization ∧
      rendered.Perm (stmt.specializations.filter fun spec =>
        spec.specializationKind = TemplateSpecializationKind.TSK_ImplicitInstantiation) ∧
      rendered.Pairwise (fun a b => a.pointOfInstantiation ≤ b.pointOfInstantiation) ∧
      (∀ spec, spec ∈ rendered ↔
        spec ∈ stmt.specializations ∧
          spec.specializationKind = TemplateSpecializationKind.TSK_ImplicitInstantiation) ∧
      ∀ spec, rendered.count spec
        = if spec.specializationKind = TemplateSpecializationKind.TSK_ImplicitInstantiation
          then stmt.specializations.count spec else 0 := by
  have hfilter : (stmt.specializations.filter fun spec =>
      TemplateSpecializationKind.TSK_ImplicitInstantiation == spec.specializationKind)
      = stmt.specializations.filter fun spec =>
        spec.specializationKind = TemplateSpecializationKind.TSK_ImplicitInstantiation := by
    congr 1
    funext spec
    cases spec.specializationKind <;> rfl
  obtain ⟨hperm, hpair⟩ := hsort (stmt.specializations.filter fun spec =>
    spec.specializationKind = TemplateSpecializationKind.TSK_ImplicitInstantiation)
  refine ⟨_, by rw [InsertArgClassTemplateDecl, hfilter], hperm, ?_, ?_, ?_⟩
  · exact hpair.imp fun h => Nat.le_of_not_lt h
  · intro spec
    rw [hperm.mem_iff]
    simp
  · intro spec
    rw [hperm.count_eq, count_filter_eq]
    simp

theorem sortByPointOfInstantiation_sorts :
    SortsByPointOfInstantiation Sample.sortByPointOfInstantiation := by
  intro l
  haveI : IsTotal ClassTemplateSpecializationDecl
      (fun a b => a.pointOfInstantiation ≤ b.pointOfInstantiation) :=
    ⟨fun a b => Nat.le_total _ _⟩
  haveI : IsTrans ClassTemplateSpecializationDecl
      (fun a b => a.pointOfInstantiation ≤ b.pointOfInstantiation) :=
    ⟨fun _ _ _ h1 h2 => Nat.le_trans h1 h2⟩
  refine ⟨List.perm_insertionSort _ l, ?_⟩
  have h := List.sorted_insertionSort
    (fun a b : ClassTemplateSpecializationDecl =>
      a.pointOfInstantiation ≤ b.pointOfInstantiation) l
  exact List.Pairwise.imp (fun h => Nat.not_lt.2 h) h

theorem specializations_sorted_by_point_of_instantiation_witness :
    SortsByPointOfInstantiation Sample.sortByPointOfInstantiation ∧
    InsertArgClassTemplateDecl Sample.sortByPointOfInstantiation Sample.classTemplate
      = [RenderedDecl.TemplateParameters 1, RenderedDecl.Decl 2,
          RenderedDecl.Specialization
            { decl := 5, specializationKind := .TSK_ImplicitInstantiation,
              pointOfInstantiation := 70 },
          RenderedDecl.Specialization
            { decl := 3, specializationKind := .TSK_ImplicitInstantiation,
              pointOfInstantiation := 90 }] ∧
    ∃ rendered : List ClassTemplateSpecializationDecl,
      InsertArgClassTemplateDecl Sample.sortByPointOfInstantiation Sample.classTemplate
        = [RenderedDecl.TemplateParameters Sample.classTemplate.templateParameters,
            RenderedDecl.Decl Sample.classTemplate.templatedDecl]
          ++ rendered.map RenderedDecl.Specialization ∧
      rendered.Perm (Sample.classTemplate.specializations.filter fun spec =>
        spec.specializationKind = TemplateSpecializationKind.TSK_ImplicitInstantiation) ∧
      rendered.Pairwise (fun a b => a.pointOfInstantiation ≤ b.pointOfInstantiation) ∧
      (∀ spec, spec ∈ rendered ↔
        spec ∈ Sample.classTemplate.specializations ∧
          spec.specializationKind = TemplateSpecializationKind.TSK_ImplicitInstantiation) ∧
      ∀ spec, rendered.count spec
        = if spec.specializationKind = TemplateSpecializationKind.TSK_ImplicitInstantiation
          then Sample.classTemplate.specializations.count spec else 0 :=
  ⟨sortByPointOfInstantiation_sorts, by decide,
    specializations_sorted_by_point_of_instantiation Sample.sortByPointOfInstantiation
      sortByPointOfInstantiation_sorts Sample.classTemplate⟩

/-! ## C20: the end of a template argument list -/

end Templates

section InitializerLists

open CodeGenerator

/-! ## C21: the filler continues the list of initializers -/

theorem intercalate_cons_eq (sep value : List Char) (values : List (List Char)) :
    List.intercalate sep (value :: values)
      = value ++ (values.map fun v => sep ++ v).flatten := by
  induction values generalizing value with
  | nil => simp [List.intercalate]
  | cons w rest ih =>
    have h := ih w
    simp only [List.intercalate, List.intersperse, List.flatten_cons, List.map_cons] at h ⊢
    rw [h]
    simp

theorem intercalate_append_eq (sep : List Char) (front back : List (List Char))
    (hfront : front ≠ []) (hback : back ≠ []) :
    List.intercalate sep (front ++ back)
      = List.intercalate sep front ++ sep ++ List.intercalate sep back := by
  obtain ⟨a, front, rfl⟩ := List.exists_cons_of_ne_nil hfront
  obtain ⟨b, back, rfl⟩ := List.exists_cons_of_ne_nil hback
  rw [List.cons_append, intercalate_cons_eq, intercalate_cons_eq, intercalate_cons_eq]
  simp

theorem commaPrefixed_eq (k : Nat) (value : List Char) :
    commaPrefixed (k + 1) value
      = [',', ' '] ++ List.intercalate [',', ' '] (List.replicate (k + 1) value) := by
  rw [List.replicate_succ, intercalate_cons_eq]
  simp [commaPrefixed, List.replicate_succ, List.map_replicate]

theorem commaSeparated_eq (k : Nat) (value : List Char) :
    commaSeparated k value = List.intercalate [',', ' '] (List.replicate k value) := by
  cases k with
  | zero => simp [commaSeparated, List.intercalate]
  | succ k =>
    rw [List.replicate_succ, intercalate_cons_eq]
    simp [commaSeparated, List.map_replicate]

theorem FillConstantArray_intercalate (arraySize : Nat) (value : List Char) (startAt : Nat) :
    FillConstantArray (some arraySize) value startAt
      = if min arraySize MAX_FILL_VALUES_FOR_ARRAYS ≤ startAt then []
        else (if startAt = 0 then [] else [',', ' '])
          ++ List.intercalate [',', ' ']
              (List.replicate (min arraySize MAX_FILL_VALUES_FOR_ARRAYS - startAt) value) := by
  rw [FillConstantArray_eq]
  by_cases h0 : startAt = 0
  · subst h0
    simp only [if_true, Nat.sub_zero, List.nil_append, Nat.le_zero_eq]
    rw [commaSeparated_eq]
    by_cases hk : min arraySize MAX_FILL_VALUES_FOR_ARRAYS = 0
    · simp [hk, List.intercalate]
    · simp [hk]
  · simp only [h0, if_false]
    by_cases hle : min arraySize MAX_FILL_VALUES_FOR_ARRAYS ≤ startAt
    · simp [hle, Nat.sub_eq_zero_of_le hle, commaPrefixed]
    · simp only [hle, if_false]
      obtain ⟨k, hk⟩ : ∃ k, min arraySize MAX_FILL_VALUES_FOR_ARRAYS - startAt = k + 1 :=
        ⟨min arraySize MAX_FILL_VALUES_FOR_ARRAYS - startAt - 1, by omega⟩
      rw [hk, commaPrefixed_eq]

theorem ForEachArg_fold {α : Type} (InsertArg : α → OutputFormatHelper → OutputFormatHelper)
    (text : α → List Char) (hrender : ∀ a ofm, InsertArg a ofm = ofm ++ text a)
    (arguments : List α) :
    ∀ ofm : OutputFormatHelper,
      arguments.foldl
          (fun (state : OutputFormatHelper × Bool) arg =>
            (InsertArg arg (OutputFormatHelper.AppendComma state.1 state.2), true))
          (ofm, true)
        = (ofm ++ ((arguments.map text).map fun v => [',', ' '] ++ v).flatten,
            true) := by
  induction arguments with
  | nil => intro ofm; simp
  | cons a rest ih =>
    intro ofm
    rw [List.foldl_cons]
    refine (ih _).trans ?_
    simp [hrender, OutputFormatHelper.AppendComma, OutputFormatHelper.Append]

theorem ForEachArg_intercalate {α : Type}
    (InsertArg : α → OutputFormatHelper → OutputFormatHelper)
    (text : α → List Char) (hrender : ∀ a ofm, InsertArg a ofm = ofm ++ text a)
    (arguments : List α) (ofm : OutputFormatHelper) :
    OutputFormatHelper.ForEachArg arguments InsertArg ofm
      = ofm ++ List.intercalate [',', ' '] (arguments.map text) := by
  unfold OutputFormatHelper.ForEachArg
  cases arguments with
  | nil => simp [List.intercalate]
  | cons a rest =>
    rw [List.foldl_cons]
    have e := ForEachArg_fold InsertArg text hrender rest
      (InsertArg a (OutputFormatHelper.AppendComma ofm false))
    refine (congrArg Prod.fst e).trans ?_
    rw [List.map_cons, intercalate_cons_eq]
    simp [hrender, OutputFormatHelper.AppendComma]

/-- C21 (the filler text continues a list of initializers). `FillConstantArray(ct, value,
startAt)` returns the empty text when `ct` is null or `startAt` is not below
`min(size(ct), 100)`; otherwise it returns `min(size(ct), 100) - startAt` copies of `value`
separated by `, `, after a leading `, ` exactly when `startAt` is not 0, and nothing follows
the last copy. When the initializers are rendered by appending their text,
`InsertArg(InitListExpr)` on a list of a constant array type with a filler writes, between
the braces, the initializers and then the copies of the filler as one list separated by
`, `. -/
theorem filler_continues_initializer_list {α : Type}
    (InsertArg : α → OutputFormatHelper → OutputFormatHelper) (text : α → List Char)
    (hrender : ∀ a ofm, InsertArg a ofm = ofm ++ text a)
    (ct : Option Nat) (value : List Char) (startAt : Nat)
    (inits : List α) (filler : α) (size : Nat) (elementType : QualType)
    (mOutputFormatHelper : OutputFormatHelper) :
    (FillConstantArray ct value startAt
      = match ct with
        | none => []
        | some arraySize =>
          if min arraySize 100 ≤ startAt then []
          else (if startAt = 0 then [] else [',', ' '])
            ++ List.intercalate [',', ' ']
                (List.replicate (min arraySize 100 - startAt) value)) ∧
    InsertArgInitListExpr false false InsertArg
        { inits := inits, arrayFiller := some filler, type := .constantArray size elementType }
        mOutputFormatHelper
      = mOutputFormatHelper ++ ['{']
          ++ List.intercalate [',', ' ']
              (inits.map text ++ List.replicate (min size 100 - inits.length) (text filler))
          ++ ['}'] := by
  constructor
  · cases ct with
    | none => rfl
    | some arraySize => exact FillConstantArray_intercalate arraySize value startAt
  · unfold InsertArgInitListExpr WrapInCurliesIfNeeded
    simp only [Bool.false_and, Bool.not_false, Bool.true_or, if_true, Bool.and_false,
      QualType.asConstantArrayType, OutputFormatHelper.Append]
    rw [if_neg (by simp)]
    rw [ForEachArg_intercalate InsertArg text hrender, hrender, List.nil_append,
      FillConstantArray_intercalate]
    have hmax : MAX_FILL_VALUES_FOR_ARRAYS = 100 := rfl
    rw [hmax]
    by_cases hle : min size 100 ≤ inits.length
    · simp [hle, Nat.sub_eq_zero_of_le hle]
    · rw [if_neg hle]
      by_cases h0 : inits.length = 0
      · have hnil : inits = [] := List.length_eq_zero.mp h0
        subst hnil
        simp [List.intercalate]
      · rw [if_neg h0]
        have hfront : inits.map text ≠ [] := by
          intro h
          exact h0 (by simpa using congrArg List.length h)
        have hback : List.replicate (min size 100 - inits.length) (text filler) ≠ [] := by
          intro h
          have := congrArg List.length h
          simp at this
          omega
        rw [intercalate_append_eq _ _ _ hfront hback]
        simp

/-- C21 on `int a[5] = {1, 2};`: the filler for the three missing elements is `, 0, 0, 0`,
and the list is rendered as `{1, 2, 0, 0, 0}`. -/
theorem filler_continues_initializer_list_witness :
    FillConstantArray (some 5) ['0'] 2 = ", 0, 0, 0".toList ∧
    InsertArgInitListExpr false false Sample.appendArgument Sample.partlyInitialized
        "int a[5] = ".toList
      = "int a[5] = \x7b1, 2, 0, 0, 0\x7d".toList := by
  have h := filler_continues_initializer_list Sample.appendArgument id (fun _ _ => rfl)
    (some 5) ['0'] 2 [['1'], ['2']] ['0'] 5 Sample.intType "int a[5] = ".toList
  constructor
  · rw [h.1]
    decide
  · exact h.2.trans (by decide)

end InitializerLists

section OutsideBuffer

open WithFaults

/-! ## C22: the buffer outside of the generator -/

theorem advancePosition_ne_nullDereference (size : Nat) (g : PositionState) :
    advancePosition size g ≠ .error .nullDereference := by
  unfold advancePosition value
  rcases g.mCurrentReturnPos with _ | p <;> rcases g.mCurrentVarDeclPos with _ | p <;>
    rcases g.mCurrentCallExprPos with _ | p <;> simp

theorem InsertAt_ne_nullDereference (ofm : OutputFormatHelper) (atPos : Nat)
    (data : List Char) : InsertAt ofm atPos data ≠ .error .nullDereference := by
  unfold InsertAt
  cases OutputFormatHelper.InsertAt ofm atPos data <;> simp

theorem nullDereference_iff (o : PositionOptions) (stmt : CXXStdInitializerListExpr)
    (g : PositionState) :
    InsertArgCXXStdInitializerListExpr o stmt g = .error .nullDereference ↔
      (o.UseShowInitializerList = true ∧ g.mCurrentFieldPos.isSome = true ∧
        g.mCurrentVarDeclPos = none ∧ g.mCurrentReturnPos = none ∧
        g.mCurrentCallExprPos = none ∧ g.mOutputFormatHelperOutside = none ∧
        (o.ShowLifetime = false ∨ ∀ name size, stmt.subExpr ≠ .DeclRefExpr name size)) := by
  unfold InsertArgCXXStdInitializerListExpr
  by_cases huse : o.UseShowInitializerList = true
  swap
  · simp [huse]
  rw [if_pos huse]
  by_cases hguard : (g.mCurrentVarDeclPos.isNone && g.mCurrentFieldPos.isNone
      && g.mCurrentReturnPos.isNone && g.mCurrentCallExprPos.isNone) = true
  · rw [if_pos hguard]
    simp only [Bool.and_eq_true, Option.isNone_iff_eq_none] at hguard
    simp [hguard.1.1.2]
  rw [if_neg hguard]
  rcases hsubE : stmt.subExpr with ⟨name, size⟩ | numInits | _ <;>
    rcases hlife : o.ShowLifetime with _ | _
  any_goals (simp; done)
  all_goals
    dsimp only
    by_cases hout : (g.mCurrentVarDeclPos.isNone && g.mCurrentReturnPos.isNone
        && g.mCurrentCallExprPos.isNone) = true
    · simp only [hout, if_true]
      have hout2 := hout
      simp only [Bool.and_eq_true, Option.isNone_iff_eq_none] at hout2
      have hfield : g.mCurrentFieldPos.isSome = true := by
        rcases hf : g.mCurrentFieldPos with _ | p
        · simp [hf, hout2.1.1, hout2.1.2, hout2.2] at hguard
        · rfl
      rcases ho : g.mOutputFormatHelperOutside with _ | outside
      · simp [huse, hfield, hout2.1.1, hout2.1.2, hout2.2]
      · simp only [reduceCtorEq, and_false, false_and, iff_false]
        split
        · rename_i fault hfault
          intro h
          injection h with h
          subst h
          exact InsertAt_ne_nullDereference _ _ _ hfault
        · exact advancePosition_ne_nullDereference _ _
    · simp only [hout, Bool.false_eq_true, if_false]
      have hrhs : ¬ (g.mCurrentVarDeclPos = none ∧ g.mCurrentReturnPos = none ∧
          g.mCurrentCallExprPos = none) := by
        rintro ⟨h1, h2, h3⟩
        simp [h1, h2, h3] at hout
      constructor
      · intro h
        exfalso
        revert h
        split
        · rename_i fault hfault
          intro h
          injection h with h
          subst h
          exact InsertAt_ne_nullDereference _ _ _ hfault
        · exact advancePosition_ne_nullDereference _ _
      · rintro ⟨_, _, h1, h2, h3, _⟩
        exact absurd ⟨h1, h2, h3⟩ hrhs

/-- C22, the code at the failing input. `InsertArg(CXXStdInitializerListExpr)` dereferences
a null `mOutputFormatHelperOutside` exactly when the expansion of initializer lists is on, a
field position is recorded, no position of a variable, a return or a call is recorded, the
pointer is null, and the statement does not take the early exit of a `DeclRefExpr` under
`ShowLifetime`. Such a state is reached by rendering: a generator with no recorded position
and a null pointer (as it is constructed) that renders an aggregate whose first declaration
is a field with an initializer list as in-class initializer records the field position in
`InsertArg(CXXRecordDecl)`, comes to the initializer through `InsertArg(FieldDecl)`, and
stops at the null pointer; so it does for `struct S { std::initializer_list<int> l = {1, 2};
};`. -/
theorem field_initializer_dereferences_null :
    (∀ (o : PositionOptions) (stmt : CXXStdInitializerListExpr) (g : PositionState),
      InsertArgCXXStdInitializerListExpr o stmt g = .error .nullDereference ↔
        (o.UseShowInitializerList = true ∧ g.mCurrentFieldPos.isSome = true ∧
          g.mCurrentVarDeclPos = none ∧ g.mCurrentReturnPos = none ∧
          g.mCurrentCallExprPos = none ∧ g.mOutputFormatHelperOutside = none ∧
          (o.ShowLifetime = false ∨ ∀ name size, stmt.subExpr ≠ .DeclRefExpr name size))) ∧
    (∀ (ShowLifetime : Bool) (head tail access declarator : List Char)
        (bitWidth : Option (List Char)) (assignBeforeInitializer : Bool)
        (rest : List MemberDecl)
        (typeName internalListName typeNameAsParameter subExprText : List Char) (numInits : Nat)
        (mOutputFormatHelper : OutputFormatHelper),
      InsertArgCXXRecordDecl { UseShowInitializerList := true, ShowLifetime := ShowLifetime }
          { head := head
            isAggregate := true
            decls :=
              .FieldDecl access
                { declarator := declarator
                  bitWidth := bitWidth
                  inClassInitializer :=
                    some (.CXXStdInitializerListExpr
                      { typeName := typeName
                        subExpr := .MaterializedInitList numInits
                        internalListName := internalListName
                        typeNameAsParameter := typeNameAsParameter
                        subExprText := subExprText })
                  assignBeforeInitializer := assignBeforeInitializer } :: rest
            tail := tail }
          { mOutputFormatHelper := mOutputFormatHelper }
        = .error .nullDereference) ∧
    InsertArgCXXRecordDecl Sample.showInitializerList Sample.recordWithListField {}
      = .error .nullDereference := by
  have general : ∀ (ShowLifetime : Bool) (head tail access declarator : List Char)
      (bitWidth : Option (List Char)) (assignBeforeInitializer : Bool)
      (rest : List MemberDecl)
      (typeName internalListName typeNameAsParameter subExprText : List Char) (numInits : Nat)
      (mOutputFormatHelper : OutputFormatHelper),
      InsertArgCXXRecordDecl { UseShowInitializerList := true, ShowLifetime := ShowLifetime }
          { head := head
            isAggregate := true
            decls :=
              .FieldDecl access
                { declarator := declarator
                  bitWidth := bitWidth
                  inClassInitializer :=
                    some (.CXXStdInitializerListExpr
                      { typeName := typeName
                        subExpr := .MaterializedInitList numInits
                        internalListName := internalListName
                        typeNameAsParameter := typeNameAsParameter
                        subExprText := subExprText })
                  assignBeforeInitializer := assignBeforeInitializer } :: rest
            tail := tail }
          { mOutputFormatHelper := mOutputFormatHelper }
        = .error .nullDereference := by
    intro ShowLifetime head tail access declarator bitWidth assignBeforeInitializer rest
      typeName internalListName typeNameAsParameter subExprText numInits mOutputFormatHelper
    have key : ∀ g : PositionState, g.mCurrentFieldPos.isSome = true →
        g.mCurrentVarDeclPos = none → g.mCurrentReturnPos = none →
        g.mCurrentCallExprPos = none → g.mOutputFormatHelperOutside = none →
        InsertArg { UseShowInitializerList := true, ShowLifetime := ShowLifetime }
            (.CXXStdInitializerListExpr
              { typeName := typeName
                subExpr := .MaterializedInitList numInits
                internalListName := internalListName
                typeNameAsParameter := typeNameAsParameter
                subExprText := subExprText }) g
          = .error .nullDereference := by
      intro g h1 h2 h3 h4 h5
      rw [InsertArg]
      exact (nullDereference_iff _ _ g).2
        ⟨rfl, h1, h2, h3, h4, h5, Or.inr fun name size h => by cases h⟩
    unfold InsertArgCXXRecordDecl
    simp only [InsertDecls, InsertArgFieldDecl]
    rw [key]
    all_goals cases bitWidth <;> cases assignBeforeInitializer <;> rfl
  refine ⟨nullDereference_iff, general, ?_⟩
  exact general false _ _ _ _ _ _ _ _ _ _ _ _ _

end OutsideBuffer

section CallPosition

open WithFaults

/-! ## C23: the position of a call after a nested call -/

theorem InsertArg_CallExpr_eq (o : PositionOptions) (callee : Expr) (arguments : List Expr)
    (g : PositionState) :
    InsertArg o (.CallExpr callee arguments) g
      = match InsertArg o callee (UpdateCurrentCallExprPos g) with
        | .error fault => .error fault
        | .ok g =>
          match ForEachArg o arguments false (WithFaults.Append g ['(']) with
          | .error fault => .error fault
          | .ok g => .ok { WithFaults.Append g [')'] with mCurrentCallExprPos := none } := by
  rw [InsertArg]

/-- C23, the code at the failing input. `InsertArg(CallExpr)` ends with
`mCurrentCallExprPos.reset()`: whenever it returns, no call position is recorded, whatever
was recorded before. For `f(g(), {1, 2})`, rendered as an expression on its own with the
expansion of initializer lists on, the position of `f` is lost when `g()` returns, the
initializer list finds no recorded position and writes nothing, and the output is
`f(g(), )`; the same list as the only argument, `f({1, 2})`, is expanded at the position of
the call. -/
theorem nested_call_resets_call_position :
    (∀ (o : PositionOptions) (callee : Expr) (arguments : List Expr) (g : PositionState),
      match InsertArg o (.CallExpr callee arguments) g with
      | .ok g' => g'.mCurrentCallExprPos = none
      | .error _ => True) ∧
    InsertArg Sample.showInitializerList (.CallExpr (.Other ['g']) [])
        { mOutputFormatHelper := "f(".toList, mCurrentCallExprPos := some 0 }
      = .ok { mOutputFormatHelper := "f(g()".toList, mCurrentCallExprPos := none } ∧
    InsertArg Sample.showInitializerList Sample.nestedCallBeforeList {}
      = .ok { mOutputFormatHelper := "f(g(), )".toList } ∧
    InsertArg Sample.showInitializerList Sample.callWithList {}
      = .ok { mOutputFormatHelper :=
                ("const int __list0[2]\x7b1, 2\x7d;\n"
                  ++ "f(std::initializer_list<int>\x7b__list0, 2\x7d)").toList } := by
  refine ⟨?_, ?_, ?_, ?_⟩
  · intro o callee arguments g
    rw [InsertArg_CallExpr_eq]
    cases InsertArg o callee (UpdateCurrentCallExprPos g) with
    | error fault => trivial
    | ok g1 =>
      dsimp only
      cases ForEachArg o arguments false (WithFaults.Append g1 ['(']) with
      | error fault => trivial
      | ok g2 => rfl
  · rfl
  · rfl
  · rfl

end CallPosition

section RecordedPositions

open WithFaults

/-! ## C24: the optional that is read when a position is advanced -/

theorem advancePosition_of_return (size pos : Nat) (g : PositionState)
    (h : g.mCurrentReturnPos = some pos) :
    advancePosition size g = .ok { g with mCurrentReturnPos := some (pos + size) } := by
  simp [advancePosition, h, value]

theorem advancePosition_of_varDecl (size pos : Nat) (g : PositionState)
    (hr : g.mCurrentReturnPos = none) (h : g.mCurrentVarDeclPos = some pos) :
    advancePosition size g = .ok { g with mCurrentVarDeclPos := some (pos + size) } := by
  simp [advancePosition, hr, h, value]

theorem advancePosition_of_callExpr (size pos : Nat) (g : PositionState)
    (hr : g.mCurrentReturnPos = none) (hv : g.mCurrentVarDeclPos = none)
    (h : g.mCurrentCallExprPos = some pos) :
    advancePosition size g = .ok { g with mCurrentCallExprPos := some (pos + size) } := by
  simp [advancePosition, hr, hv, h, value]

theorem advancePosition_no_fault (size : Nat) (g : PositionState)
    (h : (g.mCurrentReturnPos.isSome || g.mCurrentVarDeclPos.isSome
      || g.mCurrentCallExprPos.isSome) = true) :
    ∃ g', advancePosition size g = .ok g' := by
  rcases hr : g.mCurrentReturnPos with _ | pos
  · rcases hv : g.mCurrentVarDeclPos with _ | pos
    · rcases hc : g.mCurrentCallExprPos with _ | pos
      · simp [hr, hv, hc] at h
      · exact ⟨_, advancePosition_of_callExpr size pos g hr hv hc⟩
    · exact ⟨_, advancePosition_of_varDecl size pos g hr hv⟩
  · exact ⟨_, advancePosition_of_return size pos g hr⟩

/-- The rendering with faults agrees with the rendering that only tells whether it
failed. -/
theorem InsertArgCXXStdInitializerListExpr_toOption (o : PositionOptions)
    (stmt : CXXStdInitializerListExpr) (g : PositionState) :
    (match InsertArgCXXStdInitializerListExpr o stmt g with
      | .ok g' => some g'
      | .error _ => none)
      = CodeGenerator.InsertArgCXXStdInitializerListExpr o.UseShowInitializerList
          o.ShowLifetime stmt g := by
  unfold InsertArgCXXStdInitializerListExpr CodeGenerator.InsertArgCXXStdInitializerListExpr
  by_cases huse : o.UseShowInitializerList = true
  swap
  · simp [huse, WithFaults.Append]
  rw [if_pos huse, if_pos huse]
  by_cases hguard : (g.mCurrentVarDeclPos.isNone && g.mCurrentFieldPos.isNone
      && g.mCurrentReturnPos.isNone && g.mCurrentCallExprPos.isNone) = true
  · rw [if_pos hguard, if_pos hguard]
  rw [if_neg hguard, if_neg hguard]
  rcases hsubE : stmt.subExpr with ⟨name, size⟩ | numInits | _ <;>
    rcases hlife : o.ShowLifetime with _ | _
  any_goals rfl
  all_goals
    dsimp only
    by_cases hout : (g.mCurrentVarDeclPos.isNone && g.mCurrentReturnPos.isNone
        && g.mCurrentCallExprPos.isNone) = true
    · simp only [hout, if_true]
      rcases ho : g.mOutputFormatHelperOutside with _ | outside
      · rfl
      · simp only [WithFaults.InsertAt]
        rcases hi : OutputFormatHelper.InsertAt outside (g.mCurrentFieldPos.getD 0)
            (CodeGenerator.backingArrayText "static inline ".toList stmt) with _ | inserted
        · rfl
        · simp only [Bool.and_eq_true, Option.isNone_iff_eq_none] at hout
          simp [advancePosition, WithFaults.Append, value, hout.1.2]
    · simp only [hout, Bool.false_eq_true, if_false]
      simp only [WithFaults.InsertAt]
      rcases hi : OutputFormatHelper.InsertAt g.mOutputFormatHelper
          (g.mCurrentReturnPos.getD (g.mCurrentVarDeclPos.getD (g.mCurrentCallExprPos.getD 0)))
          (CodeGenerator.backingArrayText [] stmt) with _ | inserted
      · rfl
      · rcases hr : g.mCurrentReturnPos with _ | p
        · rcases hv : g.mCurrentVarDeclPos with _ | p
          · rcases hc : g.mCurrentCallExprPos with _ | p
            · simp [hr, hv, hc] at hout
            · simp [advancePosition, WithFaults.Append, value, hr, hv, hc]
          · simp [advancePosition, WithFaults.Append, value, hr, hv]
        · simp [advancePosition, WithFaults.Append, value, hr]

/-- C24 (no empty optional is read when the position is advanced). For every choice of the
options, every statement and every generator state, `InsertArg(CXXStdInitializerListExpr)`
does not stop at a `.value()` of an empty optional; and in a state that passes the guard at
the start and gets past the splice, the chain at the end is reached with a recorded position
of a return, a variable or a call, and advances it: the chain by itself stops at an empty
optional exactly when none of the three is recorded, and where none of them was recorded on
entry, the lambda `ofmToInsert` has set `mCurrentVarDeclPos` before. So with only the field
position 0 recorded and a buffer outside, the list of the field `l` is expanded into that
buffer and `mCurrentVarDeclPos` ends as 0 plus the 42 characters of the backing array. -/
theorem advance_reads_no_empty_optional (o : PositionOptions)
    (stmt : CXXStdInitializerListExpr) (g : PositionState) :
    InsertArgCXXStdInitializerListExpr o stmt g ≠ .error .badOptionalAccess ∧
    (∀ size g1, advancePosition size g1 = .error .badOptionalAccess ↔
      (g1.mCurrentReturnPos = none ∧ g1.mCurrentVarDeclPos = none ∧
        g1.mCurrentCallExprPos = none)) ∧
    InsertArgCXXStdInitializerListExpr Sample.showInitializerList Sample.listOfField
        { mOutputFormatHelper := "l = ".toList
          mOutputFormatHelperOutside := some "S s;".toList
          mCurrentFieldPos := some 0 }
      = .ok { mOutputFormatHelper := "l = std::initializer_list<int>\x7b__list1, 2\x7d".toList
              mOutputFormatHelperOutside :=
                some "static inline const int __list1[2]\x7b1, 2\x7d;\nS s;".toList
              mCurrentFieldPos := some 0
              mCurrentVarDeclPos := some 42 } := by
  refine ⟨?_, ?_, rfl⟩
  · unfold InsertArgCXXStdInitializerListExpr
    by_cases huse : o.UseShowInitializerList = true
    swap
    · simp [huse]
    rw [if_pos huse]
    split
    · simp
    · rename_i hguard
      split
      · simp
      · simp only
        split
        · simp
        · rename_i ofmToInsert htarget
          split
          · rename_i fault hins
            intro h
            injection h with h
            subst h
            unfold InsertAt at hins
            split at hins <;> simp at hins
          · rename_i inserted hins
            intro hbad
            have key : ∀ (g2 : PositionState) (size : Nat),
                (g2.mCurrentReturnPos.isSome || g2.mCurrentVarDeclPos.isSome
                  || g2.mCurrentCallExprPos.isSome) = true →
                advancePosition size g2 ≠ .error .badOptionalAccess := by
              intro g2 size h2 hb
              obtain ⟨g', hg'⟩ := advancePosition_no_fault size g2 h2
              rw [hg'] at hb
              cases hb
            refine key _ _ ?_ hbad
            by_cases hout : (g.mCurrentVarDeclPos.isNone && g.mCurrentReturnPos.isNone
                && g.mCurrentCallExprPos.isNone) = true
            · simp [hout, WithFaults.Append]
            · simp only [hout, Bool.false_eq_true, if_false, WithFaults.Append]
              rcases hr : g.mCurrentReturnPos with _ | p
              · rcases hv : g.mCurrentVarDeclPos with _ | p
                · rcases hc : g.mCurrentCallExprPos with _ | p
                  · simp [hr, hv, hc] at hout
                  · simp
                · simp
              · simp
  · intro size g1
    constructor
    · intro h
      rcases hr : g1.mCurrentReturnPos with _ | pos
      · rcases hv : g1.mCurrentVarDeclPos with _ | pos
        · rcases hc : g1.mCurrentCallExprPos with _ | pos
          · exact ⟨rfl, rfl, rfl⟩
          · rw [advancePosition_of_callExpr size pos g1 hr hv hc] at h
            cases h
        · rw [advancePosition_of_varDecl size pos g1 hr hv] at h
          cases h
      · rw [advancePosition_of_return size pos g1 hr] at h
        cases h
    · rintro ⟨hr, hv, hc⟩
      simp [advancePosition, hr, hv, hc, value]

end RecordedPositions

section Vtables

/-! ## C25: the position of a vtable -/

theorem toInt32_of_lt (n : Nat) (h : n < 2 ^ 31) : toInt32 n = n := by
  unfold toInt32
  have e : (n + 2 ^ 31) % 2 ^ 32 = n + 2 ^ 31 := Nat.mod_eq_of_lt (by omega)
  rw [e]
  push_cast
  ring

theorem find_if_eq {α : Type} (range : List α) (pred : α → Bool) (i : Nat)
    (hi : i < range.length) (hp : pred (range.get ⟨i, hi⟩) = true)
    (hfirst : ∀ j (hj : j < i), pred (range.get ⟨j, Nat.lt_trans hj hi⟩) = false) :
    find_if range pred = i := by
  unfold find_if
  rw [List.findIdx_eq hi]
  exact ⟨hp, fun j hj => hfirst j hj⟩

theorem find_if_eq_length {α : Type} (range : List α) (pred : α → Bool)
    (h : ∀ x ∈ range, pred x = false) : find_if range pred = range.length :=
  List.findIdx_eq_length_of_false h

/-- C25 (vtable position lookup). On a table of fewer than `2^31` entries,
`GetGlobalVtablePos(r, b)` is the index of the first entry of the pair `(r, b)`; without such
an entry it is the index of the first entry whose first record is `r`; without such an entry
either it is the number of entries. After `PushVtableEntry(r, b, d)` on a table without an
entry of the pair `(r, b)` it is the index of the new entry. -/
theorem vtable_position_lookup (gVtables : List VtableEntry) (r b : Nat)
    (hsize : gVtables.length < 2 ^ 31) :
    (∀ i (hi : i < gVtables.length), (gVtables.get ⟨i, hi⟩).1 = (r, b) →
      (∀ j (hj : j < i), (gVtables.get ⟨j, Nat.lt_trans hj hi⟩).1 ≠ (r, b)) →
      GetGlobalVtablePos gVtables r b = i) ∧
    ((∀ e ∈ gVtables, e.1 ≠ (r, b)) →
      ∀ i (hi : i < gVtables.length), (gVtables.get ⟨i, hi⟩).1.1 = r →
        (∀ j (hj : j < i), (gVtables.get ⟨j, Nat.lt_trans hj hi⟩).1.1 ≠ r) →
        GetGlobalVtablePos gVtables r b = i) ∧
    ((∀ e ∈ gVtables, e.1.1 ≠ r) → GetGlobalVtablePos gVtables r b = gVtables.length) ∧
    ((∀ e ∈ gVtables, e.1 ≠ (r, b)) → ∀ d,
      GetGlobalVtablePos (PushVtableEntry gVtables r b d) r b = gVtables.length ∧
      (PushVtableEntry gVtables r b d)[gVtables.length]? = some ((r, b), d)) := by
  have hexact : ∀ e : VtableEntry, (e.1.1 == r && e.1.2 == b) = true ↔ e.1 = (r, b) := by
    rintro ⟨⟨x, y⟩, z⟩
    simp
  have hexactF : ∀ e : VtableEntry, (e.1.1 == r && e.1.2 == b) = false ↔ e.1 ≠ (r, b) := by
    intro e
    rw [Ne, ← hexact e]
    simp
  refine ⟨?_, ?_, ?_, ?_⟩
  · intro i hi hp hfirst
    have e : find_if gVtables (fun e => e.1.1 == r && e.1.2 == b) = i :=
      find_if_eq _ _ i hi ((hexact _).2 hp) fun j hj => (hexactF _).2 (hfirst j hj)
    unfold GetGlobalVtablePos
    simp only [e]
    rw [if_neg (by simpa using Nat.ne_of_lt hi)]
    exact toInt32_of_lt i (by omega)
  · intro hnone i hi hp hfirst
    have e1 : find_if gVtables (fun e => e.1.1 == r && e.1.2 == b) = gVtables.length :=
      find_if_eq_length _ _ fun x hx => (hexactF x).2 (hnone x hx)
    have e2 : find_if gVtables (fun e => e.1.1 == r) = i :=
      find_if_eq _ _ i hi (by simpa using hp) fun j hj => by simpa using hfirst j hj
    unfold GetGlobalVtablePos
    simp only [e1, beq_self_eq_true, if_true, e2]
    exact toInt32_of_lt i (by omega)
  · intro hnone
    have e1 : find_if gVtables (fun e => e.1.1 == r && e.1.2 == b) = gVtables.length :=
      find_if_eq_length _ _ fun x hx => by
        have := hnone x hx
        simp [this]
    have e2 : find_if gVtables (fun e => e.1.1 == r) = gVtables.length :=
      find_if_eq_length _ _ fun x hx => by simpa using hnone x hx
    unfold GetGlobalVtablePos
    simp only [e1, beq_self_eq_true, if_true, e2]
    exact toInt32_of_lt _ hsize
  · intro hnone d
    have hlen : (PushVtableEntry gVtables r b d).length = gVtables.length + 1 := by
      simp [PushVtableEntry]
    have hi : gVtables.length < (PushVtableEntry gVtables r b d).length := by omega
    have hget : (PushVtableEntry gVtables r b d)[gVtables.length]? = some ((r, b), d) := by
      simp [PushVtableEntry]
    have e : find_if (PushVtableEntry gVtables r b d) (fun e => e.1.1 == r && e.1.2 == b)
        = gVtables.length := by
      unfold find_if PushVtableEntry
      rw [List.findIdx_append]
      have hl : List.findIdx (fun e : VtableEntry => e.1.1 == r && e.1.2 == b) gVtables
          = gVtables.length :=
        List.findIdx_eq_length_of_false fun x hx => (hexactF x).2 (hnone x hx)
      rw [hl]
      simp [List.findIdx_cons]
    refine ⟨?_, hget⟩
    unfold GetGlobalVtablePos
    simp only [e, hlen]
    rw [if_neg (by simp)]
    exact toInt32_of_lt _ hsize

/-- C25 on a concrete table: the pair `(3, 5)` is found at index 2, the first of its two
entries; the pair `(3, 9)` has no entry and the lookup falls back to index 1, the first entry
of record 3; record 7 has no entry and the result is 4, the number of entries; and after
`PushVtableEntry(3, 9, 14)` the lookup of `(3, 9)` gives index 4, the new entry. -/
theorem vtable_position_lookup_witness :
    Sample.vtables.length < 2 ^ 31 ∧
    GetGlobalVtablePos Sample.vtables 3 5 = 2 ∧
    GetGlobalVtablePos Sample.vtables 3 9 = 1 ∧
    GetGlobalVtablePos Sample.vtables 7 1 = 4 ∧
    GetGlobalVtablePos (PushVtableEntry Sample.vtables 3 9 14) 3 9 = 4 := by
  have h := vtable_position_lookup Sample.vtables 3 5 (by decide)
  have h2 := vtable_position_lookup Sample.vtables 3 9 (by decide)
  have h3 := vtable_position_lookup Sample.vtables 7 1 (by decide)
  refine ⟨by decide, ?_, ?_, ?_, ?_⟩
  · exact h.1 2 (by decide) rfl (by decide)
  · exact h2.2.1 (by decide) 1 (by decide) rfl (by decide)
  · exact h3.2.2.1 (by decide)
  · exact (h2.2.2.2 (by decide) 14).1

end Vtables

section Semicolons

open CompoundBody

/-! ## C26: the semicolon after a statement of a compound statement -/

theorem HandleCompoundStmt_append {α : Type} (cls : GeneratorClass) (classOf : α → StmtClass)
    (InsertArg : α → CompoundState → CompoundState) (front back : List α) :
    ∀ g : CompoundState,
      HandleCompoundStmt cls classOf InsertArg (front ++ back) g
        = HandleCompoundStmt cls classOf InsertArg back
            (HandleCompoundStmt cls classOf InsertArg front g) := by
  induction front with
  | nil => intro g; rfl
  | cons item rest ih =>
    intro g
    rw [List.cons_append, HandleCompoundStmt, HandleCompoundStmt, ih]

theorem HandleCompoundStmt_mSkipSemi {α : Type} (cls : GeneratorClass)
    (classOf : α → StmtClass) (InsertArg : α → CompoundState → CompoundState)
    (body : List α) :
    ∀ (first : α) (g : CompoundState),
      (HandleCompoundStmt cls classOf InsertArg (first :: body) g).mSkipSemi = false := by
  induction body with
  | nil => intro first g; rfl
  | cons item rest ih =>
    intro first g
    rw [HandleCompoundStmt]
    exact ih item _

/-- C26 (statement terminators in a compound statement). Take any statement `item` of a body,
with the statements `front` before it, and let `g1` be the generator right after
`InsertArg(item)`. Then `HandleCompoundStmt` writes `;` and a new line after it exactly when
`item` is of none of the ten classes `IfStmt`, `NullStmt`, `ForStmt`, `DeclStmt`,
`WhileStmt`, `DoStmt`, `CXXForRangeStmt`, `SwitchStmt`, `CXXTryStmt`,
`CppInsightsCommentStmt`, `InsertSemi()` yields `true` in `g1`, it is not so that `item` is a
lambda expression and the lambda stack is empty in `g1`, and `mSkipSemi` is `false` in `g1`;
nothing else is written and the lambda stack stays as it is. `mSkipSemi` is `false` after
every statement of the body, so each statement is rendered from `mSkipSemi = false` unless
it is the first of the body. On the body `; f(); if(c) {} g()` the null statement writes its
own `;` and asks to skip the next one, and `f()` after it gets its `;` all the same: a
`CodeGenerator` writes `;`, `f();`, the `if` and `g();`, a `MultiStmtDeclCodeGenerator`
adds no `;`, and a `CfrontCodeGenerator` whose `mInsertSemi` is `false` leaves out the `;`
of `f()` only. -/
theorem semicolon_after_body_statement {α : Type} (cls : GeneratorClass)
    (classOf : α → StmtClass) (InsertArg : α → CompoundState → CompoundState)
    (front : List α) (item : α) (g : CompoundState) :
    (HandleCompoundStmt cls classOf InsertArg (front ++ [item]) g).mOutputFormatHelper
      = (InsertArg item (HandleCompoundStmt cls classOf InsertArg front g)).mOutputFormatHelper
        ++ (if decide (classOf item ∉
                [StmtClass.IfStmt, .NullStmt, .ForStmt, .DeclStmt, .WhileStmt, .DoStmt,
                  .CXXForRangeStmt, .SwitchStmt, .CXXTryStmt, .CppInsightsCommentStmt])
              && (InsertSemi cls
                    (InsertArg item (HandleCompoundStmt cls classOf InsertArg front g))).1
              && ! (decide (classOf item = .LambdaExpr)
                    && (InsertArg item
                          (HandleCompoundStmt cls classOf InsertArg front g)).mLambdaStack.isEmpty)
              && ! (InsertArg item
                      (HandleCompoundStmt cls classOf InsertArg front g)).mSkipSemi
            then [';', '\n'] else []) ∧
    (HandleCompoundStmt cls classOf InsertArg (front ++ [item]) g).mLambdaStack
      = (InsertArg item (HandleCompoundStmt cls classOf InsertArg front g)).mLambdaStack ∧
    (HandleCompoundStmt cls classOf InsertArg (front ++ [item]) g).mSkipSemi = false ∧
    (HandleCompoundStmt cls classOf InsertArg front g).mSkipSemi
      = (front.isEmpty && g.mSkipSemi) ∧
    (HandleCompoundStmt .CodeGenerator Prod.fst Sample.renderItem Sample.bodyWithNullStmt
        {}).mOutputFormatHelper
      = ";\nf();\nif(c) \x7b\x7d\ng();\n".toList ∧
    (HandleCompoundStmt .MultiStmtDeclCodeGenerator Prod.fst Sample.renderItem
        Sample.bodyWithNullStmt {}).mOutputFormatHelper
      = ";\nf()if(c) \x7b\x7d\ng()".toList ∧
    (HandleCompoundStmt .CfrontCodeGenerator Prod.fst Sample.renderItem
        Sample.bodyWithNullStmt { mInsertSemi := false }).mOutputFormatHelper
      = ";\nf()if(c) \x7b\x7d\ng();\n".toList := by
  have hlast : (HandleCompoundStmt cls classOf InsertArg front g).mSkipSemi
      = (front.isEmpty && g.mSkipSemi) := by
    cases front with
    | nil => rfl
    | cons first rest =>
      rw [HandleCompoundStmt_mSkipSemi]
      rfl
  have hreq : IsStmtRequiringSemi
        [.IfStmt, .NullStmt, .ForStmt, .DeclStmt, .WhileStmt, .DoStmt, .CXXForRangeStmt,
          .SwitchStmt, .CXXTryStmt, .CppInsightsCommentStmt] (classOf item)
      = decide (classOf item ∉
          [StmtClass.IfStmt, .NullStmt, .ForStmt, .DeclStmt, .WhileStmt, .DoStmt,
            .CXXForRangeStmt, .SwitchStmt, .CXXTryStmt, .CppInsightsCommentStmt]) := by
    cases classOf item <;> rfl
  have hlam : (classOf item == StmtClass.LambdaExpr)
      = decide (classOf item = StmtClass.LambdaExpr) := by
    cases classOf item <;> rfl
  have hmain :
      (HandleCompoundStmt cls classOf InsertArg (front ++ [item]) g).mOutputFormatHelper
        = (InsertArg item
            (HandleCompoundStmt cls classOf InsertArg front g)).mOutputFormatHelper
          ++ (if decide (classOf item ∉
                  [StmtClass.IfStmt, .NullStmt, .ForStmt, .DeclStmt, .WhileStmt, .DoStmt,
                    .CXXForRangeStmt, .SwitchStmt, .CXXTryStmt, .CppInsightsCommentStmt])
                && (InsertSemi cls
                      (InsertArg item (HandleCompoundStmt cls classOf InsertArg front g))).1
                && ! (decide (classOf item = .LambdaExpr)
                      && (InsertArg item
                            (HandleCompoundStmt cls classOf InsertArg front
                              g)).mLambdaStack.isEmpty)
                && ! (InsertArg item
                        (HandleCompoundStmt cls classOf InsertArg front g)).mSkipSemi
              then [';', '\n'] else []) ∧
      (HandleCompoundStmt cls classOf InsertArg (front ++ [item]) g).mLambdaStack
        = (InsertArg item (HandleCompoundStmt cls classOf InsertArg front g)).mLambdaStack ∧
      (HandleCompoundStmt cls classOf InsertArg (front ++ [item]) g).mSkipSemi = false := by
    rw [HandleCompoundStmt_append]
    simp only [HandleCompoundStmt, hreq, hlam, StackList.empty]
    generalize InsertArg item (HandleCompoundStmt cls classOf InsertArg front g) = g1
    generalize decide (classOf item ∉
      [StmtClass.IfStmt, .NullStmt, .ForStmt, .DeclStmt, .WhileStmt, .DoStmt,
        .CXXForRangeStmt, .SwitchStmt, .CXXTryStmt, .CppInsightsCommentStmt]) = req
    generalize decide (classOf item = StmtClass.LambdaExpr) = lam
    refine ⟨?_, ?_, trivial⟩
    · cases req <;> cases cls <;> cases lam <;> cases hs : g1.mSkipSemi <;>
        cases hi : g1.mInsertSemi <;> cases he : g1.mLambdaStack.isEmpty <;>
        simp [InsertSemi, AppendSemiNewLine, hs, hi, he, OutputFormatHelper.Append]
    · cases req <;> cases cls <;> cases lam <;> cases hs : g1.mSkipSemi <;>
        cases hi : g1.mInsertSemi <;> cases he : g1.mLambdaStack.isEmpty <;>
        simp [InsertSemi, AppendSemiNewLine, hs, hi, he, OutputFormatHelper.Append]
  exact ⟨hmain.1, hmain.2.1, hmain.2.2, hlast, rfl, rfl, rfl⟩

end Semicolons

end CppInsights
